import Mathlib

/-!
# Micro26 VFO firmware (`micro26.c`): frequency control and state management

A shallow embedding of the frequency-control core of the ATmega328p firmware.

Machine model (avr-gcc): `int` is a 16-bit and `long` a 32-bit two's-complement
integer, `unsigned long` is 32 bits, `unsigned char` is 8 bits.  Values are held
in `Int`; every C operation whose result may leave the range of its type is
followed by the matching reduction (`wrap16`, `wrap32`, `u32`, `u8`).
Display calls (`oled_*`, `show_*`) and the port writes of `set_tone` and `set_agc`
have no effect on the modelled state and are left out.  A `double` is a binary
floating-point number with a 24-bit significand (avr-gcc implements `double` in the
IEEE 754 single format); its values are held in `ℚ` and every conversion to `double`
and every `double` operation rounds to the nearest such number, ties to even
(`to_double`).  Interrupts are modelled as separate steps (`ISR_TIMER1_COMPA`,
`ISR_PCINT2`) between the steps of `main`.
-/

namespace Micro26

/-! ## Machine integers -/

/-- Reduction of a mathematical integer to a signed 16-bit `int`. -/
def wrap16 (x : Int) : Int := (x + 32768) % 65536 - 32768

/-- Reduction of a mathematical integer to a signed 32-bit `long`. -/
def wrap32 (x : Int) : Int := (x + 2147483648) % 4294967296 - 2147483648

/-- Reduction of a mathematical integer to an `unsigned long`. -/
def u32 (x : Int) : Int := x % 4294967296

/-- Reduction of a mathematical integer to an `unsigned char`. -/
def u8 (x : Int) : Int := x % 256

/-! ## Constants -/

def INTERFREQUENCY : Int := 9000000
def F_LO_LSB : Int := 8998600
def F_LO_USB : Int := 9001700
def PLLRATIO : Nat := 36
def CFACTOR : Nat := 1048575
def SYNTH_MS_0 : Int := 42
def SYNTH_MS_1 : Int := 50

/-! ## EEPROM -/

/-- The EEPROM: its cells (address to byte) and the addresses written so far,
oldest first. -/
structure EEPROM where
  cell : Int → Int
  written : List Int

/-- Model of `eeprom_read_byte`: the byte at `adr`. -/
def eeprom_read_byte (e : EEPROM) (adr : Int) : Int := u8 (e.cell adr)

/-- Model of `eeprom_write_byte`: the value is truncated to `uint8_t`. -/
def eeprom_write_byte (e : EEPROM) (adr : Int) (v : Int) : EEPROM :=
  { cell := fun a => if a = adr then u8 v else e.cell a
    written := e.written ++ [adr] }

/-- Start address computed by `store_frequency` and `load_frequency`
(`int start_adr`). -/
def start_adr (vfo memory : Int) : Int :=
  if memory = -1 then wrap16 (vfo * 4) else wrap16 (wrap16 (memory * 4) + 16)

/-- Model of `store_frequency(long f, int vfo, int memory)`.  `>>` on a `long` is
the arithmetic shift; `hmsb << 8` and `lmsb << 8` are evaluated in `int`. -/
def store_frequency (e : EEPROM) (f vfo memory : Int) : EEPROM :=
  let adr := start_adr vfo memory
  let hiword := f / 65536
  let loword := wrap32 (f - wrap32 (hiword * 65536))
  let hmsb := u8 (hiword / 256)
  let hlsb := u8 (wrap32 (hiword - wrap16 (hmsb * 256)))
  let lmsb := u8 (loword / 256)
  let llsb := u8 (wrap32 (loword - wrap16 (lmsb * 256)))
  let e1 := eeprom_write_byte e adr hmsb
  let e2 := eeprom_write_byte e1 (adr + 1) hlsb
  let e3 := eeprom_write_byte e2 (adr + 2) lmsb
  eeprom_write_byte e3 (adr + 3) llsb

/-- Model of `load_frequency(int vfo, int memory)`: the weighted sum is taken in
`long`, the term `(unsigned int) 256 * lmsb` in `unsigned int`. -/
def load_frequency (e : EEPROM) (vfo memory : Int) : Int :=
  let adr := start_adr vfo memory
  let hmsb := eeprom_read_byte e adr
  let hlsb := eeprom_read_byte e (adr + 1)
  let lmsb := eeprom_read_byte e (adr + 2)
  let llsb := eeprom_read_byte e (adr + 3)
  wrap32 (wrap32 (wrap32 (wrap32 (16777216 * hmsb) + wrap32 (65536 * hlsb))
    + (256 * lmsb) % 65536) + llsb)

/-- Model of `is_mem_freq_ok(long f)`. -/
def is_mem_freq_ok (f : Int) : Int :=
  if f ≥ 13999990 ∧ f ≤ 14400000 then 1 else 0

/-! ## Si5351 -/

/-- Model of `si5351_write(reg_addr, reg_value)`: the register write appended to
the list of writes sent to the chip. -/
def si5351_write (reg_addr reg_value : Int) : List (Int × Int) := [(reg_addr, reg_value)]

/-- Number of bits in the significand of a `double` (`DBL_MANT_DIG` of `float.h`).
avr-gcc implements `double` in the 32-bit IEEE 754 single format, which has 24; a
64-bit `double` has 53. -/
def DBL_MANT_DIG : Nat := 24

/-- Rounding of a rational to the nearest integer, ties to the even one. -/
def round_even (x : ℚ) : Int :=
  if 2 * (x - ⌊x⌋) < 1 then ⌊x⌋
  else if 1 < 2 * (x - ⌊x⌋) then ⌊x⌋ + 1
  else if ⌊x⌋ % 2 = 0 then ⌊x⌋ else ⌊x⌋ + 1

/-- The unit in the last place of a binary floating-point number with a `p`-bit
significand, in the binade of `x`. -/
def ulp (p : Nat) (x : ℚ) : ℚ := 2 ^ (Int.log 2 |x| - (p : Int) + 1)

/-- The value `x` rounded to a binary floating-point number with a `p`-bit
significand, to nearest and ties to even: the result of a conversion to `double` and
of a `double` operation whose exact result is `x`.  The exponent range is not
limited; the values of `si5351_set_freq` stay far inside the range of both IEEE
formats. -/
def to_double (p : Nat) (x : ℚ) : ℚ := (round_even (x / ulp p x) : ℚ) * ulp p x

/-- The division factor `fdiv = (double) (f_xtal * PLLRATIO) / freq` of
`si5351_set_freq` for a `double` with a `p`-bit significand: both operands are
converted to `double`, the quotient is rounded.  `freq` is the value of the
`unsigned long` argument; the C code divides by zero for `freq = 0`. -/
def si5351_fdiv (p : Nat) (freq : Int) : ℚ :=
  to_double p (to_double p ((25000000 * PLLRATIO : Nat) : ℚ) / to_double p (freq : ℚ))

/-- The local `a = (unsigned long) fdiv` of `si5351_set_freq`: the conversion
truncates. -/
def si5351_a (p : Nat) (freq : Int) : Int := u32 ⌊si5351_fdiv p freq⌋

/-- The local `rm = fdiv - a` of `si5351_set_freq`: `a` is converted to `double`,
the difference is rounded. -/
def si5351_rm (p : Nat) (freq : Int) : ℚ :=
  to_double p (si5351_fdiv p freq - to_double p (si5351_a p freq : ℚ))

/-- The local `b = rm * c` of `si5351_set_freq`: `c` is converted to `double`, the
product is rounded and then truncated to `unsigned long`. -/
def si5351_b (p : Nat) (freq : Int) : Int :=
  u32 ⌊to_double p (si5351_rm p freq * to_double p (CFACTOR : ℚ))⌋

/-- The local `p1 = 128 * a + (unsigned long) (128 * b / c) - 512`, in
`unsigned long` arithmetic. -/
def si5351_p1 (p : Nat) (freq : Int) : Int :=
  u32 (u32 (u32 (128 * si5351_a p freq) + u32 (128 * si5351_b p freq) / CFACTOR) - 512)

/-- The local `p2 = 128 * b - c * (unsigned long) (128 * b / c)`, in
`unsigned long` arithmetic. -/
def si5351_p2 (p : Nat) (freq : Int) : Int :=
  u32 (u32 (128 * si5351_b p freq)
    - u32 (CFACTOR * (u32 (128 * si5351_b p freq) / CFACTOR)))

/-- The division factor in the words of the specification: the exact quotient
`25000000 * 36 / freq`. -/
def exact_fdiv (freq : Int) : ℚ := ((25000000 * PLLRATIO : Nat) : ℚ) / (freq : ℚ)

/-- The integer part `a` in the words of the specification: the floor of the exact
quotient. -/
def exact_a (freq : Int) : Int := ⌊exact_fdiv freq⌋

/-- The fractional part of the exact quotient. -/
def exact_rm (freq : Int) : ℚ := exact_fdiv freq - (exact_a freq : ℚ)

/-- The numerator `b` in the words of the specification: the floor of the exact
fractional part times `c`. -/
def exact_b (freq : Int) : Int := ⌊exact_rm freq * (CFACTOR : ℚ)⌋

/-- The eight register writes that end `si5351_set_freq` and `si5351_start`, for
given `p1` and `p2`. -/
def si5351_write_ms (synth : Int) (p1 p2 : Int) : List (Int × Int) :=
  si5351_write synth 0xFF
  ++ si5351_write (synth + 1) 0xFF
  ++ si5351_write (synth + 2) (((p1.toNat &&& 0x00030000) >>> 16 : Nat) : Int)
  ++ si5351_write (synth + 3) (((p1.toNat &&& 0x0000FF00) >>> 8 : Nat) : Int)
  ++ si5351_write (synth + 4) ((p1.toNat &&& 0x000000FF : Nat) : Int)
  ++ si5351_write (synth + 5) ((0xF0 ||| ((p2.toNat &&& 0x000F0000) >>> 16) : Nat) : Int)
  ++ si5351_write (synth + 6) (((p2.toNat &&& 0x0000FF00) >>> 8 : Nat) : Int)
  ++ si5351_write (synth + 7) ((p2.toNat &&& 0x000000FF : Nat) : Int)

/-- Model of `si5351_set_freq(int synth, unsigned long freq)`: the register writes
it issues, with the `double` of avr-gcc. -/
def si5351_set_freq (synth : Int) (freq : Int) : List (Int × Int) :=
  si5351_write_ms synth (si5351_p1 DBL_MANT_DIG freq) (si5351_p2 DBL_MANT_DIG freq)

/-- Model of `si5351_start()`: chip set-up, then both PLLs with `a = PLLRATIO`,
`b = 0`. -/
def si5351_start : List (Int × Int) :=
  let a : Int := PLLRATIO
  let b : Int := 0
  let c : Int := CFACTOR
  let p1 := u32 (u32 (u32 (128 * a) + u32 (128 * b) / c) - 512)
  let p2 := u32 (u32 (128 * b) - u32 (c * (u32 (128 * b) / c)))
  si5351_write 183 0xD2 ++ si5351_write 3 0x00 ++ si5351_write 16 0x0F
  ++ si5351_write 17 0x2F ++ si5351_write 18 0x2F ++ si5351_write 177 0xA0
  ++ si5351_write_ms 26 p1 p2 ++ si5351_write_ms 34 p1 p2

/-! ## Program state -/

/-- The globals of `micro26.c`, the locals of `main` that live across loop
iterations, the EEPROM, and the register writes sent to the Si5351 so far. -/
structure State where
  cur_vfo : Int
  sideband : Int
  tuningcount : Int
  tuningknob : Int
  laststate : Int
  runseconds10 : Int
  runseconds10x : Int
  f_lo : Int → Int
  f_vfo : Int → Int
  txrx : Int
  key : Int
  split : Int
  toneset : Int
  agcset : Int
  cur_mem : Int
  scan_thresh : Int
  eeprom : EEPROM
  si5351 : List (Int × Int)

/-- Model of `set_lo_frequency(long f)`; the argument is converted to
`unsigned long`. -/
def set_lo_frequency (s : State) (f : Int) : State :=
  { s with si5351 := s.si5351 ++ si5351_set_freq SYNTH_MS_0 (u32 f) }

/-- Model of `set_vfo_frequency(long f)`; the argument is converted to
`unsigned long`. -/
def set_vfo_frequency (s : State) (f : Int) : State :=
  { s with si5351 := s.si5351 ++ si5351_set_freq SYNTH_MS_1 (u32 f) }

/-! ## Interrupt service routines -/

/-- Model of `ISR(TIMER1_COMPA_vect)`. -/
def ISR_TIMER1_COMPA (s : State) : State :=
  { s with runseconds10 := wrap32 (s.runseconds10 + 1), tuningcount := 0 }

/-- Decoded encoder state for a sample `pind` of port D:
`gray = (PIND & 0x60) >> 5`, `state = (gray >> 1) ^ gray`. -/
def encoder_state (pind : Nat) : Int :=
  let gray := (pind &&& 0x60) >>> 5
  (((gray >>> 1) ^^^ gray : Nat) : Int)

/-- The increment `((laststate - state) & 0x03) - 2` of the encoder interrupt; on a
two's-complement `int`, `x & 0x03` is the remainder of `x` modulo 4. -/
def encoder_step (laststate state : Int) : Int := (laststate - state) % 4 - 2

/-- Model of `ISR(PCINT2_vect)` for a sample `pind` of port D. -/
def ISR_PCINT2 (pind : Nat) (s : State) : State :=
  let state := encoder_state pind
  if state ≠ s.laststate then
    { s with
      tuningknob := wrap16 (s.tuningknob + encoder_step s.laststate state)
      laststate := state
      tuningcount := wrap16 (s.tuningcount + 2) }
  else s

/-- The encoder interrupt run on a sequence of port samples, oldest first. -/
def run_PCINT2 (pinds : List Nat) (s : State) : State :=
  pinds.foldl (fun st p => ISR_PCINT2 p st) s

/-- The port samples `pinds` decode to states that advance by 1 modulo 4 at each
edge, starting from the state `last`. -/
def clockwise : Int → List Nat → Prop
  | _, [] => True
  | last, p :: ps => encoder_state p = (last + 1) % 4 ∧ clockwise (encoder_state p) ps

/-- The port samples `pinds` decode to states that go back by 1 modulo 4 at each
edge, starting from the state `last`. -/
def counterclockwise : Int → List Nat → Prop
  | _, [] => True
  | last, p :: ps =>
    encoder_state p = (last - 1) % 4 ∧ counterclockwise (encoder_state p) ps

/-! ## Settings in the EEPROM -/

/-- Model of `load_last_vfo()`. -/
def load_last_vfo (e : EEPROM) : Int :=
  let vfonum := eeprom_read_byte e 8
  if vfonum ≥ 0 ∧ vfonum ≤ 1 then vfonum else -1

/-- Model of `store_last_vfo(int vfonum)`. -/
def store_last_vfo (e : EEPROM) (vfonum : Int) : EEPROM := eeprom_write_byte e 8 vfonum

/-- Model of `store_last_mem(int val)`. -/
def store_last_mem (e : EEPROM) (val : Int) : EEPROM := eeprom_write_byte e 11 val

/-- Model of `recall_last_mem()`. -/
def recall_last_mem (e : EEPROM) : Int :=
  let x := eeprom_read_byte e 11
  if x ≥ 0 ∧ x ≤ 15 then x else -1

/-- Model of `store_tone(int val)`. -/
def store_tone (e : EEPROM) (val : Int) : EEPROM := eeprom_write_byte e 9 val

/-- Model of `recall_tone()`. -/
def recall_tone (e : EEPROM) : Int :=
  let x := eeprom_read_byte e 9
  if x = 0 ∨ x = 1 then x else -1

/-- Model of `store_agc(int val)`. -/
def store_agc (e : EEPROM) (val : Int) : EEPROM := eeprom_write_byte e 10 val

/-- Model of `recall_agc()`. -/
def recall_agc (e : EEPROM) : Int :=
  let x := eeprom_read_byte e 10
  if x = 0 ∨ x = 1 then x else -1

/-- Model of `store_scan_thresh(int val)`. -/
def store_scan_thresh (e : EEPROM) (val : Int) : EEPROM := eeprom_write_byte e 12 val

/-- Model of `recall_scan_thresh()`. -/
def recall_scan_thresh (e : EEPROM) : Int :=
  let x := eeprom_read_byte e 12
  if x ≥ 0 ∧ x ≤ 100 then x else -1

/-! ## `main`: start-up -/

/-- The globals and the locals of `main` at their initialisers, with the EEPROM
content found at power-up and after `si5351_start()`. -/
def main_start (e : EEPROM) : State :=
  { cur_vfo := 0, sideband := 0, tuningcount := 0, tuningknob := 0, laststate := 0
    runseconds10 := 0, runseconds10x := 0
    f_lo := fun i => if i = 0 then F_LO_USB else if i = 1 then F_LO_LSB else 0
    f_vfo := fun _ => 0
    txrx := 0, key := 0, split := 0, toneset := 0, agcset := 0, cur_mem := 0
    scan_thresh := 0
    eeprom := e
    si5351 := si5351_start }

/-- Body of the loop `for(t1 = 0; t1 < 2; t1++)` of `main` that loads VFO `t1`. -/
def main_load_vfo (t1 : Int) (s : State) : State :=
  let s1 := { s with f_vfo := Function.update s.f_vfo t1 (load_frequency s.eeprom t1 (-1)) }
  if is_mem_freq_ok (s1.f_vfo t1) = 0 then
    let s2 := { s1 with f_vfo := Function.update s1.f_vfo t1 14200000 }
    { s2 with eeprom := store_frequency s2.eeprom (s2.f_vfo t1) t1 (-1) }
  else s1

/-- The part `//Load VFO data and VFO number` of `main`. -/
def main_load_number (e : EEPROM) : State :=
  let s0 := main_start e
  let v := load_last_vfo s0.eeprom
  { s0 with cur_vfo := if v < 0 ∨ v > 1 then 0 else v }

/-- The parts `//Load VFO data and VFO number` and `//Load VFO with last stored freq`
of `main`. -/
def main_load (e : EEPROM) : State :=
  main_load_vfo 1 (main_load_vfo 0 (main_load_number e))

/-- The start-up part of `main`, from `cur_vfo = load_last_vfo()` to the last
statement before the endless loop, without interrupts. -/
def main_init (e : EEPROM) : State :=
  let s2 := main_load e
  let tone := recall_tone s2.eeprom
  let s3 := { s2 with toneset := if tone = -1 then 0 else tone }
  let agc := recall_agc s3.eeprom
  let s4 := { s3 with agcset := if agc = -1 then 0 else agc }
  let mem := recall_last_mem s4.eeprom
  let s5 := { s4 with cur_mem := if mem = -1 then 0 else mem }
  let th := recall_scan_thresh s5.eeprom
  let s6 := { s5 with scan_thresh := if th = -1 then 0 else th }
  let s7 := set_vfo_frequency s6 (wrap32 (s6.f_vfo s6.cur_vfo + INTERFREQUENCY))
  set_lo_frequency s7 (s7.f_lo s7.sideband)

/-! ## `main`: tuning -/

/-- Model of `calc_tuningfactor()`, in `int` arithmetic. -/
def calc_tuningfactor (s : State) : Int :=
  wrap16 (wrap16 (s.tuningcount * s.tuningcount) * -1)

/-- The first `if` of the `//TUNING` part of the endless loop of `main`
(`tuningknob > 2 && !txrx`). -/
def main_tuning_ccw (s : State) : State :=
  if s.tuningknob > 2 ∧ s.txrx = 0 then
    let f := wrap32 (s.f_vfo s.cur_vfo + calc_tuningfactor s)
    let sa := { s with f_vfo := Function.update s.f_vfo s.cur_vfo f }
    let sb := set_vfo_frequency sa (wrap32 (sa.f_vfo sa.cur_vfo + INTERFREQUENCY))
    { sb with tuningknob := 0 }
  else s

/-- The second `if` of the `//TUNING` part of the endless loop of `main`
(`tuningknob < -2 && !txrx`). -/
def main_tuning_cw (s : State) : State :=
  if s.tuningknob < -2 ∧ s.txrx = 0 then
    let f := wrap32 (s.f_vfo s.cur_vfo - calc_tuningfactor s)
    let sa := { s with f_vfo := Function.update s.f_vfo s.cur_vfo f }
    let sb := set_vfo_frequency sa (wrap32 (sa.f_vfo sa.cur_vfo + INTERFREQUENCY))
    { sb with tuningknob := 0 }
  else s

/-- The `//TUNING` part of one iteration of the endless loop of `main`, with no
interrupt between its statements. -/
def main_tuning (s : State) : State := main_tuning_cw (main_tuning_ccw s)

/-- The signed step that `main_tuning` adds to the active VFO: the operand of
`+=` when `tuningknob > 2`, the negated operand of `-=` otherwise. -/
def tuning_delta (s : State) : Int :=
  if s.tuningknob > 2 then calc_tuningfactor s else -calc_tuningfactor s

/-! ## Polling loops: what they read -/

/-- Model of `get_keys()` for the value `adcval` read from ADC channel 0. -/
def get_keys (adcval : Int) : Int :=
  if adcval > 88 - 10 ∧ adcval < 88 + 10 then 1
  else if adcval > 143 - 10 ∧ adcval < 143 + 10 then 2
  else 0

/-- What a polling loop finds at one sampling moment: the number of timer interrupts
since the previous moment, the value the encoder interrupts have left in
`tuningknob`, and the values that `get_keys()` and `get_s_value()` return when they
are called at this moment. -/
structure Poll where
  ticks : Nat
  knob : Int
  key : Int
  sval : Int
  deriving DecidableEq

/-- The timer interrupt run `n` times. -/
def run_TIMER1_COMPA : Nat → State → State
  | 0, s => s
  | n + 1, s => run_TIMER1_COMPA n (ISR_TIMER1_COMPA s)

/-- The interrupts between two sampling moments: `p.ticks` timer interrupts, and
encoder interrupts summarised by the value `p.knob` they leave in `tuningknob`
(`laststate` and `tuningcount`, which no polling loop reads, are not followed). -/
def interrupts (p : Poll) (s : State) : State :=
  { run_TIMER1_COMPA p.ticks s with tuningknob := p.knob }

/-- Model of `while(get_keys());`: polls are read until one shows no key.  The flag
is `false` when the polls are used up before that. -/
def wait_no_key (s : State) : List Poll → Bool × State × List Poll
  | [] => (false, s, [])
  | p :: ps => if p.key ≠ 0 then wait_no_key (interrupts p s) ps else (true, interrupts p s, ps)

/-! ## Menu -/

/-- The initialiser `MENUITEMS`: for each menu the index of its last item. -/
def MENUITEMS : List Int := [4, 1, 3, 2, 1, 1]

/-- The entry `menu_items[menu]`. -/
def menu_items (menu : Int) : Int := MENUITEMS.getD menu.toNat 0

/-- Locals of `navigate_thru_item_list` and of `mem_select` (`key`, the cursor
`menu_pos` or `c`, and `menu_pos_old`), the program state, and the polls not yet
read. -/
structure Menu where
  key : Int
  pos : Int
  old : Int
  state : State
  rest : List Poll

/-- Body of the loop `while(key == 0)` of `navigate_thru_item_list`, up to but not
including its last statement `key = get_keys()`; no interrupt inside the body. -/
def navigate_pass (m maxitems : Int) (c : Menu) : Menu :=
  let c1 :=
    if c.state.tuningknob < -2 then
      let pos := if c.pos < maxitems then wrap16 (c.pos + 1) else 0
      let st := { c.state with tuningknob := 0 }
      { c with pos := pos, state := st }
    else c
  let c2 :=
    if c1.state.tuningknob > 2 then
      let pos := if c1.pos > 0 then wrap16 (c1.pos - 1) else maxitems
      let st := { c1.state with tuningknob := 0 }
      { c1 with pos := pos, state := st }
    else c1
  if c2.pos ≠ c2.old then
    let st := if m = 1 then set_lo_frequency c2.state (c2.state.f_lo c2.pos) else c2.state
    { c2 with old := c2.pos, state := st }
  else c2

/-- The loop `while(key == 0)` of `navigate_thru_item_list`: each pass takes one
poll (the knob at its start, the key at its end).  The result has `key = 0` when
the polls are used up inside the loop. -/
def navigate_loop (m maxitems : Int) : Int → Int → Int → State → List Poll → Menu
  | key, pos, old, s, [] => { key := key, pos := pos, old := old, state := s, rest := [] }
  | key, pos, old, s, p :: ps =>
    if key = 0 then
      let c := navigate_pass m maxitems
        { key := key, pos := pos, old := old, state := interrupts p s, rest := ps }
      navigate_loop m maxitems p.key c.pos c.old c.state ps
    else { key := key, pos := pos, old := old, state := s, rest := p :: ps }

/-- Model of `navigate_thru_item_list(m, maxitems)`: the value returned, the state
and the polls left; `none` when the polls are used up before it returns. -/
def navigate_thru_item_list (m maxitems : Int) (s : State) :
    List Poll → Option (Int × State × List Poll)
  | [] => none
  | p :: ps =>
    let c := navigate_loop m maxitems p.key 0 (-1) (interrupts p s) ps
    if c.key = 0 then none
    else
      match wait_no_key c.state c.rest with
      | (false, _, _) => none
      | (true, s1, ps1) =>
        some (if c.key = 1 then -1 else if c.key = 2 then c.pos
              else if c.key = 11 then -11 else -1, s1, ps1)

/-- The blocks of `menux` for the menus in the list, in order: each waits for the
keys to be released, runs `navigate_thru_item_list(menu, menu_items[menu])`, returns
`menu * 10 + result` for `result > -1` and `-1` for `result == -11`, and otherwise
goes on to the next block; after the last block `menux` returns `-2`. -/
def menux_walk : List Int → State → List Poll → Option (Int × State × List Poll)
  | [], s, ps => some (-2, s, ps)
  | menu :: later, s, ps =>
    match wait_no_key s ps with
    | (false, _, _) => none
    | (true, s1, ps1) =>
      match navigate_thru_item_list menu (menu_items menu) s1 ps1 with
      | none => none
      | some (result, s2, ps2) =>
        if result > -1 then some (wrap16 (wrap16 (menu * 10) + result), s2, ps2)
        else if result = -11 then some (-1, s2, ps2)
        else menux_walk later s2 ps2

/-- Model of `menux(f, c_vfo)` (neither argument is used by the C function). -/
def menux (s : State) (ps : List Poll) : Option (Int × State × List Poll) :=
  menux_walk [0, 1, 2, 3, 4, 5] s ps

/-! ## Memory selection -/

/-- Model of `show_mem_menu_item(m_item, inv)`: the preview programs the
synthesizer when the slot is band-valid and `inv` is set. -/
def show_mem_menu_item (m_item inv : Int) (s : State) : State :=
  let f_tmp := load_frequency s.eeprom 0 m_item
  if is_mem_freq_ok f_tmp ≠ 0 ∧ inv ≠ 0 then
    set_vfo_frequency s (wrap32 (f_tmp + INTERFREQUENCY))
  else s

/-- The loop `for(t1 = 0; t1 < 16; t1++)` of `mem_select`, from `t1 = 16 - n`. -/
def mem_select_draw (c_mem : Int) : Nat → State → State
  | 0, s => s
  | n + 1, s =>
    let t1 : Int := 16 - (n + 1 : Nat)
    mem_select_draw c_mem n (show_mem_menu_item t1 (if t1 ≠ c_mem then 0 else 1) s)

/-- Body of the loop `while(!key)` of `mem_select`, up to but not including its
last statement `key = get_keys()`. -/
def mem_select_pass (c : Menu) : Menu :=
  let c1 :=
    if c.state.tuningknob < -2 then
      let s1 := show_mem_menu_item c.pos 0 c.state
      let pos := if c.pos < 15 then wrap16 (c.pos + 1) else 0
      let s2 := show_mem_menu_item pos 1 s1
      let st := { s2 with tuningknob := 0 }
      { c with pos := pos, state := st }
    else c
  if c1.state.tuningknob > 2 then
    let s1 := show_mem_menu_item c1.pos 0 c1.state
    let pos := if c1.pos > 0 then wrap16 (c1.pos - 1) else 15
    let s2 := show_mem_menu_item pos 1 s1
    let st := { s2 with tuningknob := 0 }
    { c1 with pos := pos, state := st }
  else c1

/-- The loop `while(!key)` of `mem_select`. -/
def mem_select_loop : Int → Int → State → List Poll → Menu
  | key, pos, s, [] => { key := key, pos := pos, old := -1, state := s, rest := [] }
  | key, pos, s, p :: ps =>
    if key = 0 then
      let c := mem_select_pass
        { key := key, pos := pos, old := -1, state := interrupts p s, rest := ps }
      mem_select_loop p.key c.pos c.state ps
    else { key := key, pos := pos, old := -1, state := s, rest := p :: ps }

/-- Model of `mem_select(c_mem, smode)` (`smode` only selects the headline). -/
def mem_select (c_mem : Int) (s : State) (ps : List Poll) :
    Option (Int × State × List Poll) :=
  match wait_no_key s ps with
  | (false, _, _) => none
  | (true, _, []) => none
  | (true, s1, p :: ps1) =>
    let s2 := interrupts p (mem_select_draw c_mem 16 s1)
    let s3 := show_mem_menu_item c_mem 1 s2
    let c := mem_select_loop p.key c_mem s3 ps1
    if c.key = 0 then none
    else some (if c.key = 1 then -1 else if c.key = 2 then c.pos
               else if c.key = 11 then -11 else -1, c.state, c.rest)

/-! ## Scanning -/

/-- Where the dwell loop of `scan_memories` stands: `done` tells whether the loop
was left (`false`: the polls were used up inside it). -/
structure Dwell where
  done : Bool
  key : Int
  state : State
  rest : List Poll

/-- The loop `while(runseconds10_scan + 50 > runseconds10 && !key)` of
`scan_memories` together with its inner loop `while(sval > thresh && !key)`.
`scan` is `runseconds10_scan`; `holding` tells whether control is inside the inner
loop (which is entered after a pass of the outer loop when `thresh` is non-zero).
A pass of the outer loop reads one poll (`key = get_keys(); sval = get_s_value();`),
a pass of the inner loop reads one poll (`sval = get_s_value(); key = get_keys();`). -/
def scan_dwell (thresh scan : Int) : Bool → Int → Int → State → List Poll → Dwell
  | holding, sval, key, s, [] =>
    if (holding = true ∧ sval > thresh ∧ key = 0) ∨
        (wrap32 (scan + 50) > s.runseconds10 ∧ key = 0) then
      { done := false, key := key, state := s, rest := [] }
    else { done := true, key := key, state := s, rest := [] }
  | holding, sval, key, s, p :: ps =>
    if holding = true ∧ sval > thresh ∧ key = 0 then
      scan_dwell thresh scan true p.sval p.key (interrupts p s) ps
    else if wrap32 (scan + 50) > s.runseconds10 ∧ key = 0 then
      scan_dwell thresh scan (decide (thresh ≠ 0)) p.sval p.key (interrupts p s) ps
    else { done := true, key := key, state := s, rest := p :: ps }

/-- Where a scan stands: the value returned (`none` while the scan is still running
when the polls or the fuel are used up), the indices or frequencies visited so far
(the arguments of `show_mem_num(m, 0)`, resp. of `show_frequency(f_tmp, 0)`), the
program state, and the polls not yet read. -/
structure Scan where
  result : Option Int
  visited : List Int
  state : State
  rest : List Poll

/-- First part of the body of the loop `while(!key)` of `scan_memories`, entered
with `key = 0` at index `m`: the slot is loaded and, when it is band-valid, tuned and
dwelt on; an invalid slot is passed with `key` still 0. -/
def scan_memories_visit (thresh m : Int) (s : State) (ps : List Poll) : Dwell :=
  let f_tmp := load_frequency s.eeprom 0 m
  if is_mem_freq_ok f_tmp ≠ 0 then
    let s1 := set_vfo_frequency s (wrap32 (f_tmp + INTERFREQUENCY))
    scan_dwell thresh s1.runseconds10 false 0 0 s1 ps
  else { done := true, key := 0, state := s, rest := ps }

/-- The loop `while(!key)` of `scan_memories`, entered with `key = 0` at index `m`;
`fuel` bounds the number of iterations. -/
def scan_memories_loop (thresh : Int) : Nat → Int → List Int → State → List Poll → Scan
  | 0, _, vis, s, ps => { result := none, visited := vis, state := s, rest := ps }
  | fuel + 1, m, vis, s, ps =>
    let d := scan_memories_visit thresh m s ps
    if d.done = false then
      { result := none, visited := vis ++ [m], state := d.state, rest := d.rest }
    else if d.key = 2 then
      { result := some m, visited := vis ++ [m], state := d.state, rest := d.rest }
    else if d.key ≠ 0 then
      { result := some (-1), visited := vis ++ [m], state := d.state, rest := d.rest }
    else
      scan_memories_loop thresh fuel (if m < 15 then wrap16 (m + 1) else 0) (vis ++ [m])
        d.state d.rest

/-- Model of `scan_memories(thresh)`. -/
def scan_memories (thresh : Int) (fuel : Nat) (s : State) (ps : List Poll) : Scan :=
  match wait_no_key s ps with
  | (false, s1, ps1) => { result := none, visited := [], state := s1, rest := ps1 }
  | (true, s1, ps1) => scan_memories_loop thresh fuel 0 [] s1 ps1

/-- Program points inside the `for` loop of `scan_vfo`: `tune` before the test
`f_tmp < f1`, `hold` before the test of the inner loop
`while(sval > thresh && !key)`, `key` before `key = get_keys()`. -/
inductive Phase where
  | tune
  | hold
  | key

/-- Where the `for` loop of `scan_vfo` stands: `ret` is the value returned from
inside it, `done` tells whether it ran to its end. -/
structure Sweep where
  ret : Option Int
  done : Bool
  key : Int
  visited : List Int
  state : State
  rest : List Poll

/-- The loop `for(f_tmp = f0; f_tmp < f1; f_tmp += 10)` of `scan_vfo` from the given
program point.  `sval = get_s_value()` after tuning reads one poll, each pass of the
inner loop reads one poll, and `key = get_keys()` reads one poll. -/
def scan_vfo_for (thresh f1 : Int) :
    Phase → Int → Int → Int → List Int → State → List Poll → Sweep
  | Phase.tune, f_tmp, _, key, vis, s, [] =>
    if f_tmp < f1 then
      { ret := none, done := false, key := key, visited := vis ++ [f_tmp],
        state := set_vfo_frequency s (wrap32 (f_tmp + INTERFREQUENCY)), rest := [] }
    else { ret := none, done := true, key := key, visited := vis, state := s, rest := [] }
  | Phase.hold, _, _, key, vis, s, [] =>
    { ret := none, done := false, key := key, visited := vis, state := s, rest := [] }
  | Phase.key, _, _, key, vis, s, [] =>
    { ret := none, done := false, key := key, visited := vis, state := s, rest := [] }
  | Phase.tune, f_tmp, _, key, vis, s, p :: ps =>
    if f_tmp < f1 then
      let s1 := set_vfo_frequency s (wrap32 (f_tmp + INTERFREQUENCY))
      scan_vfo_for thresh f1 (if thresh ≠ 0 then Phase.hold else Phase.key) f_tmp p.sval key
        (vis ++ [f_tmp]) (interrupts p s1) ps
    else
      { ret := none, done := true, key := key, visited := vis, state := s, rest := p :: ps }
  | Phase.hold, f_tmp, sval, key, vis, s, p :: ps =>
    if sval > thresh ∧ key = 0 then
      scan_vfo_for thresh f1 Phase.hold f_tmp p.sval p.key vis (interrupts p s) ps
    else if p.key = 2 then
      { ret := some f_tmp, done := false, key := p.key, visited := vis,
        state := interrupts p s, rest := ps }
    else
      scan_vfo_for thresh f1 Phase.tune (wrap32 (f_tmp + 10)) sval p.key vis (interrupts p s) ps
  | Phase.key, f_tmp, sval, _, vis, s, p :: ps =>
    if p.key = 2 then
      { ret := some f_tmp, done := false, key := p.key, visited := vis,
        state := interrupts p s, rest := ps }
    else
      scan_vfo_for thresh f1 Phase.tune (wrap32 (f_tmp + 10)) sval p.key vis (interrupts p s) ps

/-- The loop `while(!key)` of `scan_vfo` between the bounds `f0` and `f1`; `fuel`
bounds the number of iterations. -/
def scan_vfo_loop (thresh f0 f1 : Int) : Nat → Int → List Int → State → List Poll → Scan
  | 0, _, vis, s, ps => { result := none, visited := vis, state := s, rest := ps }
  | fuel + 1, key, vis, s, ps =>
    if key ≠ 0 then { result := some (-1), visited := vis, state := s, rest := ps }
    else
      let w := scan_vfo_for thresh f1 Phase.tune f0 0 key vis s ps
      match w.ret with
      | some r => { result := some r, visited := w.visited, state := w.state, rest := w.rest }
      | none =>
        if w.done = true then scan_vfo_loop thresh f0 f1 fuel w.key w.visited w.state w.rest
        else { result := none, visited := w.visited, state := w.state, rest := w.rest }

/-- Model of `scan_vfo(thresh)`. -/
def scan_vfo (thresh : Int) (fuel : Nat) (s : State) (ps : List Poll) : Scan :=
  let f0 := s.f_vfo 0
  let f1 := s.f_vfo 1
  match wait_no_key s ps with
  | (false, s1, ps1) => { result := none, visited := [], state := s1, rest := ps1 }
  | (true, s1, ps1) =>
    scan_vfo_loop thresh (if f0 > f1 then f1 else f0) (if f0 > f1 then f0 else f1) fuel 0 []
      s1 ps1

/-! ## `main`: memory store and the store key -/

/-- The branch `case 3` (VFO to memory) of the switch on the menu result in `main`. -/
def main_vfo_to_mem (s : State) (ps : List Poll) : Option (State × List Poll) :=
  match mem_select s.cur_mem s ps with
  | none => none
  | some (r, s1, ps1) =>
    let s2 := { s1 with cur_mem := r }
    if s2.cur_mem > -1 then
      some ({ s2 with eeprom := store_frequency s2.eeprom (s2.f_vfo s2.cur_vfo) 0 s2.cur_mem },
        ps1)
    else some (s2, ps1)

/-- The block `if(key == 2)` of the endless loop of `main`. -/
def main_store (s : State) : State :=
  if s.key = 2 then
    let e1 := store_last_vfo s.eeprom s.cur_vfo
    let e2 := store_last_mem e1 s.cur_mem
    let e3 := store_frequency e2 (s.f_vfo s.cur_vfo) s.cur_vfo (-1)
    let e4 := store_frequency e3 (s.f_vfo s.cur_vfo) s.cur_vfo s.cur_mem
    { s with eeprom := e4 }
  else s

/-! ## Scan threshold -/

/-- Body of the loop `while(!get_keys())` of `set_scan_threshold`, up to but not
including `key = get_keys()`: the local `l_thresh` and the program state. -/
def set_scan_threshold_pass (l_thresh : Int) (s : State) : Int × State :=
  let a : Int × State :=
    if s.tuningknob < -2 then
      (if l_thresh < 100 then wrap16 (l_thresh + 1) else l_thresh, { s with tuningknob := 0 })
    else (l_thresh, s)
  if a.2.tuningknob > 2 then
    (if a.1 > 0 then wrap16 (a.1 - 1) else a.1, { a.2 with tuningknob := 0 })
  else a

/-- The loop `while(!get_keys())` of `set_scan_threshold` with the `return -1` that
follows it.  Each pass reads two polls: one for the test `!get_keys()` (the knob is
read after it) and one for `key = get_keys()`.  The result is `none` when the polls
are used up before the function returns. -/
def set_scan_threshold_loop : Int → State → List Poll → Option (Int × State × List Poll)
  | _, _, [] => none
  | _, s, [p] => if p.key ≠ 0 then some (-1, interrupts p s, []) else none
  | l_thresh, s, p :: q :: qs =>
    if p.key ≠ 0 then some (-1, interrupts p s, q :: qs)
    else
      let a := set_scan_threshold_pass l_thresh (interrupts p s)
      let s2 := interrupts q a.2
      if q.key = 2 then
        some (a.1, { s2 with eeprom := store_scan_thresh s2.eeprom a.1 }, qs)
      else set_scan_threshold_loop a.1 s2 qs

/-- Model of `set_scan_threshold(cur_thresh)`. -/
def set_scan_threshold (cur_thresh : Int) (s : State) (ps : List Poll) :
    Option (Int × State × List Poll) :=
  match wait_no_key s ps with
  | (false, _, _) => none
  | (true, s1, ps1) => set_scan_threshold_loop cur_thresh s1 ps1

/-! ## LO calibration -/

/-- Body of the loop `while(!key)` of `adj_lo_frequency`, up to but not including
`key = get_keys()`. -/
def adj_lo_pass (sb : Int) (s : State) : State :=
  let s1 :=
    if s.tuningknob < -2 then
      let f := wrap32 (s.f_lo sb + 10)
      let sa := { s with f_lo := Function.update s.f_lo sb f, tuningknob := 0 }
      set_lo_frequency sa (sa.f_lo sb)
    else s
  if s1.tuningknob > 2 then
    let f := wrap32 (s1.f_lo sb - 10)
    let sa := { s1 with f_lo := Function.update s1.f_lo sb f, tuningknob := 0 }
    set_lo_frequency sa (sa.f_lo sb)
  else s1

/-- The loop `while(!key)` of `adj_lo_frequency`: each pass reads one poll (the knob
at its start, the key at its end). -/
def adj_lo_loop (sb : Int) : State → List Poll → Option (State × List Poll)
  | _, [] => none
  | s, p :: ps =>
    let s1 := adj_lo_pass sb (interrupts p s)
    if p.key ≠ 0 then some (s1, ps) else adj_lo_loop sb s1 ps

/-- Model of `adj_lo_frequency(sb)`. -/
def adj_lo_frequency (sb : Int) (s : State) (ps : List Poll) : Option (State × List Poll) :=
  match adj_lo_loop sb (set_lo_frequency s (s.f_lo sb)) ps with
  | none => none
  | some (s1, ps1) =>
    match wait_no_key s1 ps1 with
    | (false, _, _) => none
    | (true, s2, ps2) => some (s2, ps2)

/-! ## `main`: the menu -/

/-- The branch `case 0` (swap VFOs) of the switch on the menu result in `main`. -/
def main_swap_vfo (s : State) : State :=
  let s1 := { s with cur_vfo := if s.cur_vfo ≠ 0 then 0 else 1 }
  let s2 := { s1 with eeprom := store_last_vfo s1.eeprom s1.cur_vfo }
  set_vfo_frequency s2 (wrap32 (s2.f_vfo s2.cur_vfo + INTERFREQUENCY))

/-- The branch `case 4` (memory to VFO) of the switch on the menu result in `main`. -/
def main_mem_to_vfo (s : State) (ps : List Poll) : Option (State × List Poll) :=
  match mem_select s.cur_mem s ps with
  | none => none
  | some (r, s1, ps1) =>
    let s2 := { s1 with cur_mem := r }
    if s2.cur_mem > -1 then
      let f_tmp := load_frequency s2.eeprom 0 s2.cur_mem
      if is_mem_freq_ok f_tmp ≠ 0 then
        let s3 := { s2 with f_vfo := Function.update s2.f_vfo s2.cur_vfo f_tmp }
        some (set_vfo_frequency s3 (wrap32 (s3.f_vfo s3.cur_vfo + INTERFREQUENCY)), ps1)
      else some (s2, ps1)
    else some (s2, ps1)

/-- The block `if(rval == 30)` (scan memories) of `main`. -/
def main_scan_memories (fuel : Nat) (s : State) (ps : List Poll) :
    Option (State × List Poll) :=
  let r := scan_memories s.scan_thresh fuel s ps
  match r.result with
  | none => none
  | some t1 =>
    if t1 ≠ -1 then
      let f_tmp := load_frequency r.state.eeprom 0 t1
      if is_mem_freq_ok f_tmp ≠ 0 then
        let s1 := { r.state with f_vfo := Function.update r.state.f_vfo r.state.cur_vfo f_tmp }
        let s2 := set_vfo_frequency s1 (wrap32 (f_tmp + INTERFREQUENCY))
        some ({ s2 with cur_mem := t1 }, r.rest)
      else some (r.state, r.rest)
    else some (r.state, r.rest)

/-- The block `if(rval == 31)` (scan VFOs) of `main`. -/
def main_scan_vfo (fuel : Nat) (s : State) (ps : List Poll) : Option (State × List Poll) :=
  let r := scan_vfo s.scan_thresh fuel s ps
  match r.result with
  | none => none
  | some f_tmp =>
    if is_mem_freq_ok f_tmp ≠ 0 then
      let s1 := { r.state with f_vfo := Function.update r.state.f_vfo r.state.cur_vfo f_tmp }
      some (set_vfo_frequency s1 (wrap32 (f_tmp + INTERFREQUENCY)), r.rest)
    else some (r.state, r.rest)

/-- The block `if(rval == 32)` (set scan threshold) of `main`. -/
def main_set_thresh (s : State) (ps : List Poll) : Option (State × List Poll) :=
  match set_scan_threshold s.scan_thresh s ps with
  | none => none
  | some (r, s1, ps1) => some ({ s1 with scan_thresh := r }, ps1)

/-- The switch on `rval` and the `if`s on `rval` that follow it in `main`.  They
test disjoint values of `rval`, so at most one of them runs. -/
def main_menu_action (fuel : Nat) (rval : Int) (s : State) (ps : List Poll) :
    Option (State × List Poll) :=
  if rval = 0 then some (main_swap_vfo s, ps)
  else if rval = 1 then some ({ s with f_vfo := Function.update s.f_vfo 1 (s.f_vfo 0) }, ps)
  else if rval = 2 then some ({ s with f_vfo := Function.update s.f_vfo 0 (s.f_vfo 1) }, ps)
  else if rval = 3 then main_vfo_to_mem s ps
  else if rval = 4 then main_mem_to_vfo s ps
  else if rval = 10 ∨ rval = 11 then
    let s1 := { s with sideband := rval - 10 }
    some (set_lo_frequency s1 (s1.f_lo s1.sideband), ps)
  else if rval = 20 ∨ rval = 21 then
    let s1 := { s with toneset := rval - 20 }
    some ({ s1 with eeprom := store_tone s1.eeprom s1.toneset }, ps)
  else if rval = 22 ∨ rval = 23 then
    let s1 := { s with agcset := rval - 22 }
    some ({ s1 with eeprom := store_agc s1.eeprom s1.agcset }, ps)
  else if rval = 30 then main_scan_memories fuel s ps
  else if rval = 31 then main_scan_vfo fuel s ps
  else if rval = 32 then main_set_thresh s ps
  else if rval ≥ 40 ∧ rval ≤ 42 then some ({ s with split := rval - 40 }, ps)
  else if rval = 50 ∨ rval = 51 then adj_lo_frequency (rval - 50) s ps
  else some (s, ps)

/-- The block `if(key == 1)` of the endless loop of `main`: the menu, the release
wait, the action, and the statements that restore the receiver after it. -/
def main_menu (fuel : Nat) (s : State) (ps : List Poll) : Option (State × List Poll) :=
  match menux s ps with
  | none => none
  | some (rval, s1, ps1) =>
    match wait_no_key s1 ps1 with
    | (false, _, _) => none
    | (true, s2, ps2) =>
      match main_menu_action fuel (wrap16 rval) s2 ps2 with
      | none => none
      | some (s3, ps3) =>
        let s4 := { s3 with key := 0 }
        let s5 := set_vfo_frequency s4 (wrap32 (s4.f_vfo s4.cur_vfo + INTERFREQUENCY))
        some (set_lo_frequency s5 (s5.f_lo s5.sideband), ps3)

/-! ## `main`: transmit and receive -/

/-- The block `if(get_txrx())` of the endless loop of `main`; `ptt` is the value
`get_txrx()` returns. -/
def main_tx (ptt : Int) (s : State) : State :=
  if ptt ≠ 0 then
    if s.txrx = 0 then
      let s1 := { s with txrx := 1 }
      if s1.split ≠ 0 then
        let s2 := { s1 with cur_vfo := if s1.cur_vfo = 0 then 1 else 0 }
        set_vfo_frequency s2 (wrap32 (s2.f_vfo s2.cur_vfo + INTERFREQUENCY))
      else s1
    else s
  else s

/-- The block `if(!get_txrx())` of the endless loop of `main`. -/
def main_rx (ptt : Int) (s : State) : State :=
  if ptt = 0 then
    if s.txrx ≠ 0 then
      let s1 := { s with txrx := 0 }
      if s1.split ≠ 0 then
        let s2 := { s1 with cur_vfo := if s1.cur_vfo = 0 then 1 else 0 }
        set_vfo_frequency s2 (wrap32 (s2.f_vfo s2.cur_vfo + INTERFREQUENCY))
      else s1
    else s
  else s

/-! ## `main`: one pass of the endless loop -/

/-- An interrupt: the timer, or a pin change with the sample of port D it finds. -/
inductive Irq where
  | timer
  | pin (pind : Nat)

/-- The interrupt service routines run for a sequence of interrupts, oldest first. -/
def run_irqs : List Irq → State → State
  | [], s => s
  | Irq.timer :: is, s => run_irqs is (ISR_TIMER1_COMPA s)
  | Irq.pin pind :: is, s => run_irqs is (ISR_PCINT2 pind s)

/-- What one pass of the endless loop of `main` meets: the interrupts since the
previous pass, the value `get_keys()` returns if it is called, the polls read inside
the menu if it is entered, and the values of the two calls of `get_txrx()`. -/
structure Pass where
  irqs : List Irq
  key : Int
  polls : List Poll
  ptt1 : Int
  ptt2 : Int

/-- The block `if(runseconds10 > runseconds10x)` of the endless loop of `main`. -/
def main_key (k : Int) (s : State) : State :=
  if s.runseconds10 > s.runseconds10x then
    { s with key := k, runseconds10x := s.runseconds10 }
  else s

/-- One pass of the endless loop of `main`: tuning, key, menu, store key, transmit
and receive (the meter and the voltage display are left out).  The result is `none`
when the menu has not returned within the polls and the fuel given. -/
def main_pass (fuel : Nat) (i : Pass) (s : State) : Option State :=
  let s1 := main_key i.key (main_tuning (run_irqs i.irqs s))
  let m : Option State :=
    if s1.key = 1 then (main_menu fuel s1 i.polls).map Prod.fst else some s1
  match m with
  | none => none
  | some s2 => some (main_rx i.ptt2 (main_tx i.ptt1 (main_store s2)))

/-- The endless loop of `main` run for a sequence of passes. -/
def main_run (fuel : Nat) : List Pass → State → Option State
  | [], s => some s
  | i :: is, s =>
    match main_pass fuel i s with
    | none => none
    | some s1 => main_run fuel is s1

/-! ## Interrupt enable bit -/

/-- The state `t` agrees with `s` on the active VFO, the VFO frequencies, the
variables `cur_mem`, `scan_thresh`, `split` and `txrx` of `main`, and the EEPROM. -/
def main_vars_kept (s t : State) : Prop :=
  t.cur_vfo = s.cur_vfo ∧ t.f_vfo = s.f_vfo ∧ t.cur_mem = s.cur_mem ∧
  t.scan_thresh = s.scan_thresh ∧ t.split = s.split ∧ t.txrx = s.txrx ∧ t.eeprom = s.eeprom

/-! ## States and inputs used in the examples -/

/-- An erased EEPROM: every cell reads `0xFF`, nothing written yet. -/
def erased : EEPROM := { cell := fun _ => 255, written := [] }

/-- The state after start-up on an erased EEPROM, with the given encoder
counters. -/
def tuned (tuningknob tuningcount : Int) : State :=
  { main_init erased with tuningknob := tuningknob, tuningcount := tuningcount }

/-- A poll that shows nothing: no timer interrupt, knob at rest, no key, no signal. -/
def idle : Poll := { ticks := 0, knob := 0, key := 0, sval := 0 }

/-- A poll one timer interrupt after the previous one, with no key and no signal. -/
def tick : Poll := { ticks := 1, knob := 0, key := 0, sval := 0 }

/-- A poll that shows the key `k`. -/
def press (k : Int) : Poll := { ticks := 0, knob := 0, key := k, sval := 0 }

/-- A poll that shows the knob value `k` and no key. -/
def turn (k : Int) : Poll := { ticks := 0, knob := k, key := 0, sval := 0 }

/-- A poll that shows the signal strength `v` and no key. -/
def signal (v : Int) : Poll := { ticks := 0, knob := 0, key := 0, sval := v }

/-- An erased EEPROM into whose memory slot 5 the frequency 14200000 was stored. -/
def only5 : EEPROM := store_frequency erased 14200000 0 5

/-- The state after start-up on an erased EEPROM, with the two VFOs set to `a` and
`b`. -/
def vfo_pair (a b : Int) : State :=
  { main_init erased with f_vfo := fun i => if i = 0 then a else b }

theorem start_adr_vfo (v m : Int) (hv : v = 0 ∨ v = 1) (hm : m = -1) :
    start_adr v m = 4 * v := by
  subst hm
  rcases hv with rfl | rfl <;> simp [start_adr, wrap16]

theorem start_adr_mem (v m : Int) (h0 : 0 ≤ m) (h15 : m ≤ 15) :
    start_adr v m = 16 + 4 * m := by
  have hne : m ≠ -1 := by omega
  simp only [start_adr, hne, if_false, wrap16]
  omega

/-- The four cells written by `store_frequency`, for a frequency that fits a
non-negative `long`, are its big-endian bytes; other cells keep their value. -/
theorem store_frequency_cell (e : EEPROM) (f vfo memory : Int)
    (h0 : 0 ≤ f) (h1 : f < 2147483648) (a : Int) :
    (store_frequency e f vfo memory).cell a =
      if a = start_adr vfo memory + 3 then f % 256
      else if a = start_adr vfo memory + 2 then f / 256 % 256
      else if a = start_adr vfo memory + 1 then f / 65536 % 256
      else if a = start_adr vfo memory then f / 16777216
      else e.cell a := by
  simp only [store_frequency, eeprom_write_byte, u8, wrap32, wrap16]
  split_ifs <;> omega

theorem store_frequency_written (e : EEPROM) (f vfo memory : Int) :
    (store_frequency e f vfo memory).written =
      e.written ++ [start_adr vfo memory, start_adr vfo memory + 1,
        start_adr vfo memory + 2, start_adr vfo memory + 3] := by
  simp [store_frequency, eeprom_write_byte]

/-- Loading after storing returns the stored value when it fits a non-negative
`long`. -/
theorem load_store_frequency (e : EEPROM) (f vfo memory : Int)
    (h0 : 0 ≤ f) (h1 : f < 2147483648) :
    load_frequency (store_frequency e f vfo memory) vfo memory = f := by
  simp only [load_frequency, eeprom_read_byte, store_frequency_cell e f vfo memory h0 h1]
  simp only [u8, wrap32]
  split_ifs <;> omega

/-! ## Start-up: loading the VFOs -/

theorem main_load_vfo_eeprom (t : Int) (s : State) :
    (main_load_vfo t s).eeprom =
      if is_mem_freq_ok (load_frequency s.eeprom t (-1)) = 0
      then store_frequency s.eeprom 14200000 t (-1) else s.eeprom := by
  simp only [main_load_vfo, Function.update_same]
  split_ifs <;> rfl

theorem main_load_vfo_f_vfo (t : Int) (s : State) :
    (main_load_vfo t s).f_vfo =
      Function.update s.f_vfo t
        (if is_mem_freq_ok (load_frequency s.eeprom t (-1)) = 0 then 14200000
         else load_frequency s.eeprom t (-1)) := by
  simp only [main_load_vfo, Function.update_same]
  split_ifs <;> simp

theorem is_mem_freq_ok_cases (f : Int) :
    (is_mem_freq_ok f = 1 ∧ 13999990 ≤ f ∧ f ≤ 14400000) ∨
    (is_mem_freq_ok f = 0 ∧ (f < 13999990 ∨ 14400000 < f)) := by
  unfold is_mem_freq_ok
  split_ifs with h
  · left; omega
  · right; omega

/-- A load from VFO slot `t` only depends on the cells `4t .. 4t+3`. -/
theorem load_frequency_congr (e e' : EEPROM) (v m : Int)
    (h : ∀ a, start_adr v m ≤ a → a ≤ start_adr v m + 3 → e'.cell a = e.cell a) :
    load_frequency e' v m = load_frequency e v m := by
  simp only [load_frequency, eeprom_read_byte]
  rw [h _ (by omega) (by omega), h _ (by omega) (by omega), h _ (by omega) (by omega),
    h _ (by omega) (by omega)]

theorem main_load_vfo_cell (t : Int) (s : State) (ht : t = 0 ∨ t = 1) (a : Int)
    (ha : a < 4 * t ∨ 4 * t + 3 < a) :
    (main_load_vfo t s).eeprom.cell a = s.eeprom.cell a := by
  rw [main_load_vfo_eeprom]
  split_ifs
  · rw [store_frequency_cell _ _ _ _ (by norm_num) (by norm_num), start_adr_vfo t (-1) ht rfl]
    split_ifs <;> first | rfl | omega
  · rfl

theorem main_load_vfo_written (t : Int) (s : State) (ht : t = 0 ∨ t = 1) :
    (main_load_vfo t s).eeprom.written = s.eeprom.written ++
      (if is_mem_freq_ok (load_frequency s.eeprom t (-1)) = 0
       then [4 * t, 4 * t + 1, 4 * t + 2, 4 * t + 3] else []) := by
  rw [main_load_vfo_eeprom]
  split_ifs
  · rw [store_frequency_written, start_adr_vfo t (-1) ht rfl]
  · simp

theorem main_load_vfo0_cell (e : EEPROM) (a : Int) (ha : 4 ≤ a) :
    (main_load_vfo 0 (main_load_number e)).eeprom.cell a = e.cell a := by
  rw [main_load_vfo_cell 0 _ (Or.inl rfl) a (by omega)]
  rfl

theorem main_load_vfo0_load1 (e : EEPROM) :
    load_frequency (main_load_vfo 0 (main_load_number e)).eeprom 1 (-1) = load_frequency e 1 (-1) := by
  apply load_frequency_congr
  intro a h0 _
  rw [start_adr_vfo 1 (-1) (Or.inr rfl) rfl] at h0
  exact main_load_vfo0_cell e a (by omega)

theorem main_init_eeprom (e : EEPROM) : (main_init e).eeprom = (main_load e).eeprom := rfl

theorem main_init_f_vfo (e : EEPROM) : (main_init e).f_vfo = (main_load e).f_vfo := rfl

theorem main_load_cell (e : EEPROM) (a : Int) (ha : 8 ≤ a) :
    (main_load e).eeprom.cell a = e.cell a := by
  unfold main_load
  rw [main_load_vfo_cell 1 _ (Or.inr rfl) a (by omega)]
  exact main_load_vfo0_cell e a (by omega)

theorem main_load_written (e : EEPROM) :
    (main_load e).eeprom.written = e.written ++
      ((if is_mem_freq_ok (load_frequency e 0 (-1)) = 0 then [0, 1, 2, 3] else []) ++
       (if is_mem_freq_ok (load_frequency e 1 (-1)) = 0 then [4, 5, 6, 7] else [])) := by
  unfold main_load
  rw [main_load_vfo_written 1 _ (Or.inr rfl), main_load_vfo_written 0 _ (Or.inl rfl),
    main_load_vfo0_load1]
  simp only [List.append_assoc]
  rfl

theorem main_load_f_vfo0 (e : EEPROM) :
    (main_load e).f_vfo 0 =
      if is_mem_freq_ok (load_frequency e 0 (-1)) = 0 then 14200000
      else load_frequency e 0 (-1) := by
  unfold main_load
  rw [main_load_vfo_f_vfo, Function.update_noteq (by decide), main_load_vfo_f_vfo,
    Function.update_same]
  rfl

theorem main_load_f_vfo1 (e : EEPROM) :
    (main_load e).f_vfo 1 =
      if is_mem_freq_ok (load_frequency e 1 (-1)) = 0 then 14200000
      else load_frequency e 1 (-1) := by
  unfold main_load
  rw [main_load_vfo_f_vfo, Function.update_same, main_load_vfo0_load1]

/-- After the VFO load, an invalid slot reads back as the default. -/
theorem main_load_reload0 (e : EEPROM) (h : is_mem_freq_ok (load_frequency e 0 (-1)) = 0) :
    load_frequency (main_load e).eeprom 0 (-1) = 14200000 := by
  have h0 : load_frequency (main_load e).eeprom 0 (-1) =
      load_frequency (store_frequency e 14200000 0 (-1)) 0 (-1) := by
    apply load_frequency_congr
    intro a _ h3
    rw [start_adr_vfo 0 (-1) (Or.inl rfl) rfl] at h3
    unfold main_load
    rw [main_load_vfo_cell 1 _ (Or.inr rfl) a (by omega), main_load_vfo_eeprom]
    rw [if_pos (by exact h)]
    rfl
  rw [h0, load_store_frequency _ _ _ _ (by norm_num) (by norm_num)]

theorem main_load_reload1 (e : EEPROM) (h : is_mem_freq_ok (load_frequency e 1 (-1)) = 0) :
    load_frequency (main_load e).eeprom 1 (-1) = 14200000 := by
  unfold main_load
  rw [main_load_vfo_eeprom, main_load_vfo0_load1, if_pos h,
    load_store_frequency _ _ _ _ (by norm_num) (by norm_num)]

theorem main_load_vfo_cur_vfo (t : Int) (s : State) :
    (main_load_vfo t s).cur_vfo = s.cur_vfo := by
  unfold main_load_vfo
  simp only []
  split_ifs <;> rfl

theorem main_init_cur_vfo (e : EEPROM) :
    (main_init e).cur_vfo =
      if load_last_vfo e < 0 ∨ load_last_vfo e > 1 then 0 else load_last_vfo e := by
  have h : (main_init e).cur_vfo = (main_load e).cur_vfo := rfl
  rw [h]
  unfold main_load
  rw [main_load_vfo_cur_vfo, main_load_vfo_cur_vfo]
  rfl

theorem main_load_read (e : EEPROM) (a : Int) (ha : 8 ≤ a) :
    eeprom_read_byte (main_load e).eeprom a = eeprom_read_byte e a := by
  unfold eeprom_read_byte
  rw [main_load_cell e a ha]

/-- C1. Round trip: a band-valid frequency stored into VFO slot `v` (0 or 1) or into
memory slot `m` (0..15) is returned unchanged by the matching `load_frequency`. -/
theorem store_load_roundtrip (e : EEPROM) (f v m : Int)
    (hlo : 13999990 ≤ f) (hhi : f ≤ 14400000)
    (_hv : v = 0 ∨ v = 1) (_hm0 : 0 ≤ m) (_hm15 : m ≤ 15) :
    load_frequency (store_frequency e f v (-1)) v (-1) = f ∧
    load_frequency (store_frequency e f v m) v m = f :=
  ⟨load_store_frequency e f v (-1) (by omega) (by omega),
   load_store_frequency e f v m (by omega) (by omega)⟩

theorem store_load_roundtrip_witness :
    load_frequency (store_frequency erased 14074000 1 (-1)) 1 (-1) = 14074000 ∧
    load_frequency (store_frequency erased 14074000 1 15) 1 15 = 14074000 :=
  store_load_roundtrip erased 14074000 1 15 (by decide) (by decide) (Or.inr rfl)
    (by decide) (by decide)

/-- C2. Start-up validation of VFO slot `t` (0 or 1): `is_mem_freq_ok` accepts
exactly the values in `[13999990, 14400000]`; when the stored value is accepted it
becomes `f_vfo[t]`, the loop iteration of slot `t` leaves the EEPROM as it was and
start-up writes no cell of slot `t`; otherwise `f_vfo[t]` is 14200000, the four
cells of slot `t` are written and the slot reads back as 14200000. -/
theorem boot_vfo_validation (e : EEPROM) (t : Int) (ht : t = 0 ∨ t = 1) :
    (is_mem_freq_ok (load_frequency e t (-1)) = 1 ↔
      13999990 ≤ load_frequency e t (-1) ∧ load_frequency e t (-1) ≤ 14400000) ∧
    (is_mem_freq_ok (load_frequency e t (-1)) = 1 →
      (main_init e).f_vfo t = load_frequency e t (-1) ∧
      (∀ s : State, s.eeprom = e → (main_load_vfo t s).eeprom = e) ∧
      (∃ w, (main_init e).eeprom.written = e.written ++ w ∧
        ∀ a ∈ w, a < 4 * t ∨ 4 * t + 3 < a) ∧
      (∀ a, 4 * t ≤ a → a ≤ 4 * t + 3 → (main_init e).eeprom.cell a = e.cell a)) ∧
    (is_mem_freq_ok (load_frequency e t (-1)) ≠ 1 →
      (main_init e).f_vfo t = 14200000 ∧
      (∃ w, (main_init e).eeprom.written = e.written ++ w ∧
        ∀ a, 4 * t ≤ a → a ≤ 4 * t + 3 → a ∈ w) ∧
      load_frequency (main_init e).eeprom t (-1) = 14200000) := by
  rw [main_init_eeprom, main_init_f_vfo]
  refine ⟨?_, ?_, ?_⟩
  · rcases is_mem_freq_ok_cases (load_frequency e t (-1)) with ⟨h, h1, h2⟩ | ⟨h, h1⟩
    · simp [h, h1, h2]
    · rw [h]; constructor
      · intro hc; exact absurd hc (by decide)
      · intro hc; omega
  · intro hok
    have hne : ¬ is_mem_freq_ok (load_frequency e t (-1)) = 0 := by rw [hok]; decide
    refine ⟨?_, ?_, ?_, ?_⟩
    · rcases ht with rfl | rfl
      · rw [main_load_f_vfo0, if_neg hne]
      · rw [main_load_f_vfo1, if_neg hne]
    · intro s hs
      rw [main_load_vfo_eeprom, hs, if_neg hne]
    · refine ⟨_, main_load_written e, ?_⟩
      intro a ha
      rcases ht with rfl | rfl
      · rw [if_neg hne] at ha
        split_ifs at ha
        · simp at ha; omega
        · simp at ha
      · rw [if_neg hne] at ha
        split_ifs at ha
        · simp at ha; omega
        · simp at ha
    · intro a h0 h3
      unfold main_load
      rcases ht with rfl | rfl
      · rw [main_load_vfo_cell 1 _ (Or.inr rfl) a (by omega), main_load_vfo_eeprom,
          if_neg (by exact hne)]
        rfl
      · rw [main_load_vfo_eeprom, main_load_vfo0_load1, if_neg hne]
        exact main_load_vfo0_cell e a (by omega)
  · intro hbad
    have h0 : is_mem_freq_ok (load_frequency e t (-1)) = 0 := by
      rcases is_mem_freq_ok_cases (load_frequency e t (-1)) with ⟨h, _⟩ | ⟨h, _⟩
      · exact absurd h hbad
      · exact h
    refine ⟨?_, ?_, ?_⟩
    · rcases ht with rfl | rfl
      · rw [main_load_f_vfo0, if_pos h0]
      · rw [main_load_f_vfo1, if_pos h0]
    · refine ⟨_, main_load_written e, ?_⟩
      intro a h4 h7
      rcases ht with rfl | rfl
      · rw [if_pos h0]
        have : a = 0 ∨ a = 1 ∨ a = 2 ∨ a = 3 := by omega
        rcases this with rfl | rfl | rfl | rfl <;> simp
      · rw [if_pos h0]
        have : a = 4 ∨ a = 5 ∨ a = 6 ∨ a = 7 := by omega
        rcases this with rfl | rfl | rfl | rfl <;> simp
    · rcases ht with rfl | rfl
      · exact main_load_reload0 e h0
      · exact main_load_reload1 e h0

theorem boot_vfo_validation_witness :
    is_mem_freq_ok (load_frequency erased 0 (-1)) ≠ 1 ∧
    (main_init erased).f_vfo 0 = 14200000 ∧
    load_frequency (main_init erased).eeprom 0 (-1) = 14200000 :=
  have hbad : is_mem_freq_ok (load_frequency erased 0 (-1)) ≠ 1 := by decide
  have h := (boot_vfo_validation erased 0 (Or.inl rfl)).2.2 hbad
  ⟨hbad, h.1, h.2.2⟩

/-- C5. Layout and frame of `store_frequency` for `0 ≤ f < 2^31`: a VFO store
(`memory = -1`, `v` in 0..1) starts at `4v`, a memory store (`m` in 0..15) at
`16 + 4m`; the four cells from the start address hold the big-endian bytes of `f`,
every other cell keeps its value and exactly these four addresses are written.
VFO stores stay inside 0..7 and memory stores inside 16..79, so they touch neither
each other nor the setting bytes 8..12, memory slots `m ≠ n` do not overlap, and
all memory fields lie inside 16..271. -/
theorem store_frequency_layout (e : EEPROM) (f v m : Int)
    (h0 : 0 ≤ f) (h1 : f < 2147483648)
    (hv : v = 0 ∨ v = 1) (hm0 : 0 ≤ m) (hm15 : m ≤ 15) :
    (start_adr v (-1) = 4 * v ∧ start_adr v m = 16 + 4 * m) ∧
    (∀ a, (store_frequency e f v (-1)).cell a =
      if a = 4 * v then f / 16777216
      else if a = 4 * v + 1 then f / 65536 % 256
      else if a = 4 * v + 2 then f / 256 % 256
      else if a = 4 * v + 3 then f % 256
      else e.cell a) ∧
    (∀ a, (store_frequency e f v m).cell a =
      if a = 16 + 4 * m then f / 16777216
      else if a = 16 + 4 * m + 1 then f / 65536 % 256
      else if a = 16 + 4 * m + 2 then f / 256 % 256
      else if a = 16 + 4 * m + 3 then f % 256
      else e.cell a) ∧
    (f = f / 16777216 * 16777216 + f / 65536 % 256 * 65536 + f / 256 % 256 * 256 + f % 256
      ∧ 0 ≤ f / 16777216 ∧ f / 16777216 < 128) ∧
    ((store_frequency e f v (-1)).written =
        e.written ++ [4 * v, 4 * v + 1, 4 * v + 2, 4 * v + 3] ∧
      (store_frequency e f v m).written =
        e.written ++ [16 + 4 * m, 16 + 4 * m + 1, 16 + 4 * m + 2, 16 + 4 * m + 3]) ∧
    (0 ≤ start_adr v (-1) ∧ start_adr v (-1) + 3 ≤ 7) ∧
    (16 ≤ start_adr v m ∧ start_adr v m + 3 ≤ 79 ∧ start_adr v m + 3 ≤ 271) ∧
    (∀ n, 0 ≤ n → n ≤ 15 → n ≠ m →
      start_adr v n + 3 < start_adr v m ∨ start_adr v m + 3 < start_adr v n) := by
  have hV := start_adr_vfo v (-1) hv rfl
  have hM := start_adr_mem v m hm0 hm15
  refine ⟨⟨hV, hM⟩, ?_, ?_, ?_, ?_, ?_, ?_, ?_⟩
  · intro a
    rw [store_frequency_cell e f v (-1) h0 h1, hV]
    split_ifs <;> first | rfl | omega
  · intro a
    rw [store_frequency_cell e f v m h0 h1, hM]
    split_ifs <;> first | rfl | omega
  · omega
  · rw [store_frequency_written, store_frequency_written, hV, hM]
    exact ⟨rfl, rfl⟩
  · rw [hV]; omega
  · rw [hM]; omega
  · intro n hn0 hn15 hne
    rw [hM, start_adr_mem v n hn0 hn15]
    omega

theorem store_frequency_layout_witness :
    (store_frequency erased 14200000 1 (-1)).cell 4 = 0 ∧
    (store_frequency erased 14200000 1 (-1)).cell 5 = 216 ∧
    (store_frequency erased 14200000 1 (-1)).cell 6 = 172 ∧
    (store_frequency erased 14200000 1 (-1)).cell 7 = 192 ∧
    (store_frequency erased 14200000 1 (-1)).cell 8 = 255 ∧
    (store_frequency erased 14200000 1 15).written = [76, 77, 78, 79] := by
  have h := store_frequency_layout erased 14200000 1 15 (by decide) (by decide)
    (Or.inr rfl) (by decide) (by decide)
  refine ⟨?_, ?_, ?_, ?_, ?_, ?_⟩
  · rw [h.2.1]; decide
  · rw [h.2.1]; decide
  · rw [h.2.1]; decide
  · rw [h.2.1]; decide
  · rw [h.2.1]; decide
  · rw [h.2.2.2.2.1.2]; decide

/-- C6. Start-up validation of the settings, for every EEPROM content: the active
VFO is byte 8 if that is 0 or 1 and 0 otherwise, tone is byte 9 if 0 or 1 and 0
otherwise, AGC is byte 10 if 0 or 1 and 0 otherwise, the memory index is byte 11
if in 0..15 and 0 otherwise, the scan threshold is byte 12 if in 0..100 and 0
otherwise; every address written during start-up lies in 0..7, and the cells 8..12
keep their content. -/
theorem boot_settings (e : EEPROM) :
    (main_init e).cur_vfo =
      (if eeprom_read_byte e 8 = 0 ∨ eeprom_read_byte e 8 = 1 then eeprom_read_byte e 8
       else 0) ∧
    (main_init e).toneset =
      (if eeprom_read_byte e 9 = 0 ∨ eeprom_read_byte e 9 = 1 then eeprom_read_byte e 9
       else 0) ∧
    (main_init e).agcset =
      (if eeprom_read_byte e 10 = 0 ∨ eeprom_read_byte e 10 = 1 then eeprom_read_byte e 10
       else 0) ∧
    (main_init e).cur_mem =
      (if 0 ≤ eeprom_read_byte e 11 ∧ eeprom_read_byte e 11 ≤ 15 then eeprom_read_byte e 11
       else 0) ∧
    (main_init e).scan_thresh =
      (if 0 ≤ eeprom_read_byte e 12 ∧ eeprom_read_byte e 12 ≤ 100
       then eeprom_read_byte e 12 else 0) ∧
    (∃ w, (main_init e).eeprom.written = e.written ++ w ∧ ∀ a ∈ w, 0 ≤ a ∧ a ≤ 7) ∧
    (∀ a, 8 ≤ a → a ≤ 12 → (main_init e).eeprom.cell a = e.cell a) := by
  refine ⟨?_, ?_, ?_, ?_, ?_, ?_, ?_⟩
  · rw [main_init_cur_vfo]
    unfold load_last_vfo
    simp only []
    split_ifs <;> omega
  · have h : (main_init e).toneset =
        if recall_tone (main_load e).eeprom = -1 then 0
        else recall_tone (main_load e).eeprom := rfl
    rw [h]
    unfold recall_tone
    simp only [main_load_read e 9 (by decide)]
    split_ifs <;> omega
  · have h : (main_init e).agcset =
        if recall_agc (main_load e).eeprom = -1 then 0
        else recall_agc (main_load e).eeprom := rfl
    rw [h]
    unfold recall_agc
    simp only [main_load_read e 10 (by decide)]
    split_ifs <;> omega
  · have h : (main_init e).cur_mem =
        if recall_last_mem (main_load e).eeprom = -1 then 0
        else recall_last_mem (main_load e).eeprom := rfl
    rw [h]
    unfold recall_last_mem
    simp only [main_load_read e 11 (by decide)]
    split_ifs <;> omega
  · have h : (main_init e).scan_thresh =
        if recall_scan_thresh (main_load e).eeprom = -1 then 0
        else recall_scan_thresh (main_load e).eeprom := rfl
    rw [h]
    unfold recall_scan_thresh
    simp only [main_load_read e 12 (by decide)]
    split_ifs <;> omega
  · rw [main_init_eeprom]
    refine ⟨_, main_load_written e, ?_⟩
    intro a ha
    split_ifs at ha <;> simp at ha <;> omega
  · intro a h8 _
    rw [main_init_eeprom]
    exact main_load_cell e a h8

/-! ## Synthesizer divider -/

theorem wrap32_id (x : Int) (h0 : -2147483648 ≤ x) (h1 : x < 2147483648) : wrap32 x = x := by
  unfold wrap32; omega

theorem u32_id (x : Int) (h0 : 0 ≤ x) (h1 : x < 4294967296) : u32 x = x := by
  unfold u32; omega

theorem exact_fdiv_eq (freq : Int) : exact_fdiv freq = (900000000 : ℚ) / (freq : ℚ) := by
  unfold exact_fdiv PLLRATIO
  norm_num

/-- For a positive frequency, the exact `a` is the integer quotient of 900 MHz by it. -/
theorem exact_a_eq (freq : Int) (h : 0 < freq) : exact_a freq = 900000000 / freq := by
  unfold exact_a
  rw [exact_fdiv_eq, Int.floor_eq_iff]
  have hq : (0 : ℚ) < (freq : ℚ) := by exact_mod_cast h
  have h1 := Int.ediv_add_emod 900000000 freq
  have h2 := Int.emod_nonneg 900000000 (ne_of_gt h)
  have h3 := Int.emod_lt_of_pos 900000000 h
  constructor
  · rw [le_div_iff₀ hq]
    have : (900000000 / freq) * freq ≤ 900000000 := by nlinarith
    exact_mod_cast this
  · rw [div_lt_iff₀ hq]
    have : 900000000 < (900000000 / freq + 1) * freq := by nlinarith
    exact_mod_cast this

/-- For a positive frequency, the exact `b` is the integer quotient of the remainder
times `c`. -/
theorem exact_b_eq (freq : Int) (h : 0 < freq) :
    exact_b freq = 900000000 % freq * 1048575 / freq := by
  unfold exact_b exact_rm
  rw [exact_a_eq freq h, exact_fdiv_eq, Int.floor_eq_iff]
  have hq : (0 : ℚ) < (freq : ℚ) := by exact_mod_cast h
  have hne : (freq : ℚ) ≠ 0 := ne_of_gt hq
  have h1 := Int.ediv_add_emod 900000000 freq
  have hrm : ((900000000 : ℚ) / (freq : ℚ) - ((900000000 / freq : Int) : ℚ)) * (CFACTOR : ℚ) =
      ((900000000 % freq * 1048575 : Int) : ℚ) / (freq : ℚ) := by
    have h1q : (freq : ℚ) * ((900000000 / freq : Int) : ℚ) + ((900000000 % freq : Int) : ℚ)
        = 900000000 := by exact_mod_cast h1
    unfold CFACTOR
    field_simp
    linear_combination (-1 : ℚ) * h1q
  rw [hrm]
  have g1 := Int.ediv_add_emod (900000000 % freq * 1048575) freq
  have g2 := Int.emod_nonneg (900000000 % freq * 1048575) (ne_of_gt h)
  have g3 := Int.emod_lt_of_pos (900000000 % freq * 1048575) h
  constructor
  · rw [le_div_iff₀ hq]
    have : (900000000 % freq * 1048575 / freq) * freq ≤ 900000000 % freq * 1048575 := by
      nlinarith
    exact_mod_cast this
  · rw [div_lt_iff₀ hq]
    have : 900000000 % freq * 1048575 < (900000000 % freq * 1048575 / freq + 1) * freq := by
      nlinarith
    exact_mod_cast this

theorem exact_a_nonneg (freq : Int) (h : 0 < freq) : 0 ≤ exact_a freq := by
  rw [exact_a_eq freq h]
  exact Int.ediv_nonneg (by norm_num) (le_of_lt h)

theorem exact_a_le (freq : Int) (h : 0 < freq) : exact_a freq ≤ 900000000 := by
  rw [exact_a_eq freq h]
  exact Int.ediv_le_self _ (by norm_num)

theorem exact_b_bounds (freq : Int) (h : 0 < freq) :
    0 ≤ exact_b freq ∧ exact_b freq < 1048575 := by
  rw [exact_b_eq freq h]
  have h2 := Int.emod_nonneg 900000000 (ne_of_gt h)
  have h3 := Int.emod_lt_of_pos 900000000 h
  constructor
  · exact Int.ediv_nonneg (by nlinarith) (le_of_lt h)
  · apply Int.ediv_lt_of_lt_mul h
    nlinarith

/-- Reconstruction error of the exact divider `a + b/c` for a target between
22.99999 MHz and 23.4 MHz. -/
theorem exact_reconstruct (f : Int) (hlo : 22999990 ≤ f) (hhi : f ≤ 23400000) :
    (38 : ℚ) ≤ (exact_a f : ℚ) + (exact_b f : ℚ) / (CFACTOR : ℚ) ∧
    (f : ℚ) ≤ (900000000 : ℚ) / ((exact_a f : ℚ) + (exact_b f : ℚ) / (CFACTOR : ℚ)) ∧
    (900000000 : ℚ) / ((exact_a f : ℚ) + (exact_b f : ℚ) / (CFACTOR : ℚ)) < (f : ℚ) + 10 := by
  have hf : 0 < f := by omega
  have hfq : (0 : ℚ) < (f : ℚ) := by exact_mod_cast hf
  have hfhi : (f : ℚ) ≤ 23400000 := by exact_mod_cast hhi
  have ha38 : 38 ≤ exact_a f := by
    rw [exact_a_eq f hf]
    apply Int.le_ediv_of_mul_le hf
    omega
  have ha38q : (38 : ℚ) ≤ (exact_a f : ℚ) := by exact_mod_cast ha38
  have hb0 : (0 : ℚ) ≤ (exact_b f : ℚ) := by exact_mod_cast (exact_b_bounds f hf).1
  have hc : (CFACTOR : ℚ) = 1048575 := by unfold CFACTOR; norm_num
  rw [hc]
  -- the two floors
  have hb1 : (exact_b f : ℚ) ≤ exact_rm f * 1048575 := by
    have := Int.floor_le (exact_rm f * (CFACTOR : ℚ))
    rw [hc] at this
    exact this
  have hb2 : exact_rm f * 1048575 < (exact_b f : ℚ) + 1 := by
    have := Int.lt_floor_add_one (exact_rm f * (CFACTOR : ℚ))
    rw [hc] at this
    exact this
  have hrm : exact_rm f = (900000000 : ℚ) / (f : ℚ) - (exact_a f : ℚ) := by
    unfold exact_rm
    rw [exact_fdiv_eq]
  have hD : (900000000 : ℚ) / (f : ℚ) * (f : ℚ) = 900000000 := by
    field_simp
  set x : ℚ := (exact_a f : ℚ) + (exact_b f : ℚ) / 1048575 with hx
  have hbx : (exact_b f : ℚ) = (x - (exact_a f : ℚ)) * 1048575 := by
    rw [hx]; field_simp; ring
  have hx38 : (38 : ℚ) ≤ x := by
    have : (0 : ℚ) ≤ (exact_b f : ℚ) / 1048575 := by positivity
    linarith
  have hxpos : (0 : ℚ) < x := by linarith
  -- x ≤ D / f and D / f < x + 1 / c
  have h1 : x ≤ (900000000 : ℚ) / (f : ℚ) := by
    rw [hrm, hbx] at hb1
    linarith
  have h2 : (900000000 : ℚ) / (f : ℚ) < x + 1 / 1048575 := by
    rw [hrm, hbx] at hb2
    linarith
  have h1' : x * (f : ℚ) ≤ 900000000 := by
    calc x * (f : ℚ) ≤ (900000000 : ℚ) / (f : ℚ) * (f : ℚ) :=
          mul_le_mul_of_nonneg_right h1 (le_of_lt hfq)
      _ = 900000000 := hD
  have h2' : (900000000 : ℚ) < (x + 1 / 1048575) * (f : ℚ) := by
    calc (900000000 : ℚ) = (900000000 : ℚ) / (f : ℚ) * (f : ℚ) := hD.symm
      _ < (x + 1 / 1048575) * (f : ℚ) := mul_lt_mul_of_pos_right h2 hfq
  refine ⟨hx38, ?_, ?_⟩
  · rw [le_div_iff₀ hxpos]
    linarith
  · rw [div_lt_iff₀ hxpos]
    nlinarith

/-! ## Floating-point rounding -/

theorem round_even_bounds (x : ℚ) : ⌊x⌋ ≤ round_even x ∧ round_even x ≤ ⌊x⌋ + 1 := by
  unfold round_even
  split_ifs <;> omega

theorem round_even_err (x : ℚ) : |(round_even x : ℚ) - x| ≤ 1 / 2 := by
  have h1 := Int.floor_le x
  have h2 := Int.lt_floor_add_one x
  unfold round_even
  rw [abs_le]
  split_ifs with a b c
  · constructor <;> linarith
  · push_cast; constructor <;> linarith
  · push_neg at a b
    constructor <;> linarith
  · push_neg at a b
    push_cast; constructor <;> linarith

theorem round_even_int (n : Int) : round_even (n : ℚ) = n := by
  unfold round_even
  rw [Int.floor_intCast]
  simp

theorem round_even_mono {x y : ℚ} (h : x ≤ y) : round_even x ≤ round_even y := by
  have hf : ⌊x⌋ ≤ ⌊y⌋ := Int.floor_mono h
  rcases lt_or_eq_of_le hf with hlt | heq
  · have := (round_even_bounds x).2
    have := (round_even_bounds y).1
    omega
  · unfold round_even
    rw [heq]
    split_ifs <;> first | omega | (exfalso; linarith)

/-- A value within less than one half of an integer rounds to it. -/
theorem round_even_eq (x : ℚ) (m : Int) (h : |x - (m : ℚ)| < 1 / 2) : round_even x = m := by
  rw [abs_lt] at h
  have e := round_even_err x
  rw [abs_le] at e
  have h1 : ((round_even x - m : Int) : ℚ) < 1 := by push_cast; linarith
  have h2 : (-1 : ℚ) < ((round_even x - m : Int) : ℚ) := by push_cast; linarith
  have h3 : round_even x - m < 1 := by exact_mod_cast h1
  have h4 : -1 < round_even x - m := by exact_mod_cast h2
  omega

theorem two_cast : (((2 : ℕ) : ℚ)) = 2 := by norm_num

theorem ulp_pos (p : Nat) (x : ℚ) : 0 < ulp p x := by
  unfold ulp
  exact zpow_pos (by norm_num) _

/-- For positive `x` the significand `x / ulp` lies between `2^(p-1)` and `2^p`. -/
theorem ulp_bounds (p : Nat) (hp : 1 ≤ p) (x : ℚ) (hx : 0 < x) :
    (2 : ℚ) ^ (p - 1) * ulp p x ≤ x ∧ x < (2 : ℚ) ^ p * ulp p x := by
  have h1 := Int.zpow_log_le_self (b := 2) (r := x) (by norm_num) hx
  have h2 := Int.lt_zpow_succ_log_self (b := 2) (by norm_num) x
  rw [two_cast] at h1 h2
  have e1 : (2 : ℚ) ^ (p - 1) * ulp p x = 2 ^ Int.log 2 x := by
    unfold ulp
    rw [abs_of_pos hx, ← zpow_natCast, ← zpow_add₀ (by norm_num)]
    congr 1
    have : ((p - 1 : ℕ) : Int) = (p : Int) - 1 := by omega
    rw [this]; ring
  have e2 : (2 : ℚ) ^ p * ulp p x = 2 ^ (Int.log 2 x + 1) := by
    unfold ulp
    rw [abs_of_pos hx, ← zpow_natCast, ← zpow_add₀ (by norm_num)]
    congr 1
    ring
  rw [e1, e2]
  exact ⟨h1, h2⟩

/-- The unit in the last place is determined by the binade of `x`. -/
theorem ulp_eq (p : Nat) (hp : 1 ≤ p) (x : ℚ) (k : Int)
    (h1 : (2 : ℚ) ^ (p - 1) * 2 ^ k ≤ x) (h2 : x < (2 : ℚ) ^ p * 2 ^ k) :
    ulp p x = 2 ^ k := by
  have hx : 0 < x := lt_of_lt_of_le (by positivity) h1
  have e : Int.log 2 x = k + p - 1 := by
    apply le_antisymm
    · have : Int.log 2 x < k + p := by
        rw [← Int.lt_zpow_iff_log_lt (by norm_num) hx, two_cast]
        have : (2 : ℚ) ^ (k + (p : Int)) = 2 ^ p * 2 ^ k := by
          rw [zpow_add₀ (by norm_num), zpow_natCast]; ring
        rw [this]; exact h2
      omega
    · rw [← Int.zpow_le_iff_le_log (by norm_num) hx, two_cast]
      have : (2 : ℚ) ^ (k + (p : Int) - 1) = 2 ^ (p - 1) * 2 ^ k := by
        have hh : k + (p : Int) - 1 = k + ((p - 1 : ℕ) : Int) := by omega
        rw [hh, zpow_add₀ (by norm_num), zpow_natCast]; ring
      rw [this]; exact h1
  unfold ulp
  rw [abs_of_pos hx, e]
  congr 1
  ring

theorem to_double_zero (p : Nat) : to_double p 0 = 0 := by
  unfold to_double
  rw [zero_div]
  have := round_even_int 0
  simp only [Int.cast_zero] at this
  rw [this]
  simp

/-- Evaluation of `to_double` at a positive value: binade and rounded significand. -/
theorem to_double_eq (p : Nat) (hp : 1 ≤ p) (x : ℚ) (k m : Int)
    (h1 : (2 : ℚ) ^ (p - 1) * 2 ^ k ≤ x) (h2 : x < (2 : ℚ) ^ p * 2 ^ k)
    (h3 : round_even (x / 2 ^ k) = m) : to_double p x = (m : ℚ) * 2 ^ k := by
  unfold to_double
  rw [ulp_eq p hp x k h1 h2, h3]

/-- The rounding error is at most half a unit in the last place, hence at most
`x / 2^p`. -/
theorem to_double_err (p : Nat) (hp : 1 ≤ p) (x : ℚ) (hx : 0 ≤ x) :
    |to_double p x - x| ≤ x / 2 ^ p := by
  rcases eq_or_lt_of_le hx with h0 | hpos
  · rw [← h0, to_double_zero]; simp
  have hu := ulp_pos p x
  have hb := (ulp_bounds p hp x hpos).1
  have e := round_even_err (x / ulp p x)
  unfold to_double
  have e2 : (round_even (x / ulp p x) : ℚ) * ulp p x - x
      = ((round_even (x / ulp p x) : ℚ) - x / ulp p x) * ulp p x := by
    field_simp
  rw [e2, abs_mul, abs_of_pos hu]
  have h3 : |(round_even (x / ulp p x) : ℚ) - x / ulp p x| * ulp p x ≤ 1 / 2 * ulp p x :=
    mul_le_mul_of_nonneg_right e (le_of_lt hu)
  have h4 : (1 : ℚ) / 2 * ulp p x ≤ x / 2 ^ p := by
    rw [le_div_iff₀ (by positivity)]
    have : (2 : ℚ) ^ p = 2 * 2 ^ (p - 1) := by
      rw [← pow_succ']
      congr 1
      omega
    rw [this]
    linarith
  linarith

/-- A positive value stays in its binade (end points included). -/
theorem to_double_bounds (p : Nat) (hp : 1 ≤ p) (x : ℚ) (hx : 0 < x) :
    (2 : ℚ) ^ (p - 1) * ulp p x ≤ to_double p x ∧ to_double p x ≤ (2 : ℚ) ^ p * ulp p x := by
  have hu := ulp_pos p x
  obtain ⟨b1, b2⟩ := ulp_bounds p hp x hx
  have c1 : (2 : ℚ) ^ (p - 1) ≤ x / ulp p x := by rw [le_div_iff₀ hu]; exact b1
  have c2 : x / ulp p x ≤ (2 : ℚ) ^ p := by rw [div_le_iff₀ hu]; exact le_of_lt b2
  have d1 := round_even_mono c1
  have d2 := round_even_mono c2
  have i1 : ((2 : ℚ) ^ (p - 1)) = (((2 : Int) ^ (p - 1) : Int) : ℚ) := by push_cast; rfl
  have i2 : ((2 : ℚ) ^ p) = (((2 : Int) ^ p : Int) : ℚ) := by push_cast; rfl
  rw [i1, round_even_int] at d1
  rw [i2, round_even_int] at d2
  have d1q : ((2 : ℚ) ^ (p - 1)) ≤ (round_even (x / ulp p x) : ℚ) := by
    rw [i1]; exact_mod_cast d1
  have d2q : (round_even (x / ulp p x) : ℚ) ≤ (2 : ℚ) ^ p := by
    rw [i2]; exact_mod_cast d2
  unfold to_double
  exact ⟨mul_le_mul_of_nonneg_right d1q (le_of_lt hu), mul_le_mul_of_nonneg_right d2q (le_of_lt hu)⟩

theorem to_double_pos (p : Nat) (hp : 1 ≤ p) (x : ℚ) (hx : 0 < x) : 0 < to_double p x := by
  have := (to_double_bounds p hp x hx).1
  have hu := ulp_pos p x
  have : (0 : ℚ) < 2 ^ (p - 1) * ulp p x := by positivity
  linarith

theorem ulp_mono (p : Nat) {x y : ℚ} (hx : 0 < x) (h : x ≤ y) : ulp p x ≤ ulp p y := by
  have hy : 0 < y := lt_of_lt_of_le hx h
  unfold ulp
  rw [abs_of_pos hx, abs_of_pos hy]
  apply zpow_le_zpow_right₀ (by norm_num)
  have := Int.log_mono_right (b := 2) hx h
  omega

/-- Rounding is monotone on the non-negative values. -/
theorem to_double_mono (p : Nat) (hp : 1 ≤ p) {x y : ℚ} (hx : 0 ≤ x) (h : x ≤ y) :
    to_double p x ≤ to_double p y := by
  rcases eq_or_lt_of_le hx with h0 | hpos
  · rw [← h0, to_double_zero]
    rcases eq_or_lt_of_le (le_trans hx h) with h1 | h1
    · rw [← h1, to_double_zero]
    · exact le_of_lt (to_double_pos p hp y h1)
  have hy : 0 < y := lt_of_lt_of_le hpos h
  have hl := Int.log_mono_right (b := 2) hpos h
  rcases lt_or_eq_of_le hl with hlt | heq
  · -- different binades
    have a1 := (to_double_bounds p hp x hpos).2
    have a2 := (to_double_bounds p hp y hy).1
    have : (2 : ℚ) ^ p * ulp p x ≤ 2 ^ (p - 1) * ulp p y := by
      have e1 : (2 : ℚ) ^ p * ulp p x = 2 ^ (Int.log 2 x + 1) := by
        unfold ulp
        rw [abs_of_pos hpos, ← zpow_natCast, ← zpow_add₀ (by norm_num)]
        congr 1
        ring
      have e2 : (2 : ℚ) ^ (p - 1) * ulp p y = 2 ^ Int.log 2 y := by
        unfold ulp
        rw [abs_of_pos hy, ← zpow_natCast, ← zpow_add₀ (by norm_num)]
        congr 1
        have : ((p - 1 : ℕ) : Int) = (p : Int) - 1 := by omega
        rw [this]; ring
      rw [e1, e2]
      exact zpow_le_zpow_right₀ (by norm_num) (by omega)
    linarith
  · have hu : ulp p x = ulp p y := by
      unfold ulp
      rw [abs_of_pos hpos, abs_of_pos hy, heq]
    have hup := ulp_pos p y
    unfold to_double
    rw [hu]
    have : x / ulp p y ≤ y / ulp p y := div_le_div_of_nonneg_right h (le_of_lt hup)
    have := round_even_mono this
    have hq : (round_even (x / ulp p y) : ℚ) ≤ (round_even (y / ulp p y) : ℚ) := by
      exact_mod_cast this
    exact mul_le_mul_of_nonneg_right hq (le_of_lt hup)

/-- A value `m * 2^k` with `m < 2^p` is representable: rounding leaves it unchanged. -/
theorem to_double_exact (p : Nat) (hp : 1 ≤ p) (m : Nat) (k : Int) (hm : m < 2 ^ p) :
    to_double p ((m : ℚ) * 2 ^ k) = (m : ℚ) * 2 ^ k := by
  rcases Nat.eq_zero_or_pos m with h0 | hpos
  · subst h0; simp [to_double_zero]
  have h2k : (0 : ℚ) < 2 ^ k := zpow_pos (by norm_num) _
  have hx : (0 : ℚ) < (m : ℚ) * 2 ^ k := by
    have : (0 : ℚ) < (m : ℚ) := by exact_mod_cast hpos
    positivity
  set x : ℚ := (m : ℚ) * 2 ^ k with hxdef
  have hu := ulp_pos p x
  obtain ⟨b1, _⟩ := ulp_bounds p hp x hx
  -- the exponent of the unit is at most k
  have hle : Int.log 2 x - (p : Int) + 1 ≤ k := by
    by_contra hcon
    push_neg at hcon
    have h1 : (2 : ℚ) ^ (k + 1) ≤ ulp p x := by
      unfold ulp
      rw [abs_of_pos hx]
      exact zpow_le_zpow_right₀ (by norm_num) (by omega)
    have h2 : (m : ℚ) + 1 ≤ 2 ^ p := by
      have : m + 1 ≤ 2 ^ p := hm
      exact_mod_cast this
    have h3 : (2 : ℚ) ^ (k + 1) = 2 * 2 ^ k := by
      rw [zpow_add₀ (by norm_num)]; ring
    have h4 : (2 : ℚ) ^ p = 2 * 2 ^ (p - 1) := by
      rw [← pow_succ']
      congr 1
      omega
    have h5 : (2 : ℚ) ^ (p - 1) * (2 * 2 ^ k) ≤ (m : ℚ) * 2 ^ k := by
      calc (2 : ℚ) ^ (p - 1) * (2 * 2 ^ k) ≤ 2 ^ (p - 1) * ulp p x := by
            rw [← h3]
            exact mul_le_mul_of_nonneg_left h1 (by positivity)
        _ ≤ x := b1
        _ = (m : ℚ) * 2 ^ k := hxdef
    have h6 : (2 : ℚ) ^ (p - 1) * 2 ≤ (m : ℚ) := by
      have : (2 : ℚ) ^ (p - 1) * 2 * 2 ^ k ≤ (m : ℚ) * 2 ^ k := by linarith
      exact le_of_mul_le_mul_right this h2k
    linarith
  obtain ⟨j, hj⟩ := Int.eq_ofNat_of_zero_le (show 0 ≤ k - (Int.log 2 x - (p : Int) + 1) by omega)
  have hdiv : x / ulp p x = (((m * 2 ^ j : Nat) : Int) : ℚ) := by
    rw [div_eq_iff (ne_of_gt hu)]
    unfold ulp
    rw [abs_of_pos hx]
    push_cast
    rw [mul_assoc, ← zpow_natCast, ← zpow_add₀ (by norm_num)]
    have hjk : (j : Int) + (Int.log 2 x - (p : Int) + 1) = k := by omega
    rw [hjk]
  unfold to_double
  rw [hdiv, round_even_int, ← hdiv]
  field_simp

theorem to_double_nat (p : Nat) (hp : 1 ≤ p) (n : Nat) (h : n < 2 ^ p) :
    to_double p (n : ℚ) = n := by
  have := to_double_exact p hp n 0 h
  simpa using this

/-- The result of a rounding is representable: a significand below `2^p` times a
power of two. -/
theorem to_double_repr (p : Nat) (hp : 1 ≤ p) (x : ℚ) (hx : 0 < x) :
    ∃ (m : Nat) (k : Int), m < 2 ^ p ∧ 0 < m ∧ to_double p x = (m : ℚ) * 2 ^ k := by
  have hu := ulp_pos p x
  obtain ⟨b1, b2⟩ := to_double_bounds p hp x hx
  have hpos := to_double_pos p hp x hx
  have hMpos : 0 < round_even (x / ulp p x) := by
    by_contra hcon
    push_neg at hcon
    have : (round_even (x / ulp p x) : ℚ) ≤ 0 := by exact_mod_cast hcon
    have : to_double p x ≤ 0 := by
      unfold to_double
      exact mul_nonpos_of_nonpos_of_nonneg this (le_of_lt hu)
    linarith
  have hMle : round_even (x / ulp p x) ≤ 2 ^ p := by
    have h : (round_even (x / ulp p x) : ℚ) * ulp p x ≤ (2 : ℚ) ^ p * ulp p x := b2
    have h2 := le_of_mul_le_mul_right h hu
    have h3 : (round_even (x / ulp p x) : ℚ) ≤ (((2 : Int) ^ p : Int) : ℚ) := by
      push_cast; exact h2
    exact_mod_cast h3
  rcases lt_or_eq_of_le hMle with hlt | heq
  · refine ⟨(round_even (x / ulp p x)).toNat, Int.log 2 |x| - (p : Int) + 1, ?_, ?_, ?_⟩
    · have : ((round_even (x / ulp p x)).toNat : Int) < ((2 ^ p : Nat) : Int) := by
        rw [Int.toNat_of_nonneg (le_of_lt hMpos)]
        push_cast
        exact hlt
      exact_mod_cast this
    · have : (0 : Int) < ((round_even (x / ulp p x)).toNat : Int) := by
        rw [Int.toNat_of_nonneg (le_of_lt hMpos)]
        exact hMpos
      exact_mod_cast this
    · have hc : (((round_even (x / ulp p x)).toNat : Nat) : ℚ) = (round_even (x / ulp p x) : ℚ) := by
        have := Int.toNat_of_nonneg (le_of_lt hMpos)
        exact_mod_cast this
      rw [hc]
      rfl
  · refine ⟨1, Int.log 2 |x| - (p : Int) + 1 + p, ?_, by norm_num, ?_⟩
    · exact Nat.one_lt_two_pow (by omega)
    · unfold to_double
      rw [heq]
      rw [zpow_add₀ (by norm_num), zpow_natCast]
      unfold ulp
      push_cast
      ring

/-- Rounding a rounded value changes nothing. -/
theorem to_double_idem (p : Nat) (hp : 1 ≤ p) (x : ℚ) (hx : 0 ≤ x) :
    to_double p (to_double p x) = to_double p x := by
  rcases eq_or_lt_of_le hx with h0 | hpos
  · rw [← h0, to_double_zero, to_double_zero]
  obtain ⟨m, k, hm, _, he⟩ := to_double_repr p hp x hpos
  rw [he]
  exact to_double_exact p hp m k hm

/-- The integer part of a representable value is representable. -/
theorem to_double_floor (p : Nat) (hp : 1 ≤ p) (x : ℚ) (hx : 0 ≤ x) :
    to_double p ((⌊to_double p x⌋ : Int) : ℚ) = ((⌊to_double p x⌋ : Int) : ℚ) := by
  rcases eq_or_lt_of_le hx with h0 | hpos
  · rw [← h0, to_double_zero]
    simp [to_double_zero]
  obtain ⟨m, k, hm, hm0, he⟩ := to_double_repr p hp x hpos
  rw [he]
  rcases le_or_lt 0 k with hk | hk
  · obtain ⟨j, hj⟩ := Int.eq_ofNat_of_zero_le hk
    have e1 : (m : ℚ) * 2 ^ k = (((m * 2 ^ j : Nat) : Int) : ℚ) := by
      rw [hj, zpow_natCast]; push_cast; ring
    rw [e1, Int.floor_intCast, ← e1]
    exact to_double_exact p hp m k hm
  · have h2k : (0 : ℚ) < 2 ^ k := zpow_pos (by norm_num) _
    have h2k1 : (2 : ℚ) ^ k ≤ 1 := by
      have := zpow_le_zpow_right₀ (a := (2 : ℚ)) (by norm_num) (le_of_lt hk)
      simpa using this
    have hy0 : (0 : ℚ) ≤ (m : ℚ) * 2 ^ k := by positivity
    have hylt : (m : ℚ) * 2 ^ k < 2 ^ p := by
      have hmq : (m : ℚ) < 2 ^ p := by exact_mod_cast hm
      calc (m : ℚ) * 2 ^ k ≤ (m : ℚ) * 1 := mul_le_mul_of_nonneg_left h2k1 (by positivity)
        _ = m := mul_one _
        _ < 2 ^ p := hmq
    have hf0 : 0 ≤ ⌊(m : ℚ) * 2 ^ k⌋ := Int.floor_nonneg.mpr hy0
    have hflt : ⌊(m : ℚ) * 2 ^ k⌋ < 2 ^ p := by
      have h1 := Int.floor_le ((m : ℚ) * 2 ^ k)
      have h2 : ((⌊(m : ℚ) * 2 ^ k⌋ : Int) : ℚ) < (((2 : Int) ^ p : Int) : ℚ) := by
        push_cast; linarith
      exact_mod_cast h2
    obtain ⟨n, hn⟩ := Int.eq_ofNat_of_zero_le hf0
    rw [hn]
    have hnlt : n < 2 ^ p := by
      have : (n : Int) < ((2 ^ p : Nat) : Int) := by rw [← hn]; push_cast; exact hflt
      exact_mod_cast this
    have := to_double_nat p hp n hnlt
    simpa using this

/-- The fractional part of a representable value is representable. -/
theorem to_double_fract (p : Nat) (hp : 1 ≤ p) (x : ℚ) (hx : 0 ≤ x) :
    to_double p (to_double p x - ((⌊to_double p x⌋ : Int) : ℚ))
      = to_double p x - ((⌊to_double p x⌋ : Int) : ℚ) := by
  rcases eq_or_lt_of_le hx with h0 | hpos
  · rw [← h0, to_double_zero]
    simp [to_double_zero]
  obtain ⟨m, k, hm, hm0, he⟩ := to_double_repr p hp x hpos
  rw [he]
  rcases le_or_lt 0 k with hk | hk
  · obtain ⟨j, hj⟩ := Int.eq_ofNat_of_zero_le hk
    have e1 : (m : ℚ) * 2 ^ k = (((m * 2 ^ j : Nat) : Int) : ℚ) := by
      rw [hj, zpow_natCast]; push_cast; ring
    rw [e1, Int.floor_intCast, sub_self, to_double_zero]
  · obtain ⟨j, hj⟩ := Int.eq_ofNat_of_zero_le (show 0 ≤ -k by omega)
    have hk2 : k = -(j : Int) := by omega
    have h2j : (0 : ℚ) < 2 ^ j := by positivity
    have e1 : (m : ℚ) * 2 ^ k = (m : ℚ) / 2 ^ j := by
      rw [hk2, zpow_neg, zpow_natCast]; rfl
    have h1 := Nat.div_add_mod m (2 ^ j)
    have h2 := Nat.mod_lt m (show 0 < 2 ^ j by positivity)
    generalize m / 2 ^ j = q at h1
    generalize hr : m % 2 ^ j = r at h1 h2
    have h1q : (2 : ℚ) ^ j * (q : ℚ) + (r : ℚ) = m := by exact_mod_cast h1
    have h2q : (r : ℚ) < 2 ^ j := by exact_mod_cast h2
    have h3q : (0 : ℚ) ≤ (r : ℚ) := by positivity
    have e2 : ⌊(m : ℚ) / 2 ^ j⌋ = ((q : Nat) : Int) := by
      rw [Int.floor_eq_iff, Int.cast_natCast]
      constructor
      · rw [le_div_iff₀ h2j]; nlinarith
      · rw [div_lt_iff₀ h2j]; nlinarith
    have e3 : (m : ℚ) / 2 ^ j - (((q : Nat) : Int) : ℚ) = (r : ℚ) * 2 ^ k := by
      rw [hk2, zpow_neg, zpow_natCast, Int.cast_natCast]
      field_simp
      linarith
    rw [e1, e2, e3]
    apply to_double_exact p hp
    rw [← hr]
    exact lt_of_le_of_lt (Nat.mod_le _ _) hm

theorem two_pow_ge (p : Nat) (hp : 24 ≤ p) : (16777216 : ℚ) ≤ 2 ^ p := by
  have : (2 : ℚ) ^ 24 ≤ 2 ^ p := pow_le_pow_right₀ (by norm_num) hp
  norm_num at this
  exact this

theorem two_pow_ge_nat (p : Nat) (hp : 24 ≤ p) : 16777216 ≤ 2 ^ p := by
  have : 2 ^ 24 ≤ 2 ^ p := Nat.pow_le_pow_right (by norm_num) hp
  norm_num at this
  exact this

/-- With at least 24 significant bits the relative rounding error is at most
`2^-24`. -/
theorem to_double_err24 (p : Nat) (hp : 24 ≤ p) (x : ℚ) (hx : 0 ≤ x) :
    |to_double p x - x| ≤ x / 16777216 := by
  have h := to_double_err p (by omega) x hx
  have h2 := two_pow_ge p hp
  have : x / 2 ^ p ≤ x / 16777216 := by
    apply div_le_div_of_nonneg_left hx (by norm_num) h2
  linarith

/-! ## Synthesizer divider in `double` arithmetic -/

/-- A representable value below 1 is at most the largest one below 1. -/
theorem repr_lt_one (p : Nat) (hp : 1 ≤ p) (m : Nat) (k : Int) (hm : m < 2 ^ p)
    (h : (m : ℚ) * 2 ^ k < 1) : (m : ℚ) * 2 ^ k ≤ 1 - 1 / 2 ^ p := by
  have hp2 : (0 : ℚ) < 2 ^ p := by positivity
  rcases le_or_lt (-(p : Int)) k with hk | hk
  · obtain ⟨j, hj⟩ := Int.eq_ofNat_of_zero_le (show 0 ≤ k + p by omega)
    have e : (2 : ℚ) ^ k = 2 ^ j / 2 ^ p := by
      have : k = (j : Int) - (p : Int) := by omega
      rw [this, zpow_sub₀ (by norm_num), zpow_natCast, zpow_natCast]
    rw [e] at h ⊢
    have h1 : (m : ℚ) * 2 ^ j < 2 ^ p := by
      have : (m : ℚ) * (2 ^ j / 2 ^ p) = (m : ℚ) * 2 ^ j / 2 ^ p := by ring
      rw [this, div_lt_one hp2] at h
      exact h
    have h2 : m * 2 ^ j < 2 ^ p := by exact_mod_cast h1
    have h3 : m * 2 ^ j + 1 ≤ 2 ^ p := h2
    have h4 : (m : ℚ) * 2 ^ j + 1 ≤ 2 ^ p := by exact_mod_cast h3
    rw [show (m : ℚ) * (2 ^ j / 2 ^ p) = (m : ℚ) * 2 ^ j / 2 ^ p by ring,
      div_le_iff₀ hp2]
    have : (1 - 1 / (2 : ℚ) ^ p) * 2 ^ p = 2 ^ p - 1 := by field_simp
    rw [this]
    linarith
  · have h1 : (2 : ℚ) ^ k ≤ 2 ^ (-(p : Int) - 1) :=
      zpow_le_zpow_right₀ (by norm_num) (by omega)
    have e : (2 : ℚ) ^ (-(p : Int) - 1) = 1 / (2 * 2 ^ p) := by
      rw [zpow_sub₀ (by norm_num), zpow_neg, zpow_natCast]
      field_simp
      ring
    rw [e] at h1
    have hmq : (m : ℚ) < 2 ^ p := by exact_mod_cast hm
    have hm0 : (0 : ℚ) ≤ (m : ℚ) := by positivity
    have h2 : (m : ℚ) * 2 ^ k ≤ 2 ^ p * (1 / (2 * 2 ^ p)) :=
      mul_le_mul (le_of_lt hmq) h1 (le_of_lt (zpow_pos (by norm_num) _)) (le_of_lt hp2)
    have h3 : (2 : ℚ) ^ p * (1 / (2 * 2 ^ p)) = 1 / 2 := by
      field_simp
      ring
    have h4 : (2 : ℚ) ≤ 2 ^ p := by
      calc (2 : ℚ) = 2 ^ 1 := by norm_num
        _ ≤ 2 ^ p := pow_le_pow_right₀ (by norm_num) hp
    have h5 : 1 / (2 : ℚ) ^ p ≤ 1 / 2 := one_div_le_one_div_of_le (by norm_num) h4
    linarith

theorem to_double_vco (p : Nat) (hp : 24 ≤ p) :
    to_double p ((25000000 * PLLRATIO : Nat) : ℚ) = 900000000 := by
  have h := to_double_exact p (by omega) 3515625 8
    (lt_of_lt_of_le (by norm_num) (two_pow_ge_nat p hp))
  have e : ((3515625 : Nat) : ℚ) * 2 ^ (8 : Int) = 900000000 := by norm_num
  rw [e] at h
  have e2 : ((25000000 * PLLRATIO : Nat) : ℚ) = 900000000 := by
    unfold PLLRATIO; norm_num
  rw [e2, h]

theorem to_double_cfactor (p : Nat) (hp : 24 ≤ p) :
    to_double p (CFACTOR : ℚ) = 1048575 := by
  have h := to_double_nat p (by omega) 1048575
    (lt_of_lt_of_le (by norm_num) (two_pow_ge_nat p hp))
  unfold CFACTOR
  exact_mod_cast h

theorem to_double_small (p : Nat) (hp : 24 ≤ p) (n : Nat) (h : n < 16777216) :
    to_double p (n : ℚ) = n :=
  to_double_nat p (by omega) n (lt_of_lt_of_le h (two_pow_ge_nat p hp))

theorem si5351_fdiv_eq (p : Nat) (hp : 24 ≤ p) (freq : Int) :
    si5351_fdiv p freq = to_double p (900000000 / to_double p (freq : ℚ)) := by
  unfold si5351_fdiv
  rw [to_double_vco p hp]

/-- The converted frequency is at least 1. -/
theorem to_double_freq_pos (p : Nat) (hp : 24 ≤ p) (freq : Int) (h : 0 < freq) :
    1 ≤ to_double p (freq : ℚ) := by
  have h1 : (1 : ℚ) ≤ (freq : ℚ) := by exact_mod_cast h
  have := to_double_mono p (by omega) (by norm_num) h1
  have e := to_double_small p hp 1 (by norm_num)
  simp only [Nat.cast_one] at e
  rw [e] at this
  exact this

theorem si5351_fdiv_bounds (p : Nat) (hp : 24 ≤ p) (freq : Int) (h : 0 < freq) :
    0 < si5351_fdiv p freq ∧ si5351_fdiv p freq ≤ 900000000 := by
  have hD := to_double_freq_pos p hp freq h
  have hq0 : (0 : ℚ) < 900000000 / to_double p (freq : ℚ) := by positivity
  have hq1 : 900000000 / to_double p (freq : ℚ) ≤ 900000000 := by
    rw [div_le_iff₀ (by linarith)]
    nlinarith
  rw [si5351_fdiv_eq p hp]
  refine ⟨to_double_pos p (by omega) _ hq0, ?_⟩
  have := to_double_mono p (by omega) (le_of_lt hq0) hq1
  have e := to_double_vco p hp
  have e2 : ((25000000 * PLLRATIO : Nat) : ℚ) = 900000000 := by
    unfold PLLRATIO; norm_num
  rw [e2] at e
  rw [e] at this
  exact this

/-- For a positive frequency `a` is the integer part of `fdiv`; the conversion to
`unsigned long` does not wrap. -/
theorem si5351_a_eq (p : Nat) (hp : 24 ≤ p) (freq : Int) (h : 0 < freq) :
    si5351_a p freq = ⌊si5351_fdiv p freq⌋ ∧
    0 ≤ si5351_a p freq ∧ si5351_a p freq ≤ 900000000 := by
  obtain ⟨h0, h1⟩ := si5351_fdiv_bounds p hp freq h
  have f0 : 0 ≤ ⌊si5351_fdiv p freq⌋ := Int.floor_nonneg.mpr (le_of_lt h0)
  have f1 : ⌊si5351_fdiv p freq⌋ ≤ 900000000 := by
    have := Int.floor_le (si5351_fdiv p freq)
    have : ((⌊si5351_fdiv p freq⌋ : Int) : ℚ) ≤ ((900000000 : Int) : ℚ) := by
      push_cast; linarith
    exact_mod_cast this
  have e : si5351_a p freq = ⌊si5351_fdiv p freq⌋ := by
    unfold si5351_a
    exact u32_id _ f0 (by omega)
  rw [e]
  exact ⟨rfl, f0, f1⟩

/-- The difference `rm = fdiv - a` is computed without rounding error. -/
theorem si5351_rm_eq (p : Nat) (hp : 24 ≤ p) (freq : Int) (h : 0 < freq) :
    si5351_rm p freq = si5351_fdiv p freq - (si5351_a p freq : ℚ) := by
  have hD := to_double_freq_pos p hp freq h
  have hq0 : (0 : ℚ) ≤ 900000000 / to_double p (freq : ℚ) := by positivity
  unfold si5351_rm
  rw [(si5351_a_eq p hp freq h).1, si5351_fdiv_eq p hp]
  rw [to_double_floor p (by omega) _ hq0, to_double_fract p (by omega) _ hq0]

theorem si5351_rm_bounds (p : Nat) (hp : 24 ≤ p) (freq : Int) (h : 0 < freq) :
    0 ≤ si5351_rm p freq ∧ si5351_rm p freq ≤ 1 - 1 / 2 ^ p := by
  have hrm := si5351_rm_eq p hp freq h
  have ha := (si5351_a_eq p hp freq h).1
  have h1 := Int.floor_le (si5351_fdiv p freq)
  have h2 := Int.lt_floor_add_one (si5351_fdiv p freq)
  have r0 : 0 ≤ si5351_rm p freq := by rw [hrm, ha]; linarith
  have r1 : si5351_rm p freq < 1 := by rw [hrm, ha]; linarith
  refine ⟨r0, ?_⟩
  rcases eq_or_lt_of_le r0 with hz | hpos
  · rw [← hz]
    have : (1 : ℚ) / 2 ^ p ≤ 1 := by
      rw [div_le_one (by positivity)]
      exact one_le_pow₀ (by norm_num)
    linarith
  · -- rm is the result of a rounding, hence representable
    have hrep : ∃ (m : Nat) (k : Int), m < 2 ^ p ∧ 0 < m ∧ si5351_rm p freq = (m : ℚ) * 2 ^ k := by
      have hx : 0 < si5351_fdiv p freq - to_double p (si5351_a p freq : ℚ) := by
        by_contra hcon
        push_neg at hcon
        rcases eq_or_lt_of_le hcon with he | hl
        · have : si5351_rm p freq = 0 := by
            unfold si5351_rm; rw [he, to_double_zero]
          linarith
        · -- the argument equals rm, which is positive
          have hD := to_double_freq_pos p hp freq h
          have hq0 : (0 : ℚ) ≤ 900000000 / to_double p (freq : ℚ) := by positivity
          have e : to_double p (si5351_a p freq : ℚ) = (si5351_a p freq : ℚ) := by
            rw [ha, si5351_fdiv_eq p hp]
            exact to_double_floor p (by omega) _ hq0
          rw [e, ← hrm] at hl
          linarith
      exact to_double_repr p (by omega) _ hx
    obtain ⟨m, k, hm, _, he⟩ := hrep
    rw [he] at r1 ⊢
    exact repr_lt_one p (by omega) m k hm r1

/-- For a positive frequency `b` is the integer part of the rounded product
`rm * c`, and `0 ≤ b < c`. -/
theorem si5351_b_eq (p : Nat) (hp : 24 ≤ p) (freq : Int) (h : 0 < freq) :
    si5351_b p freq = ⌊to_double p (si5351_rm p freq * 1048575)⌋ ∧
    0 ≤ si5351_b p freq ∧ si5351_b p freq < 1048575 := by
  obtain ⟨r0, r1⟩ := si5351_rm_bounds p hp freq h
  have hδ : (0 : ℚ) < 1 / 2 ^ p := by positivity
  have hδ1 : (1 : ℚ) / 2 ^ p ≤ 1 := by
    rw [div_le_one (by positivity)]
    exact one_le_pow₀ (by norm_num)
  have hx0 : 0 ≤ si5351_rm p freq * 1048575 := by positivity
  have herr := to_double_err p (by omega) _ hx0
  rw [abs_le] at herr
  have ht0 : 0 ≤ to_double p (si5351_rm p freq * 1048575) := by
    have := to_double_mono p (by omega) (le_refl 0) hx0
    rw [to_double_zero] at this
    exact this
  have ht1 : to_double p (si5351_rm p freq * 1048575) < 1048575 := by
    have e : si5351_rm p freq * 1048575 / 2 ^ p = si5351_rm p freq * 1048575 * (1 / 2 ^ p) := by
      ring
    rw [e] at herr
    set δ : ℚ := 1 / 2 ^ p with hδdef
    set r : ℚ := si5351_rm p freq with hrdef
    have : r * 1048575 * (1 + δ) < 1048575 := by nlinarith
    nlinarith [herr.2]
  have f0 : 0 ≤ ⌊to_double p (si5351_rm p freq * 1048575)⌋ := Int.floor_nonneg.mpr ht0
  have f1 : ⌊to_double p (si5351_rm p freq * 1048575)⌋ < 1048575 := by
    have := Int.floor_le (to_double p (si5351_rm p freq * 1048575))
    have : ((⌊to_double p (si5351_rm p freq * 1048575)⌋ : Int) : ℚ) < ((1048575 : Int) : ℚ) := by
      push_cast; linarith
    exact_mod_cast this
  have e : si5351_b p freq = ⌊to_double p (si5351_rm p freq * 1048575)⌋ := by
    unfold si5351_b
    rw [to_double_cfactor p hp]
    exact u32_id _ f0 (by omega)
  rw [e]
  exact ⟨rfl, f0, f1⟩

theorem si5351_p2_eq (p : Nat) (hp : 24 ≤ p) (freq : Int) (h : 0 < freq) :
    si5351_p2 p freq = 128 * si5351_b p freq % 1048575 := by
  obtain ⟨_, hb0, hb1⟩ := si5351_b_eq p hp freq h
  have h128 : 128 * si5351_b p freq % 4294967296 = 128 * si5351_b p freq := by omega
  unfold si5351_p2 u32 CFACTOR
  push_cast
  rw [h128]
  have hq : 1048575 * (128 * si5351_b p freq / 1048575) % 4294967296 =
      1048575 * (128 * si5351_b p freq / 1048575) := by omega
  rw [hq]
  omega

theorem si5351_p1_eq (p : Nat) (hp : 24 ≤ p) (freq : Int) (h : 0 < freq) :
    si5351_p1 p freq =
      (128 * si5351_a p freq + 128 * si5351_b p freq / 1048575 - 512) % 4294967296 := by
  obtain ⟨_, hb0, hb1⟩ := si5351_b_eq p hp freq h
  have h128 : 128 * si5351_b p freq % 4294967296 = 128 * si5351_b p freq := by omega
  unfold si5351_p1 u32 CFACTOR
  push_cast
  rw [h128]
  omega

theorem reconstruct_lo (x f D q : ℚ) (F1 : f ≤ 23400000) (hx38 : 38 ≤ x)
    (D0 : f - 2 ≤ D) (Dpos : 0 < D) (hqD : q * D = 900000000)
    (x1 : x < q + 35 / 10000000) : (f - 10) * x < 900000000 := by
  have h1 : (x - 35 / 10000000) * D < q * D := mul_lt_mul_of_pos_right (by linarith) Dpos
  have h2 : (x - 35 / 10000000) * (f - 2) ≤ (x - 35 / 10000000) * D :=
    mul_le_mul_of_nonneg_left D0 (by linarith)
  rw [hqD] at h1
  nlinarith

theorem reconstruct_hi (x f D q : ℚ) (F1 : f ≤ 23400000) (hx38 : 38 ≤ x)
    (D1 : D ≤ f + 2) (Dpos : 0 < D) (hqD : q * D = 900000000)
    (x0 : q - 35 / 10000000 < x) : 900000000 < (f + 10) * x := by
  have h1 : q * D < (x + 35 / 10000000) * D := mul_lt_mul_of_pos_right (by linarith) Dpos
  have h2 : (x + 35 / 10000000) * D ≤ (x + 35 / 10000000) * (f + 2) :=
    mul_le_mul_of_nonneg_left D1 (by linarith)
  rw [hqD] at h1
  nlinarith

/-- Reconstruction error of the divider `a + b/c` computed in floating point, for a
target between 22.99999 MHz and 23.4 MHz. -/
theorem si5351_reconstruct (p : Nat) (hp : 24 ≤ p) (f : Int) (hlo : 22999990 ≤ f)
    (hhi : f ≤ 23400000) :
    (38 : ℚ) ≤ (si5351_a p f : ℚ) + (si5351_b p f : ℚ) / (CFACTOR : ℚ) ∧
    (f : ℚ) - 10 < (900000000 : ℚ) / ((si5351_a p f : ℚ) + (si5351_b p f : ℚ) / (CFACTOR : ℚ)) ∧
    (900000000 : ℚ) / ((si5351_a p f : ℚ) + (si5351_b p f : ℚ) / (CFACTOR : ℚ))
      < (f : ℚ) + 10 := by
  have hf : 0 < f := by omega
  have hp1 : 1 ≤ p := by omega
  have F0 : (22999990 : ℚ) ≤ (f : ℚ) := by exact_mod_cast hlo
  have F1 : (f : ℚ) ≤ 23400000 := by exact_mod_cast hhi
  have hc : (CFACTOR : ℚ) = 1048575 := by unfold CFACTOR; norm_num
  rw [hc]
  -- the converted frequency
  have hD := to_double_err24 p hp (f : ℚ) (by linarith)
  rw [abs_le] at hD
  set D : ℚ := to_double p (f : ℚ) with hDdef
  have D0 : (f : ℚ) - 2 ≤ D := by linarith [hD.1]
  have D1 : D ≤ (f : ℚ) + 2 := by linarith [hD.2]
  have Dpos : (0 : ℚ) < D := by linarith
  -- the quotient
  set q : ℚ := 900000000 / D with hqdef
  have hqD : q * D = 900000000 := by rw [hqdef]; field_simp
  have q0 : (38 : ℚ) < q := by
    rw [hqdef, lt_div_iff₀ Dpos]; linarith
  have q1 : q < 40 := by
    rw [hqdef, div_lt_iff₀ Dpos]; linarith
  have hfd := to_double_err24 p hp q (by linarith)
  rw [abs_le] at hfd
  have hfe : si5351_fdiv p f = to_double p q := by rw [si5351_fdiv_eq p hp]
  rw [← hfe] at hfd
  -- the remainder and the numerator
  have hrm := si5351_rm_eq p hp f hf
  obtain ⟨r0, r1⟩ := si5351_rm_bounds p hp f hf
  have hδ : (0 : ℚ) < 1 / 2 ^ p := by positivity
  have r1' : si5351_rm p f < 1 := by linarith
  obtain ⟨hb, hb0, hb1⟩ := si5351_b_eq p hp f hf
  have ht := to_double_err24 p hp (si5351_rm p f * 1048575) (by positivity)
  rw [abs_le] at ht
  have hfl1 := Int.floor_le (to_double p (si5351_rm p f * 1048575))
  have hfl2 := Int.lt_floor_add_one (to_double p (si5351_rm p f * 1048575))
  rw [← hb] at hfl1 hfl2
  set x : ℚ := (si5351_a p f : ℚ) + (si5351_b p f : ℚ) / 1048575 with hx
  have hbx : (si5351_b p f : ℚ) = (x - (si5351_a p f : ℚ)) * 1048575 := by
    rw [hx]; field_simp; ring
  rw [hbx] at hfl1 hfl2
  -- x is within 35e-7 of q
  have x0 : q - 35 / 10000000 < x := by
    linarith [ht.1, ht.2, hfd.1, hfd.2]
  have x1 : x < q + 35 / 10000000 := by
    linarith [ht.1, ht.2, hfd.1, hfd.2]
  have hx38 : (38 : ℚ) ≤ x := by
    have hb0q : (0 : ℚ) ≤ (si5351_b p f : ℚ) := by exact_mod_cast hb0
    have ha : (38 : ℚ) ≤ (si5351_a p f : ℚ) := by
      have h38 : (38 : ℚ) ≤ si5351_fdiv p f := by
        rw [hfe]
        have := to_double_mono p hp1 (by norm_num) (le_of_lt q0)
        have e := to_double_small p hp 38 (by norm_num)
        have e' : to_double p (38 : ℚ) = 38 := by exact_mod_cast e
        rw [e'] at this
        exact this
      rw [(si5351_a_eq p hp f hf).1]
      have : (38 : Int) ≤ ⌊si5351_fdiv p f⌋ := Int.le_floor.mpr (by exact_mod_cast h38)
      exact_mod_cast this
    have : (0 : ℚ) ≤ (si5351_b p f : ℚ) / 1048575 := by positivity
    rw [hx]; linarith
  have hxpos : (0 : ℚ) < x := by linarith
  refine ⟨hx38, ?_, ?_⟩
  · rw [lt_div_iff₀ hxpos]
    exact reconstruct_lo x (f : ℚ) D q F1 hx38 D0 Dpos hqD x1
  · rw [div_lt_iff₀ hxpos]
    exact reconstruct_hi x (f : ℚ) D q F1 hx38 D1 Dpos hqD x0

/-- Evaluation of `to_double` at a positive value that is no tie: binade and nearest
significand. -/
theorem to_double_val (p : Nat) (hp : 1 ≤ p) (x : ℚ) (k m : Int)
    (h1 : (2 : ℚ) ^ (p - 1) * 2 ^ k ≤ x) (h2 : x < (2 : ℚ) ^ p * 2 ^ k)
    (h3 : |x / 2 ^ k - (m : ℚ)| < 1 / 2) : to_double p x = (m : ℚ) * 2 ^ k :=
  to_double_eq p hp x k m h1 h2 (round_even_eq _ m h3)

/-- The values computed for 23.2 MHz with a 24-bit significand. -/
theorem si5351_at_23200000 :
    si5351_fdiv 24 23200000 = 10169379 / 262144 ∧ si5351_a 24 23200000 = 38 ∧
    si5351_rm 24 23200000 = 207907 / 262144 ∧ si5351_b 24 23200000 = 831627 := by
  have hD : to_double 24 ((23200000 : Int) : ℚ) = 23200000 := by
    have h := to_double_exact 24 (by norm_num) 725000 5 (by norm_num)
    have e : ((725000 : Nat) : ℚ) * 2 ^ (5 : Int) = ((23200000 : Int) : ℚ) := by norm_num
    rw [e] at h
    rw [h]; norm_num
  have hfd : si5351_fdiv 24 23200000 = 10169379 / 262144 := by
    rw [si5351_fdiv_eq 24 le_rfl, hD]
    have h := to_double_val 24 (by norm_num) (900000000 / 23200000) (-18) 10169379
      (by norm_num) (by norm_num) (by rw [abs_lt]; norm_num)
    rw [h]; norm_num
  have ha : si5351_a 24 23200000 = 38 := by
    rw [(si5351_a_eq 24 le_rfl 23200000 (by norm_num)).1, hfd, Int.floor_eq_iff]
    norm_num
  have hrm : si5351_rm 24 23200000 = 207907 / 262144 := by
    rw [si5351_rm_eq 24 le_rfl 23200000 (by norm_num), hfd, ha]
    norm_num
  have hb : si5351_b 24 23200000 = 831627 := by
    rw [(si5351_b_eq 24 le_rfl 23200000 (by norm_num)).1, hrm]
    have h := to_double_val 24 (by norm_num) (207907 / 262144 * 1048575) (-4) 13306035
      (by norm_num) (by norm_num) (by rw [abs_lt]; norm_num)
    rw [h, Int.floor_eq_iff]
    norm_num
  exact ⟨hfd, ha, hrm, hb⟩

/-- The values computed for 23.0625 MHz with a 53-bit significand. -/
theorem si5351_at_23062500 :
    si5351_a 53 23062500 = 39 ∧ si5351_b 53 23062500 = 25574 := by
  have hD : to_double 53 ((23062500 : Int) : ℚ) = 23062500 := by
    have h := to_double_nat 53 (by norm_num) 23062500 (by norm_num)
    have e : ((23062500 : Int) : ℚ) = ((23062500 : Nat) : ℚ) := by norm_num
    rw [e, h]; norm_num
  have hfd : si5351_fdiv 53 23062500 = 5492194667524995 / 140737488355328 := by
    rw [si5351_fdiv_eq 53 (by norm_num), hD]
    have h := to_double_val 53 (by norm_num) (900000000 / 23062500) (-47) 5492194667524995
      (by norm_num) (by norm_num) (by rw [abs_lt]; norm_num)
    rw [h]; norm_num
  have ha : si5351_a 53 23062500 = 39 := by
    rw [(si5351_a_eq 53 (by norm_num) 23062500 (by norm_num)).1, hfd, Int.floor_eq_iff]
    norm_num
  have hrm : si5351_rm 53 23062500 = 3432621667203 / 140737488355328 := by
    rw [si5351_rm_eq 53 (by norm_num) 23062500 (by norm_num), hfd, ha]
    norm_num
  have hb : si5351_b 53 23062500 = 25574 := by
    rw [(si5351_b_eq 53 (by norm_num) 23062500 (by norm_num)).1, hrm]
    have h := to_double_val 53 (by norm_num) (3432621667203 / 140737488355328 * 1048575) (-38)
      7030002470092550 (by norm_num) (by norm_num) (by rw [abs_lt]; norm_num)
    rw [h, Int.floor_eq_iff]
    norm_num
  exact ⟨ha, hb⟩

/-- The values computed for 225000001 Hz with a 24-bit significand: the conversion of
the frequency to `double` rounds it to 225000000. -/
theorem si5351_at_225000001 :
    si5351_a 24 225000001 = 4 ∧ si5351_b 24 225000001 = 0 := by
  have hD : to_double 24 ((225000001 : Int) : ℚ) = 225000000 := by
    have h := to_double_val 24 (by norm_num) 225000001 4 14062500
      (by norm_num) (by norm_num) (by rw [abs_lt]; norm_num)
    have e : ((225000001 : Int) : ℚ) = 225000001 := by norm_num
    rw [e, h]; norm_num
  have e4 : to_double 24 (4 : ℚ) = 4 := by
    have := to_double_small 24 le_rfl 4 (by norm_num)
    exact_mod_cast this
  have hfd : si5351_fdiv 24 225000001 = 4 := by
    rw [si5351_fdiv_eq 24 le_rfl, hD]
    norm_num
    exact e4
  have ha : si5351_a 24 225000001 = 4 := by
    rw [(si5351_a_eq 24 le_rfl 225000001 (by norm_num)).1, hfd]
    norm_num
  have hrm : si5351_rm 24 225000001 = 0 := by
    rw [si5351_rm_eq 24 le_rfl 225000001 (by norm_num), hfd, ha]
    norm_num
  have hb : si5351_b 24 225000001 = 0 := by
    rw [(si5351_b_eq 24 le_rfl 225000001 (by norm_num)).1, hrm]
    simp [to_double_zero]
  exact ⟨ha, hb⟩

/-- The values computed for 300 MHz with a 24-bit significand. -/
theorem si5351_at_300000000 :
    si5351_a 24 300000000 = 3 ∧ si5351_b 24 300000000 = 0 := by
  have hD : to_double 24 ((300000000 : Int) : ℚ) = 300000000 := by
    have h := to_double_exact 24 (by norm_num) 1171875 8 (by norm_num)
    have e : ((1171875 : Nat) : ℚ) * 2 ^ (8 : Int) = ((300000000 : Int) : ℚ) := by norm_num
    rw [e] at h
    rw [h]; norm_num
  have e3 : to_double 24 (3 : ℚ) = 3 := by
    have := to_double_small 24 le_rfl 3 (by norm_num)
    exact_mod_cast this
  have hfd : si5351_fdiv 24 300000000 = 3 := by
    rw [si5351_fdiv_eq 24 le_rfl, hD]
    norm_num
    exact e3
  have ha : si5351_a 24 300000000 = 3 := by
    rw [(si5351_a_eq 24 le_rfl 300000000 (by norm_num)).1, hfd]
    norm_num
  have hrm : si5351_rm 24 300000000 = 0 := by
    rw [si5351_rm_eq 24 le_rfl 300000000 (by norm_num), hfd, ha]
    norm_num
  have hb : si5351_b 24 300000000 = 0 := by
    rw [(si5351_b_eq 24 le_rfl 300000000 (by norm_num)).1, hrm]
    simp [to_double_zero]
  exact ⟨ha, hb⟩

/-- C3. Synthesis precision: for an in-band VFO value the target `VFO + 9000000`
reaches `si5351_set_freq` unchanged, and the values `a` and `b` that the code computes
in `double` arithmetic (with a significand of at least 24 bits: the 32-bit `double`
of avr-gcc as well as a 64-bit `double`) give, with `c = 1048575`, a positive divider
`a + b/c` whose reconstructed frequency `900000000 / (a + b/c)` differs from the
target by less than 10 Hz.  The same holds for the values of the exact division,
`a = floor(900000000 / f)` and `b = floor((900000000 / f - a) * c)`. -/
theorem synthesis_precision (p : Nat) (hp : 24 ≤ p) (vfo : Int) (hlo : 13999990 ≤ vfo)
    (hhi : vfo ≤ 14400000) :
    u32 (wrap32 (vfo + INTERFREQUENCY)) = vfo + INTERFREQUENCY ∧
    ((0 : ℚ) < (si5351_a p (vfo + INTERFREQUENCY) : ℚ)
        + (si5351_b p (vfo + INTERFREQUENCY) : ℚ) / (CFACTOR : ℚ) ∧
      |(900000000 : ℚ) / ((si5351_a p (vfo + INTERFREQUENCY) : ℚ)
          + (si5351_b p (vfo + INTERFREQUENCY) : ℚ) / (CFACTOR : ℚ))
        - ((vfo + INTERFREQUENCY : Int) : ℚ)| < 10) ∧
    ((0 : ℚ) < (exact_a (vfo + INTERFREQUENCY) : ℚ)
        + (exact_b (vfo + INTERFREQUENCY) : ℚ) / (CFACTOR : ℚ) ∧
      |(900000000 : ℚ) / ((exact_a (vfo + INTERFREQUENCY) : ℚ)
          + (exact_b (vfo + INTERFREQUENCY) : ℚ) / (CFACTOR : ℚ))
        - ((vfo + INTERFREQUENCY : Int) : ℚ)| < 10) := by
  have h := si5351_reconstruct p hp (vfo + INTERFREQUENCY)
    (by unfold INTERFREQUENCY; omega) (by unfold INTERFREQUENCY; omega)
  have g := exact_reconstruct (vfo + INTERFREQUENCY)
    (by unfold INTERFREQUENCY; omega) (by unfold INTERFREQUENCY; omega)
  refine ⟨?_, ⟨by linarith [h.1], ?_⟩, ⟨by linarith [g.1], ?_⟩⟩
  · unfold INTERFREQUENCY
    rw [wrap32_id _ (by omega) (by omega), u32_id _ (by omega) (by omega)]
  · rw [abs_lt]
    constructor
    · linarith [h.2.1]
    · linarith [h.2.2]
  · rw [abs_lt]
    constructor
    · linarith [g.2.1]
    · linarith [g.2.2]

theorem synthesis_precision_witness :
    24 ≤ DBL_MANT_DIG ∧ (13999990 : Int) ≤ 14200000 ∧ (14200000 : Int) ≤ 14400000 ∧
    |(900000000 : ℚ) / ((si5351_a DBL_MANT_DIG (14200000 + INTERFREQUENCY) : ℚ)
        + (si5351_b DBL_MANT_DIG (14200000 + INTERFREQUENCY) : ℚ) / (CFACTOR : ℚ))
      - ((14200000 + INTERFREQUENCY : Int) : ℚ)| < 10 :=
  ⟨by decide, by decide, by decide,
    (synthesis_precision DBL_MANT_DIG (by decide) 14200000 (by decide) (by decide)).2.1.2⟩

/-- Between 27 Hz and 225 MHz the integer part `a` is between 4 and `2^25`. -/
theorem si5351_a_range (p : Nat) (hp : 24 ≤ p) (f : Int) (hlo : 27 ≤ f)
    (hhi : f ≤ 225000000) : 4 ≤ si5351_a p f ∧ si5351_a p f ≤ 33554432 := by
  have hf : 0 < f := by omega
  have hp1 : 1 ≤ p := by omega
  have f0 : (27 : ℚ) ≤ (f : ℚ) := by exact_mod_cast hlo
  have f1 : (f : ℚ) ≤ 225000000 := by exact_mod_cast hhi
  have e0 : to_double p (27 : ℚ) = 27 := by
    have := to_double_small p hp 27 (by norm_num)
    exact_mod_cast this
  have e1 : to_double p (225000000 : ℚ) = 225000000 := by
    have h := to_double_exact p hp1 3515625 6
      (lt_of_lt_of_le (by norm_num) (two_pow_ge_nat p hp))
    have e : ((3515625 : Nat) : ℚ) * 2 ^ (6 : Int) = 225000000 := by norm_num
    rw [e] at h
    exact h
  have e4 : to_double p (4 : ℚ) = 4 := by
    have := to_double_small p hp 4 (by norm_num)
    exact_mod_cast this
  have e25 : to_double p (33554432 : ℚ) = 33554432 := by
    have h := to_double_exact p hp1 1 25
      (lt_of_lt_of_le (by norm_num) (two_pow_ge_nat p hp))
    have e : ((1 : Nat) : ℚ) * 2 ^ (25 : Int) = 33554432 := by norm_num
    rw [e] at h
    exact h
  have d0 : (27 : ℚ) ≤ to_double p (f : ℚ) := by
    have := to_double_mono p hp1 (by norm_num) f0
    rw [e0] at this
    exact this
  have d1 : to_double p (f : ℚ) ≤ 225000000 := by
    have := to_double_mono p hp1 (by linarith) f1
    rw [e1] at this
    exact this
  have dpos : (0 : ℚ) < to_double p (f : ℚ) := by linarith
  have q0 : (4 : ℚ) ≤ 900000000 / to_double p (f : ℚ) := by
    rw [le_div_iff₀ dpos]; linarith
  have q1 : 900000000 / to_double p (f : ℚ) ≤ 33554432 := by
    rw [div_le_iff₀ dpos]; linarith
  have g0 : (4 : ℚ) ≤ si5351_fdiv p f := by
    rw [si5351_fdiv_eq p hp]
    have := to_double_mono p hp1 (by norm_num) q0
    rw [e4] at this
    exact this
  have g1 : si5351_fdiv p f ≤ 33554432 := by
    rw [si5351_fdiv_eq p hp]
    have := to_double_mono p hp1 (by linarith) q1
    rw [e25] at this
    exact this
  rw [(si5351_a_eq p hp f hf).1]
  constructor
  · exact Int.le_floor.mpr (by exact_mod_cast g0)
  · have := Int.floor_le (si5351_fdiv p f)
    have : ((⌊si5351_fdiv p f⌋ : Int) : ℚ) ≤ ((33554432 : Int) : ℚ) := by
      push_cast; linarith
    exact_mod_cast this

/-- The high nibble of the sixth register written is `0xF`. -/
theorem si5351_nibble (p2 : Nat) : (0xF0 ||| ((p2 &&& 0x000F0000) >>> 16)) / 16 = 15 := by
  have h1 : p2 &&& 0x000F0000 ≤ 0x000F0000 := Nat.and_le_right
  have h2 : (p2 &&& 0x000F0000) >>> 16 ≤ 15 := by
    rw [Nat.shiftRight_eq_div_pow]
    omega
  generalize (p2 &&& 0x000F0000) >>> 16 = x at h2
  interval_cases x <;> decide

/-- C4 (as amended). Register packing for every target frequency `f > 0` and every
`double` format with at least 24 significand bits: `c = 2^20 - 1`; `fdiv` is the
rounded quotient of 900000000 by the frequency converted to `double`, `a` its integer
part, `rm = fdiv - a` (exact) and `b` the integer part of the rounded product
`rm * c`, with `0 ≤ a ≤ 900000000` and `0 ≤ b < c`; `p2 = (128 b) mod c`, and `p1` is
`128 a + floor(128 b / c) - 512` reduced modulo `2^32`, equal to it exactly when
`4 ≤ a ≤ 33554435`, which is the case for `27 ≤ f ≤ 225000000`; the writes start with
`0xFF`, `0xFF` (the low 16 bits of `c`) and the sixth write carries `0xF` (bits 19..16
of `c`) in its high nibble. -/
theorem register_packing (p : Nat) (hp : 24 ≤ p) (synth f : Int) (hf : 0 < f) :
    (CFACTOR = 2 ^ 20 - 1 ∧ 25000000 * PLLRATIO = 900000000) ∧
    si5351_fdiv p f = to_double p (900000000 / to_double p (f : ℚ)) ∧
    (si5351_a p f = ⌊si5351_fdiv p f⌋ ∧ 0 ≤ si5351_a p f ∧ si5351_a p f ≤ 900000000) ∧
    si5351_rm p f = si5351_fdiv p f - (si5351_a p f : ℚ) ∧
    (si5351_b p f = ⌊to_double p (si5351_rm p f * 1048575)⌋ ∧
      0 ≤ si5351_b p f ∧ si5351_b p f < 1048575) ∧
    si5351_p2 p f = 128 * si5351_b p f % 1048575 ∧
    si5351_p1 p f =
      (128 * si5351_a p f + 128 * si5351_b p f / 1048575 - 512) % 4294967296 ∧
    (si5351_p1 p f = 128 * si5351_a p f + 128 * si5351_b p f / 1048575 - 512 ↔
      4 ≤ si5351_a p f ∧ si5351_a p f ≤ 33554435) ∧
    (27 ≤ f → f ≤ 225000000 → 4 ≤ si5351_a p f ∧ si5351_a p f ≤ 33554435) ∧
    si5351_write_ms synth (si5351_p1 p f) (si5351_p2 p f) =
      ([(synth, 0xFF), (synth + 1, 0xFF),
       (synth + 2, ((((si5351_p1 p f).toNat &&& 0x00030000) >>> 16 : Nat) : Int)),
       (synth + 3, ((((si5351_p1 p f).toNat &&& 0x0000FF00) >>> 8 : Nat) : Int)),
       (synth + 4, (((si5351_p1 p f).toNat &&& 0x000000FF : Nat) : Int)),
       (synth + 5, ((0xF0 ||| (((si5351_p2 p f).toNat &&& 0x000F0000) >>> 16) : Nat) : Int)),
       (synth + 6, ((((si5351_p2 p f).toNat &&& 0x0000FF00) >>> 8 : Nat) : Int)),
       (synth + 7, (((si5351_p2 p f).toNat &&& 0x000000FF : Nat) : Int))] :
        List (Int × Int)) ∧
    si5351_set_freq synth f =
      si5351_write_ms synth (si5351_p1 DBL_MANT_DIG f) (si5351_p2 DBL_MANT_DIG f) ∧
    (0xF0 ||| (((si5351_p2 p f).toNat &&& 0x000F0000) >>> 16)) / 16 = 15 := by
  have ha := si5351_a_eq p hp f hf
  have hb := si5351_b_eq p hp f hf
  refine ⟨⟨by decide, by decide⟩, si5351_fdiv_eq p hp f, ha, si5351_rm_eq p hp f hf, hb,
    si5351_p2_eq p hp f hf, si5351_p1_eq p hp f hf, ?_, ?_, rfl, rfl, si5351_nibble _⟩
  · rw [si5351_p1_eq p hp f hf]
    obtain ⟨_, hb0, hb1⟩ := hb
    obtain ⟨_, ha0, ha1⟩ := ha
    constructor
    · intro h; omega
    · intro h; omega
  · intro hlo hhi
    have := si5351_a_range p hp f hlo hhi
    omega

theorem register_packing_witness :
    24 ≤ DBL_MANT_DIG ∧ (0 : Int) < 23200000 ∧
    si5351_a DBL_MANT_DIG 23200000 = 38 ∧ si5351_b DBL_MANT_DIG 23200000 = 831627 ∧
    si5351_p1 DBL_MANT_DIG 23200000 = 4453 ∧ si5351_p2 DBL_MANT_DIG 23200000 = 542181 := by
  have h := register_packing DBL_MANT_DIG (by decide) SYNTH_MS_1 23200000 (by decide)
  have ha : si5351_a DBL_MANT_DIG 23200000 = 38 := si5351_at_23200000.2.1
  have hb : si5351_b DBL_MANT_DIG 23200000 = 831627 := si5351_at_23200000.2.2.2
  refine ⟨by decide, by decide, ha, hb, ?_, ?_⟩
  · rw [h.2.2.2.2.2.2.1, ha, hb]; decide
  · rw [h.2.2.2.2.2.1, hb]; decide

/-- The values of `a` and `b` that the code computes are not the floors of the exact
quotient: at `f = 23200000` (VFO 14200000 + 9 MHz) the 32-bit `double` gives
`b = 831627`, the exact division 831628; at `f = 23062500` a 64-bit `double` gives
`b = 25574`, the exact division 25575; at `f = 225000001` the conversion of `f` to a
32-bit `double` gives `a = 4`, the exact division 3.  At `f = 300000000` the code's
`p1` is not `128 a + floor(128 b / c) - 512`: the formula gives `-128`, the
`unsigned long` holds `4294967168`. -/
theorem register_packing_rounding :
    (si5351_b 24 23200000 = 831627 ∧ exact_b 23200000 = 831628) ∧
    (si5351_b 53 23062500 = 25574 ∧ exact_b 23062500 = 25575) ∧
    (si5351_a 24 225000001 = 4 ∧ exact_a 225000001 = 3) ∧
    (si5351_a 24 300000000 = 3 ∧ si5351_b 24 300000000 = 0 ∧
      si5351_p1 24 300000000 = 4294967168 ∧
      si5351_p1 24 300000000 ≠
        128 * si5351_a 24 300000000 + 128 * si5351_b 24 300000000 / 1048575 - 512) := by
  have e1 : exact_b 23200000 = 831628 := by rw [exact_b_eq _ (by decide)]; decide
  have e2 : exact_b 23062500 = 25575 := by rw [exact_b_eq _ (by decide)]; decide
  have e3 : exact_a 225000001 = 3 := by rw [exact_a_eq _ (by decide)]; decide
  have ha := si5351_at_300000000.1
  have hb := si5351_at_300000000.2
  have hp : si5351_p1 24 300000000 = 4294967168 := by
    rw [si5351_p1_eq 24 (by decide) _ (by decide), ha, hb]; decide
  refine ⟨⟨si5351_at_23200000.2.2.2, e1⟩, ⟨si5351_at_23062500.2, e2⟩,
    ⟨si5351_at_225000001.1, e3⟩, ha, hb, hp, ?_⟩
  rw [hp, ha, hb]
  decide

/-! ## Tuning -/

/-- Outside the receive state, or with the knob inside the dead zone, `main_tuning`
does nothing. -/
theorem main_tuning_idle (s : State)
    (h : (-2 ≤ s.tuningknob ∧ s.tuningknob ≤ 2) ∨ s.txrx ≠ 0) : main_tuning s = s := by
  have h1 : ¬ (s.tuningknob > 2 ∧ s.txrx = 0) := by
    rintro ⟨a, b⟩; rcases h with h | h
    · omega
    · exact h b
  have h2 : ¬ (s.tuningknob < -2 ∧ s.txrx = 0) := by
    rintro ⟨a, b⟩; rcases h with h | h
    · omega
    · exact h b
  have e1 : main_tuning_ccw s = s := by unfold main_tuning_ccw; rw [if_neg h1]
  unfold main_tuning
  rw [e1]
  unfold main_tuning_cw
  rw [if_neg h2]

/-- What `main_tuning` does in the receive state when the knob is outside the dead
zone. -/
theorem main_tuning_active (s : State) (hrx : s.txrx = 0)
    (hk : s.tuningknob > 2 ∨ s.tuningknob < -2) :
    main_tuning s =
      { s with
        f_vfo := Function.update s.f_vfo s.cur_vfo (wrap32 (s.f_vfo s.cur_vfo + tuning_delta s))
        si5351 := s.si5351 ++ si5351_set_freq SYNTH_MS_1
          (u32 (wrap32 (wrap32 (s.f_vfo s.cur_vfo + tuning_delta s) + INTERFREQUENCY)))
        tuningknob := 0 } := by
  rcases hk with h | h
  · have e1 : main_tuning_ccw s =
        { s with
          f_vfo := Function.update s.f_vfo s.cur_vfo
            (wrap32 (s.f_vfo s.cur_vfo + calc_tuningfactor s))
          si5351 := s.si5351 ++ si5351_set_freq SYNTH_MS_1
            (u32 (wrap32 (wrap32 (s.f_vfo s.cur_vfo + calc_tuningfactor s) + INTERFREQUENCY)))
          tuningknob := 0 } := by
      unfold main_tuning_ccw
      rw [if_pos ⟨h, hrx⟩]
      simp [set_vfo_frequency]
    have hd : tuning_delta s = calc_tuningfactor s := by unfold tuning_delta; rw [if_pos h]
    unfold main_tuning
    rw [e1, hd]
    unfold main_tuning_cw
    have h0 : ¬ ((0 : Int) < -2) := by decide
    rw [if_neg (fun hc => h0 hc.1)]
  · have h1 : ¬ (s.tuningknob > 2 ∧ s.txrx = 0) := by rintro ⟨a, _⟩; omega
    have e1 : main_tuning_ccw s = s := by unfold main_tuning_ccw; rw [if_neg h1]
    have hd : tuning_delta s = -calc_tuningfactor s := by
      unfold tuning_delta; rw [if_neg (by omega)]
    unfold main_tuning
    rw [e1, hd]
    unfold main_tuning_cw
    rw [if_pos ⟨h, hrx⟩]
    simp [set_vfo_frequency, sub_eq_add_neg]

theorem calc_tuningfactor_bounds (s : State) :
    -32768 ≤ calc_tuningfactor s ∧ calc_tuningfactor s ≤ 32767 := by
  unfold calc_tuningfactor wrap16
  omega

/-- Without `int` overflow `calc_tuningfactor` is minus the square of the count. -/
theorem calc_tuningfactor_small (s : State)
    (h0 : -181 ≤ s.tuningcount) (h1 : s.tuningcount ≤ 181) :
    calc_tuningfactor s = -(s.tuningcount ^ 2) := by
  have hsq : s.tuningcount ^ 2 = s.tuningcount * s.tuningcount := by ring
  have hb : s.tuningcount * s.tuningcount ≤ 32761 := by nlinarith
  have hb0 : 0 ≤ s.tuningcount * s.tuningcount := mul_self_nonneg _
  unfold calc_tuningfactor wrap16
  rw [hsq]
  generalize s.tuningcount * s.tuningcount = q at hb hb0
  omega

/-- C8 (as amended). Tuning acceleration without overflow (`|tuningcount| ≤ 181`,
so that the square fits an `int`, and the active VFO at least `181^2` away from the
ends of the `long` range): in the receive state `tuningknob > 2` subtracts
`tuningcount^2` from the active VFO and `tuningknob < -2` adds it; with
`|tuningknob| ≤ 2`, or while transmitting, nothing changes. -/
theorem tuning_acceleration (s : State)
    (htc : -181 ≤ s.tuningcount ∧ s.tuningcount ≤ 181)
    (hf : -2147450887 ≤ s.f_vfo s.cur_vfo ∧ s.f_vfo s.cur_vfo ≤ 2147450886) :
    (s.tuningknob > 2 → s.txrx = 0 →
      (main_tuning s).f_vfo s.cur_vfo = s.f_vfo s.cur_vfo - s.tuningcount ^ 2) ∧
    (s.tuningknob < -2 → s.txrx = 0 →
      (main_tuning s).f_vfo s.cur_vfo = s.f_vfo s.cur_vfo + s.tuningcount ^ 2) ∧
    ((-2 ≤ s.tuningknob ∧ s.tuningknob ≤ 2) ∨ s.txrx ≠ 0 → main_tuning s = s) := by
  have hc := calc_tuningfactor_small s htc.1 htc.2
  have hsq : s.tuningcount ^ 2 = s.tuningcount * s.tuningcount := by ring
  have hb : s.tuningcount * s.tuningcount ≤ 32761 := by nlinarith
  have hb0 : 0 ≤ s.tuningcount * s.tuningcount := mul_self_nonneg _
  rw [hsq] at hc ⊢
  refine ⟨?_, ?_, main_tuning_idle s⟩
  · intro hk hrx
    rw [main_tuning_active s hrx (Or.inl hk)]
    simp only [Function.update_same]
    have hd : tuning_delta s = -(s.tuningcount * s.tuningcount) := by
      unfold tuning_delta; rw [if_pos hk, hc]
    rw [hd, wrap32_id _ (by omega) (by omega)]
    omega
  · intro hk hrx
    rw [main_tuning_active s hrx (Or.inr hk)]
    simp only [Function.update_same]
    have hd : tuning_delta s = s.tuningcount * s.tuningcount := by
      unfold tuning_delta; rw [if_neg (by omega), hc]; omega
    rw [hd, wrap32_id _ (by omega) (by omega)]

theorem tuning_acceleration_witness :
    (main_tuning (tuned 3 20)).f_vfo 0 = 14200000 - 20 ^ 2 ∧
    (main_tuning (tuned (-3) 20)).f_vfo 0 = 14200000 + 20 ^ 2 ∧
    main_tuning (tuned 2 20) = tuned 2 20 :=
  ⟨(tuning_acceleration (tuned 3 20) (by decide) (by decide)).1 (by decide) (by decide),
   (tuning_acceleration (tuned (-3) 20) (by decide) (by decide)).2.1 (by decide) (by decide),
   (tuning_acceleration (tuned 2 20) (by decide) (by decide)).2.2 (Or.inl (by decide))⟩

/-- With `tuningcount = 182` and `tuningknob = 3` in the receive state the square
overflows the 16-bit `int`: VFO-A goes from 14200000 up to 14232412 instead of
down by `182^2 = 33124`. -/
theorem tuning_acceleration_overflow :
    (tuned 3 182).txrx = 0 ∧ (tuned 3 182).cur_vfo = 0 ∧
    (tuned 3 182).f_vfo 0 = 14200000 ∧
    (main_tuning (tuned 3 182)).f_vfo 0 = 14232412 ∧
    (main_tuning (tuned 3 182)).f_vfo 0 ≠ 14200000 - 182 ^ 2 := by
  decide

/-! ## Rotary encoder -/

theorem run_PCINT2_cons (p : Nat) (ps : List Nat) (s : State) :
    run_PCINT2 (p :: ps) s = run_PCINT2 ps (ISR_PCINT2 p s) := rfl

/-- One clockwise edge. -/
theorem ISR_PCINT2_cw (p : Nat) (s : State) (h : encoder_state p = (s.laststate + 1) % 4) :
    (ISR_PCINT2 p s).tuningknob = wrap16 (s.tuningknob + 1) ∧
    (ISR_PCINT2 p s).laststate = encoder_state p := by
  have hne : encoder_state p ≠ s.laststate := by omega
  have hstep : encoder_step s.laststate (encoder_state p) = 1 := by
    unfold encoder_step; omega
  unfold ISR_PCINT2
  simp only []
  rw [if_pos hne, hstep]
  exact ⟨rfl, rfl⟩

/-- One counter-clockwise edge. -/
theorem ISR_PCINT2_ccw (p : Nat) (s : State) (h : encoder_state p = (s.laststate - 1) % 4) :
    (ISR_PCINT2 p s).tuningknob = wrap16 (s.tuningknob - 1) ∧
    (ISR_PCINT2 p s).laststate = encoder_state p := by
  have hne : encoder_state p ≠ s.laststate := by omega
  have hstep : encoder_step s.laststate (encoder_state p) = -1 := by
    unfold encoder_step; omega
  unfold ISR_PCINT2
  simp only []
  rw [if_pos hne, hstep]
  exact ⟨rfl, rfl⟩

theorem run_PCINT2_cw (ps : List Nat) : ∀ s : State, clockwise s.laststate ps →
    -32768 ≤ s.tuningknob → s.tuningknob + ps.length ≤ 32767 →
    (run_PCINT2 ps s).tuningknob = s.tuningknob + ps.length := by
  induction ps with
  | nil => intro s _ _ _; simp [run_PCINT2]
  | cons p ps ih =>
    intro s hcw hlo hhi
    obtain ⟨h1, h2⟩ := hcw
    obtain ⟨hk, hl⟩ := ISR_PCINT2_cw p s h1
    simp only [List.length_cons, Nat.cast_add, Nat.cast_one] at hhi ⊢
    have hk' : (ISR_PCINT2 p s).tuningknob = s.tuningknob + 1 := by
      rw [hk]; unfold wrap16; omega
    rw [run_PCINT2_cons, ih (ISR_PCINT2 p s) (by rw [hl]; exact h2) (by omega) (by omega), hk']
    omega

theorem run_PCINT2_ccw (ps : List Nat) : ∀ s : State, counterclockwise s.laststate ps →
    s.tuningknob ≤ 32767 → -32768 ≤ s.tuningknob - ps.length →
    (run_PCINT2 ps s).tuningknob = s.tuningknob - ps.length := by
  induction ps with
  | nil => intro s _ _ _; simp [run_PCINT2]
  | cons p ps ih =>
    intro s hcw hhi hlo
    obtain ⟨h1, h2⟩ := hcw
    obtain ⟨hk, hl⟩ := ISR_PCINT2_ccw p s h1
    simp only [List.length_cons, Nat.cast_add, Nat.cast_one] at hlo ⊢
    have hk' : (ISR_PCINT2 p s).tuningknob = s.tuningknob - 1 := by
      rw [hk]; unfold wrap16; omega
    rw [run_PCINT2_cons, ih (ISR_PCINT2 p s) (by rw [hl]; exact h2) (by omega) (by omega), hk']
    omega

/-- C9 (as amended). Encoder direction: from every start state whose `tuningknob`
is a 16-bit `int`, a sequence of `n` edges whose decoded state advances by 1 modulo
4 at each edge adds exactly `n` to `tuningknob` when the sum does not exceed 32767
(so the counter is positive when started from 0 with `n ≥ 1`), and a sequence that
goes back by 1 modulo 4 at each edge subtracts exactly `n` when the difference is
not below -32768 (negative when started from 0). -/
theorem encoder_direction (s : State) (ps : List Nat)
    (hlo : -32768 ≤ s.tuningknob) (hhi : s.tuningknob ≤ 32767) :
    (clockwise s.laststate ps → s.tuningknob + ps.length ≤ 32767 →
      (run_PCINT2 ps s).tuningknob = s.tuningknob + ps.length ∧
      (s.tuningknob = 0 → ps ≠ [] → 0 < (run_PCINT2 ps s).tuningknob)) ∧
    (counterclockwise s.laststate ps → -32768 ≤ s.tuningknob - ps.length →
      (run_PCINT2 ps s).tuningknob = s.tuningknob - ps.length ∧
      (s.tuningknob = 0 → ps ≠ [] → (run_PCINT2 ps s).tuningknob < 0)) := by
  constructor
  · intro hcw hsum
    have h := run_PCINT2_cw ps s hcw hlo hsum
    refine ⟨h, ?_⟩
    intro h0 hne
    have hl : 0 < ps.length := List.length_pos.mpr hne
    rw [h, h0]
    omega
  · intro hccw hdiff
    have h := run_PCINT2_ccw ps s hccw hhi hdiff
    refine ⟨h, ?_⟩
    intro h0 hne
    have hl : 0 < ps.length := List.length_pos.mpr hne
    rw [h, h0]
    omega

theorem encoder_direction_witness :
    clockwise (tuned 0 0).laststate [0x20, 0x60, 0x40, 0x00, 0x20] ∧
    (run_PCINT2 [0x20, 0x60, 0x40, 0x00, 0x20] (tuned 0 0)).tuningknob = 5 ∧
    counterclockwise (tuned 0 0).laststate [0x40, 0x60, 0x20, 0x00, 0x40] ∧
    (run_PCINT2 [0x40, 0x60, 0x20, 0x00, 0x40] (tuned 0 0)).tuningknob = -5 := by
  have hcw : clockwise (tuned 0 0).laststate [0x20, 0x60, 0x40, 0x00, 0x20] := by
    simp only [clockwise]; decide
  have hccw : counterclockwise (tuned 0 0).laststate [0x40, 0x60, 0x20, 0x00, 0x40] := by
    simp only [counterclockwise]; decide
  have h := encoder_direction (tuned 0 0) [0x20, 0x60, 0x40, 0x00, 0x20] (by decide) (by decide)
  have h' := encoder_direction (tuned 0 0) [0x40, 0x60, 0x20, 0x00, 0x40] (by decide) (by decide)
  exact ⟨hcw, (h.1 hcw (by decide)).1, hccw, (h'.2 hccw (by decide)).1⟩

/-- Two runs of the encoder interrupt on clockwise samples that do not add the
number of edges.  From `tuningknob = 32767` one clockwise edge wraps the 16-bit
counter to -32768.  From the power-up state (`laststate = 0`) the Gray samples
11, 10, 00, in clockwise cyclic order, show three state changes and leave
`tuningknob` at 2: the first is measured against `laststate`, not against the
position the encoder was in. -/
theorem encoder_direction_overflow :
    (clockwise (tuned 32767 0).laststate [0x20] ∧
      (tuned 32767 0).tuningknob = 32767 ∧
      (run_PCINT2 [0x20] (tuned 32767 0)).tuningknob = -32768 ∧
      (run_PCINT2 [0x20] (tuned 32767 0)).tuningknob ≠ (tuned 32767 0).tuningknob + 1) ∧
    ((tuned 0 0).laststate = 0 ∧ (tuned 0 0).tuningknob = 0 ∧
      clockwise 1 [0x60, 0x40, 0x00] ∧
      (run_PCINT2 [0x60, 0x40, 0x00] (tuned 0 0)).tuningknob = 2 ∧
      (run_PCINT2 [0x60, 0x40, 0x00] (tuned 0 0)).tuningcount = 6) := by
  refine ⟨⟨?_, ?_, ?_, ?_⟩, ?_, ?_, ?_, ?_, ?_⟩
  · simp only [clockwise]; decide
  · decide
  · decide
  · decide
  · decide
  · decide
  · simp only [clockwise]; decide
  · decide
  · decide

/-- C10 (failing input). At power-up `laststate` is 0; when the first sample shows
both encoder pins high (Gray 11, decoded state 2) the interrupt sees a state change
but adds `((0 - 2) & 3) - 2 = 0` to `tuningknob`, while it counts the edge in
`tuningcount` and takes over the new state. -/
theorem encoder_double_step :
    (main_init erased).laststate = 0 ∧ encoder_state 0x60 = 2 ∧
    encoder_state 0x60 ≠ (main_init erased).laststate ∧
    encoder_step 0 2 = 0 ∧
    (ISR_PCINT2 0x60 (main_init erased)).tuningknob = (main_init erased).tuningknob ∧
    (ISR_PCINT2 0x60 (main_init erased)).tuningcount = (main_init erased).tuningcount + 2 ∧
    (ISR_PCINT2 0x60 (main_init erased)).laststate = 2 := by
  decide

/-- The increment of the encoder interrupt for two different states in 0..3: it is
0 exactly when the states differ by 2, and -1 or +1 otherwise. -/
theorem encoder_step_values (laststate state : Int)
    (hl : 0 ≤ laststate ∧ laststate ≤ 3) (hs : 0 ≤ state ∧ state ≤ 3)
    (hne : laststate ≠ state) :
    (encoder_step laststate state = 0 ↔ (laststate - state = 2 ∨ state - laststate = 2)) ∧
    (encoder_step laststate state = -1 ∨ encoder_step laststate state = 0 ∨
      encoder_step laststate state = 1) := by
  unfold encoder_step
  omega

/-! ## Activity counter -/

/-- C11 (as amended). Activity counter, for a state whose `tuningcount` is at most
32765 and whose `runseconds10` is below `2^31 - 1`: an encoder interrupt that
observes a state change increases `tuningcount` by exactly 2, an interrupt with no
state change leaves the whole state unchanged, and the timer interrupt sets
`tuningcount` to 0, increments `runseconds10` by 1 and leaves `tuningknob`
unchanged; after a tick followed only by interrupts without a state change the
activity counter is 0. -/
theorem activity_counter (pind : Nat) (s : State)
    (hc : -32768 ≤ s.tuningcount ∧ s.tuningcount ≤ 32765)
    (hr : -2147483648 ≤ s.runseconds10 ∧ s.runseconds10 ≤ 2147483646) :
    (encoder_state pind ≠ s.laststate →
      (ISR_PCINT2 pind s).tuningcount = s.tuningcount + 2 ∧
      s.tuningcount < (ISR_PCINT2 pind s).tuningcount) ∧
    (encoder_state pind = s.laststate → ISR_PCINT2 pind s = s) ∧
    (ISR_TIMER1_COMPA s).tuningcount = 0 ∧
    (ISR_TIMER1_COMPA s).runseconds10 = s.runseconds10 + 1 ∧
    (ISR_TIMER1_COMPA s).tuningknob = s.tuningknob ∧
    (encoder_state pind = s.laststate →
      (ISR_PCINT2 pind (ISR_TIMER1_COMPA s)).tuningcount = 0) := by
  refine ⟨?_, ?_, rfl, ?_, rfl, ?_⟩
  · intro hne
    have h : (ISR_PCINT2 pind s).tuningcount = wrap16 (s.tuningcount + 2) := by
      unfold ISR_PCINT2
      simp only []
      rw [if_pos hne]
    rw [h]
    unfold wrap16
    omega
  · intro heq
    unfold ISR_PCINT2
    simp only []
    rw [if_neg (by rw [heq]; exact fun h => h rfl)]
  · show wrap32 (s.runseconds10 + 1) = s.runseconds10 + 1
    unfold wrap32
    omega
  · intro heq
    have hl : (ISR_TIMER1_COMPA s).laststate = s.laststate := rfl
    unfold ISR_PCINT2
    simp only []
    rw [if_neg (by rw [hl, heq]; exact fun h => h rfl)]
    rfl

theorem activity_counter_witness :
    (ISR_PCINT2 0x20 (tuned 0 4)).tuningcount = 4 + 2 ∧
    ISR_PCINT2 0x00 (tuned 0 4) = tuned 0 4 ∧
    (ISR_TIMER1_COMPA (tuned 0 4)).tuningcount = 0 ∧
    (ISR_TIMER1_COMPA (tuned 0 4)).runseconds10 = 0 + 1 := by
  have h := activity_counter 0x20 (tuned 0 4) (by decide) (by decide)
  have h' := activity_counter 0x00 (tuned 0 4) (by decide) (by decide)
  exact ⟨(h.1 (by decide)).1, h'.2.1 (by decide), h.2.2.1, h.2.2.2.1⟩

/-- With `tuningcount = 32766` an encoder interrupt that observes a state change
wraps the 16-bit counter to -32768, and with `runseconds10 = 2^31 - 1` the timer
interrupt wraps the 32-bit counter to `-2^31`: neither counter increases. -/
theorem activity_counter_overflow :
    encoder_state 0x20 ≠ (tuned 0 32766).laststate ∧
    (tuned 0 32766).tuningcount = 32766 ∧
    (ISR_PCINT2 0x20 (tuned 0 32766)).tuningcount = -32768 ∧
    (ISR_TIMER1_COMPA { tuned 0 0 with runseconds10 := 2147483647 }).runseconds10
      = -2147483648 := by
  decide

/-! ## Menu cursor -/

theorem interrupts_tuningknob (p : Poll) (s : State) : (interrupts p s).tuningknob = p.knob :=
  rfl

/-- The cursor after one pass of the loop of `navigate_thru_item_list`, by the knob
value the pass finds. -/
theorem navigate_pass_pos (m maxitems : Int) (c : Menu)
    (h0 : 0 ≤ maxitems) (h1 : maxitems ≤ 32767) (hp0 : 0 ≤ c.pos) (hp1 : c.pos ≤ maxitems) :
    (navigate_pass m maxitems c).pos =
      (if c.state.tuningknob < -2 then (if c.pos < maxitems then c.pos + 1 else 0)
       else if c.state.tuningknob > 2 then (if c.pos > 0 then c.pos - 1 else maxitems)
       else c.pos) ∧
    (navigate_pass m maxitems c).key = c.key ∧
    (navigate_pass m maxitems c).rest = c.rest := by
  have hw1 : wrap16 (c.pos + 1) = c.pos + 1 ∨ ¬ c.pos < maxitems := by
    by_cases h : c.pos < maxitems
    · left; unfold wrap16; omega
    · right; exact h
  have hw2 : wrap16 (c.pos - 1) = c.pos - 1 := by unfold wrap16; omega
  have hz : ¬ ((0 : Int) > 2) := by decide
  have hz' : ¬ ((0 : Int) < -2) := by decide
  unfold navigate_pass
  by_cases hk : c.state.tuningknob < -2
  · have hk2 : ¬ c.state.tuningknob > 2 := by omega
    simp only [hk, if_true, hz, if_false]
    split_ifs <;> first | exact ⟨rfl, rfl, rfl⟩ | (rcases hw1 with h | h <;> simp_all)
  · by_cases hk2 : c.state.tuningknob > 2
    · simp only [hk, if_false, hk2, if_true, hw2]
      split_ifs <;> exact ⟨rfl, rfl, rfl⟩
    · simp only [hk, if_false, hk2]
      split_ifs <;> exact ⟨rfl, rfl, rfl⟩

theorem navigate_pass_range (m maxitems : Int) (c : Menu)
    (h0 : 0 ≤ maxitems) (h1 : maxitems ≤ 32767) (hp0 : 0 ≤ c.pos) (hp1 : c.pos ≤ maxitems) :
    0 ≤ (navigate_pass m maxitems c).pos ∧ (navigate_pass m maxitems c).pos ≤ maxitems := by
  rw [(navigate_pass_pos m maxitems c h0 h1 hp0 hp1).1]
  split_ifs <;> omega

theorem succ_emod (pos n : Int) (h0 : 0 ≤ pos) (h1 : pos < n) :
    (if pos < n - 1 then pos + 1 else 0) = (pos + 1) % n := by
  split_ifs with h
  · rw [Int.emod_eq_of_lt (by omega) (by omega)]
  · have : pos + 1 = n := by omega
    rw [this, Int.emod_self]

theorem pred_emod (pos n : Int) (h0 : 0 ≤ pos) (h1 : pos < n) :
    (if pos > 0 then pos - 1 else n - 1) = (pos - 1) % n := by
  split_ifs with h
  · rw [Int.emod_eq_of_lt (by omega) (by omega)]
  · have hp : pos = 0 := by omega
    rw [hp]
    have : (0 - 1 : Int) % n = (n - 1) % n := by
      have h := Int.add_emod_self (a := (0 - 1 : Int)) (b := n)
      rw [← h]
      congr 1
      ring
    rw [this, Int.emod_eq_of_lt (by omega) (by omega)]

/-- Forward events: every poll shows no key and a knob below -2. -/
theorem navigate_loop_forward (m maxitems : Int) (h0 : 0 ≤ maxitems) (h1 : maxitems ≤ 32767)
    (ps : List Poll) : ∀ (pos old : Int) (s : State), 0 ≤ pos → pos ≤ maxitems →
    (∀ p ∈ ps, p.key = 0 ∧ p.knob < -2) →
    (navigate_loop m maxitems 0 pos old s ps).pos = (pos + ps.length) % (maxitems + 1) := by
  induction ps with
  | nil =>
    intro pos old s hp0 hp1 _
    simp only [navigate_loop, List.length_nil, Nat.cast_zero, add_zero]
    rw [Int.emod_eq_of_lt hp0 (by omega)]
  | cons p ps ih =>
    intro pos old s hp0 hp1 hall
    have hp := hall p (List.mem_cons_self _ _)
    have hrest : ∀ q ∈ ps, q.key = 0 ∧ q.knob < -2 :=
      fun q hq => hall q (List.mem_cons_of_mem _ hq)
    have hpass := navigate_pass_pos m maxitems
      { key := 0, pos := pos, old := old, state := interrupts p s, rest := ps } h0 h1 hp0 hp1
    have hrange := navigate_pass_range m maxitems
      { key := 0, pos := pos, old := old, state := interrupts p s, rest := ps } h0 h1 hp0 hp1
    simp only [interrupts_tuningknob, hp.2, if_true] at hpass
    have hs := succ_emod pos (maxitems + 1) hp0 (by omega)
    simp only [add_sub_cancel_right] at hs
    simp only [navigate_loop, if_true, hp.1]
    rw [ih _ _ _ hrange.1 hrange.2 hrest, hpass.1, hs, Int.emod_add_emod]
    congr 1
    simp only [List.length_cons, Nat.cast_add, Nat.cast_one]
    ring

/-- Backward events: every poll shows no key and a knob above 2. -/
theorem navigate_loop_backward (m maxitems : Int) (h0 : 0 ≤ maxitems) (h1 : maxitems ≤ 32767)
    (ps : List Poll) : ∀ (pos old : Int) (s : State), 0 ≤ pos → pos ≤ maxitems →
    (∀ p ∈ ps, p.key = 0 ∧ p.knob > 2) →
    (navigate_loop m maxitems 0 pos old s ps).pos = (pos - ps.length) % (maxitems + 1) := by
  induction ps with
  | nil =>
    intro pos old s hp0 hp1 _
    simp only [navigate_loop, List.length_nil, Nat.cast_zero, sub_zero]
    rw [Int.emod_eq_of_lt hp0 (by omega)]
  | cons p ps ih =>
    intro pos old s hp0 hp1 hall
    have hp := hall p (List.mem_cons_self _ _)
    have hrest : ∀ q ∈ ps, q.key = 0 ∧ q.knob > 2 :=
      fun q hq => hall q (List.mem_cons_of_mem _ hq)
    have hpass := navigate_pass_pos m maxitems
      { key := 0, pos := pos, old := old, state := interrupts p s, rest := ps } h0 h1 hp0 hp1
    have hrange := navigate_pass_range m maxitems
      { key := 0, pos := pos, old := old, state := interrupts p s, rest := ps } h0 h1 hp0 hp1
    have hnot : ¬ p.knob < -2 := by omega
    simp only [interrupts_tuningknob, hnot, if_false, hp.2, if_true] at hpass
    have hs := pred_emod pos (maxitems + 1) hp0 (by omega)
    simp only [add_sub_cancel_right] at hs
    simp only [navigate_loop, if_true, hp.1]
    rw [ih _ _ _ hrange.1 hrange.2 hrest, hpass.1, hs, sub_eq_add_neg, Int.emod_add_emod]
    congr 1
    simp only [List.length_cons, Nat.cast_add, Nat.cast_one]
    ring

/-- Dead zone: every poll shows no key and a knob in -2..2. -/
theorem navigate_loop_rest (m maxitems : Int) (h0 : 0 ≤ maxitems) (h1 : maxitems ≤ 32767)
    (ps : List Poll) : ∀ (pos old : Int) (s : State), 0 ≤ pos → pos ≤ maxitems →
    (∀ p ∈ ps, p.key = 0 ∧ -2 ≤ p.knob ∧ p.knob ≤ 2) →
    (navigate_loop m maxitems 0 pos old s ps).pos = pos := by
  induction ps with
  | nil =>
    intro pos old s _ _ _
    simp only [navigate_loop]
  | cons p ps ih =>
    intro pos old s hp0 hp1 hall
    have hp := hall p (List.mem_cons_self _ _)
    have hrest : ∀ q ∈ ps, q.key = 0 ∧ -2 ≤ q.knob ∧ q.knob ≤ 2 :=
      fun q hq => hall q (List.mem_cons_of_mem _ hq)
    have hpass := navigate_pass_pos m maxitems
      { key := 0, pos := pos, old := old, state := interrupts p s, rest := ps } h0 h1 hp0 hp1
    have hn1 : ¬ p.knob < -2 := by omega
    have hn2 : ¬ p.knob > 2 := by omega
    simp only [interrupts_tuningknob, hn1, hn2, if_false] at hpass
    simp only [navigate_loop, if_true, hp.1]
    rw [ih _ _ _ (by rw [hpass.1]; exact hp0) (by rw [hpass.1]; exact hp1) hrest, hpass.1]

/-- C12. Menu cursor wraparound in `navigate_thru_item_list` for a menu with
`n = maxitems + 1` leaves: from leaf 0, `k` passes that each find `tuningknob < -2`
(and no key) leave the cursor on `k mod n`, `k` passes that each find
`tuningknob > 2` leave it on `(-k) mod n`, and passes that find the knob in `-2..2`
do not move it. -/
theorem menu_cursor_wraparound (m maxitems : Int) (old : Int) (s : State) (ps : List Poll)
    (h0 : 0 ≤ maxitems) (h1 : maxitems ≤ 32767) :
    ((∀ p ∈ ps, p.key = 0 ∧ p.knob < -2) →
      (navigate_loop m maxitems 0 0 old s ps).pos = (ps.length : Int) % (maxitems + 1)) ∧
    ((∀ p ∈ ps, p.key = 0 ∧ p.knob > 2) →
      (navigate_loop m maxitems 0 0 old s ps).pos = (-(ps.length : Int)) % (maxitems + 1)) ∧
    ((∀ p ∈ ps, p.key = 0 ∧ -2 ≤ p.knob ∧ p.knob ≤ 2) →
      (navigate_loop m maxitems 0 0 old s ps).pos = 0) := by
  refine ⟨?_, ?_, ?_⟩
  · intro h
    rw [navigate_loop_forward m maxitems h0 h1 ps 0 old s (le_refl 0) h0 h, zero_add]
  · intro h
    rw [navigate_loop_backward m maxitems h0 h1 ps 0 old s (le_refl 0) h0 h, zero_sub]
  · intro h
    exact navigate_loop_rest m maxitems h0 h1 ps 0 old s (le_refl 0) h0 h

theorem menu_cursor_wraparound_witness :
    menu_items 2 = 3 ∧
    (navigate_loop 2 3 0 0 (-1) (main_init erased) [turn (-3), turn (-3), turn (-3)]).pos = 3 ∧
    (navigate_loop 2 3 0 0 (-1) (main_init erased)
      [turn (-3), turn (-3), turn (-3), turn (-3)]).pos = 0 ∧
    (navigate_loop 2 3 0 0 (-1) (main_init erased) [turn 3]).pos = 3 ∧
    (navigate_loop 2 3 0 0 (-1) (main_init erased) [turn 2, turn (-2)]).pos = 0 := by
  have h3 := (menu_cursor_wraparound 2 3 (-1) (main_init erased)
    [turn (-3), turn (-3), turn (-3)] (by decide) (by decide)).1 (by decide)
  have h4 := (menu_cursor_wraparound 2 3 (-1) (main_init erased)
    [turn (-3), turn (-3), turn (-3), turn (-3)] (by decide) (by decide)).1 (by decide)
  have hb := (menu_cursor_wraparound 2 3 (-1) (main_init erased)
    [turn 3] (by decide) (by decide)).2.1 (by decide)
  have hd := (menu_cursor_wraparound 2 3 (-1) (main_init erased)
    [turn 2, turn (-2)] (by decide) (by decide)).2.2 (by decide)
  exact ⟨by decide, h3, h4, hb, hd⟩

/-! ## Menu walk -/

theorem wait_no_key_suffix (ps : List Poll) : ∀ s : State, (wait_no_key s ps).2.2 <:+ ps := by
  induction ps with
  | nil => intro s; exact List.suffix_refl _
  | cons p ps ih =>
    intro s
    unfold wait_no_key
    split_ifs
    · exact (ih _).trans (List.suffix_cons p ps)
    · exact List.suffix_cons p ps

theorem navigate_loop_suffix (m maxitems : Int) (ps : List Poll) :
    ∀ (key pos old : Int) (s : State), (navigate_loop m maxitems key pos old s ps).rest <:+ ps := by
  induction ps with
  | nil => intro key pos old s; exact List.suffix_refl _
  | cons p ps ih =>
    intro key pos old s
    unfold navigate_loop
    split_ifs
    · exact (ih _ _ _ _).trans (List.suffix_cons p ps)
    · exact List.suffix_refl _

/-- The key that ends the loop of `navigate_thru_item_list` is the key it was
entered with or the key of one of the polls. -/
theorem navigate_loop_key (m maxitems : Int) (ps : List Poll) :
    ∀ (key pos old : Int) (s : State),
      (navigate_loop m maxitems key pos old s ps).key = key ∨
      ∃ p ∈ ps, (navigate_loop m maxitems key pos old s ps).key = p.key := by
  induction ps with
  | nil => intro key pos old s; left; rfl
  | cons p ps ih =>
    intro key pos old s
    unfold navigate_loop
    split_ifs
    · right
      rcases ih p.key _ _ _ with h | ⟨q, hq, h⟩
      · exact ⟨p, List.mem_cons_self _ _, h⟩
      · exact ⟨q, List.mem_cons_of_mem _ hq, h⟩
    · left; rfl

theorem navigate_loop_range (m maxitems : Int) (h0 : 0 ≤ maxitems) (h1 : maxitems ≤ 32767)
    (ps : List Poll) : ∀ (key pos old : Int) (s : State), 0 ≤ pos → pos ≤ maxitems →
    0 ≤ (navigate_loop m maxitems key pos old s ps).pos ∧
    (navigate_loop m maxitems key pos old s ps).pos ≤ maxitems := by
  induction ps with
  | nil => intro key pos old s hp0 hp1; exact ⟨hp0, hp1⟩
  | cons p ps ih =>
    intro key pos old s hp0 hp1
    unfold navigate_loop
    split_ifs
    · have hr := navigate_pass_range m maxitems
        { key := key, pos := pos, old := old, state := interrupts p s, rest := ps } h0 h1 hp0 hp1
      exact ih _ _ _ _ hr.1 hr.2
    · exact ⟨hp0, hp1⟩

/-- What `navigate_thru_item_list` returns: the cursor when the loop ended with key
2, `-11` when it ended with key 11, and `-1` for every other key. -/
theorem navigate_thru_item_list_result (m maxitems : Int) (h0 : 0 ≤ maxitems)
    (h1 : maxitems ≤ 32767) (s : State) (ps : List Poll) (r : Int) (s' : State)
    (ps' : List Poll) (h : navigate_thru_item_list m maxitems s ps = some (r, s', ps')) :
    ∃ p ps1, ps = p :: ps1 ∧ ps' <:+ ps ∧
      (navigate_loop m maxitems p.key 0 (-1) (interrupts p s) ps1).key ≠ 0 ∧
      (∃ q ∈ ps, (navigate_loop m maxitems p.key 0 (-1) (interrupts p s) ps1).key = q.key) ∧
      r = (if (navigate_loop m maxitems p.key 0 (-1) (interrupts p s) ps1).key = 1 then -1
           else if (navigate_loop m maxitems p.key 0 (-1) (interrupts p s) ps1).key = 2
             then (navigate_loop m maxitems p.key 0 (-1) (interrupts p s) ps1).pos
           else if (navigate_loop m maxitems p.key 0 (-1) (interrupts p s) ps1).key = 11 then -11
           else -1) ∧
      0 ≤ (navigate_loop m maxitems p.key 0 (-1) (interrupts p s) ps1).pos ∧
      (navigate_loop m maxitems p.key 0 (-1) (interrupts p s) ps1).pos ≤ maxitems := by
  cases ps with
  | nil => simp [navigate_thru_item_list] at h
  | cons p ps1 =>
    refine ⟨p, ps1, rfl, ?_⟩
    have hrange := navigate_loop_range m maxitems h0 h1 ps1 p.key 0 (-1) (interrupts p s)
      (le_refl 0) h0
    have hkey := navigate_loop_key m maxitems ps1 p.key 0 (-1) (interrupts p s)
    have hsuf := navigate_loop_suffix m maxitems ps1 p.key 0 (-1) (interrupts p s)
    simp only [navigate_thru_item_list] at h
    generalize navigate_loop m maxitems p.key 0 (-1) (interrupts p s) ps1 = c at h hrange hkey hsuf
    by_cases hk : c.key = 0
    · simp [hk] at h
    · simp only [hk, if_false] at h
      have hw := wait_no_key_suffix c.rest c.state
      rcases hwq : wait_no_key c.state c.rest with ⟨b, s1, ps2⟩
      rw [hwq] at h hw
      cases b with
      | false => simp at h
      | true =>
        simp only [Option.some.injEq, Prod.mk.injEq] at h
        obtain ⟨hr, _, hps⟩ := h
        refine ⟨?_, hk, ?_, hr.symm, hrange.1, hrange.2⟩
        · rw [← hps]
          exact (hw.trans hsuf).trans (List.suffix_cons p ps1)
        · rcases hkey with h | ⟨q, hq, h⟩
          · exact ⟨p, List.mem_cons_self _ _, h⟩
          · exact ⟨q, List.mem_cons_of_mem _ hq, h⟩

theorem menu_items_range (c : Int) (h0 : 0 ≤ c) (h5 : c ≤ 5) :
    0 ≤ menu_items c ∧ menu_items c ≤ 4 ∧
    menu_items c = (if c = 0 then 4 else if c = 1 then 1 else if c = 2 then 3
      else if c = 3 then 2 else 1) := by
  have : c = 0 ∨ c = 1 ∨ c = 2 ∨ c = 3 ∨ c = 4 ∨ c = 5 := by omega
  rcases this with rfl | rfl | rfl | rfl | rfl | rfl <;> decide

/-- What the walk through the menus returns: `-2` after the last menu, `-1` only
after a poll with key 11, and otherwise `10 * c + l` for a menu `c` of the walk
whose loop ended with key 2 on the cursor `l`. -/
theorem menux_walk_result (menus : List Int) : ∀ (s : State) (ps : List Poll) (r : Int)
    (s' : State) (ps' : List Poll), (∀ c ∈ menus, 0 ≤ c ∧ c ≤ 5) →
    menux_walk menus s ps = some (r, s', ps') →
    ps' <:+ ps ∧
    (r = -2 ∨ (r = -1 ∧ ∃ q ∈ ps, q.key = 11) ∨
      ∃ c ∈ menus, ∃ l s1 p ps1,
        navigate_thru_item_list c (menu_items c) s1 (p :: ps1) = some (l, s', ps') ∧
        (navigate_loop c (menu_items c) p.key 0 (-1) (interrupts p s1) ps1).key = 2 ∧
        (navigate_loop c (menu_items c) p.key 0 (-1) (interrupts p s1) ps1).pos = l ∧
        0 ≤ l ∧ l ≤ menu_items c ∧ r = 10 * c + l) := by
  induction menus with
  | nil =>
    intro s ps r s' ps' _ h
    simp only [menux_walk, Option.some.injEq, Prod.mk.injEq] at h
    exact ⟨h.2.2 ▸ List.suffix_refl _, Or.inl h.1.symm⟩
  | cons c later ih =>
    intro s ps r s' ps' hc h
    have hc0 := hc c (List.mem_cons_self _ _)
    have hmi := menu_items_range c hc0.1 hc0.2
    simp only [menux_walk] at h
    have hw := wait_no_key_suffix ps s
    rcases hwq : wait_no_key s ps with ⟨b, s1, ps1⟩
    rw [hwq] at h hw
    cases b with
    | false => simp at h
    | true =>
      simp only [] at h hw
      rcases hn : navigate_thru_item_list c (menu_items c) s1 ps1 with _ | ⟨l, s2, ps2⟩
      · rw [hn] at h; simp at h
      · rw [hn] at h
        simp only [] at h
        obtain ⟨p, ps1', hps1, hsuf, hk0, ⟨q, hq, hkq⟩, hl, hp0, hp1⟩ :=
          navigate_thru_item_list_result c (menu_items c) hmi.1 (by omega) s1 ps1 l s2 ps2 hn
        generalize hcfg : navigate_loop c (menu_items c) p.key 0 (-1) (interrupts p s1) ps1' = cfg
          at hk0 hkq hl hp0 hp1
        by_cases hsel : l > -1
        · simp only [hsel, if_true, Option.some.injEq, Prod.mk.injEq] at h
          obtain ⟨hr, hs, hps⟩ := h
          subst hs hps
          refine ⟨hsuf.trans hw, Or.inr (Or.inr ⟨c, List.mem_cons_self _ _, l, s1, p, ps1', ?_⟩)⟩
          have hk2 : cfg.key = 2 := by
            by_contra hne
            rw [hl] at hsel
            split_ifs at hsel <;> try omega
          have hpos : cfg.pos = l := by
            rw [hl, if_neg (by omega), if_pos hk2]
          rw [hcfg]
          refine ⟨by rw [← hps1]; exact hn, hk2, hpos, by omega, by omega, ?_⟩
          rw [← hr]
          unfold wrap16
          omega
        · simp only [hsel, if_false] at h
          by_cases hq11 : l = -11
          · simp only [hq11, if_true, Option.some.injEq, Prod.mk.injEq] at h
            obtain ⟨hr, hs, hps⟩ := h
            subst hs hps
            refine ⟨hsuf.trans hw, Or.inr (Or.inl ⟨hr.symm, q, hw.subset hq, ?_⟩)⟩
            rw [← hkq]
            rw [hl] at hq11
            split_ifs at hq11 with h1 h2 h3
            · omega
            · omega
            · exact h3
            · omega
          · simp only [hq11, if_false] at h
            obtain ⟨hsuf', hres⟩ := ih s2 ps2 r s' ps'
              (fun d hd => hc d (List.mem_cons_of_mem _ hd)) h
            refine ⟨(hsuf'.trans hsuf).trans hw, ?_⟩
            rcases hres with h | ⟨h, q', hq', h11⟩ | ⟨d, hd, rest⟩
            · exact Or.inl h
            · exact Or.inr (Or.inl ⟨h, q', hw.subset (hsuf.subset hq'), h11⟩)
            · exact Or.inr (Or.inr ⟨d, List.mem_cons_of_mem _ hd, rest⟩)

theorem get_keys_range (adcval : Int) :
    get_keys adcval = 0 ∨ get_keys adcval = 1 ∨ get_keys adcval = 2 := by
  unfold get_keys
  split_ifs <;> simp

/-- One block of `menux`, for a menu `c` in 0..5 whose `navigate_thru_item_list`
returned `l`. -/
theorem menux_walk_block (c : Int) (later : List Int) (s0 : State) (ps0 : List Poll)
    (s1 : State) (ps1 : List Poll) (l : Int) (s2 : State) (ps2 : List Poll)
    (hw : wait_no_key s0 ps0 = (true, s1, ps1))
    (hn : navigate_thru_item_list c (menu_items c) s1 ps1 = some (l, s2, ps2)) :
    (l > -1 → menux_walk (c :: later) s0 ps0 = some (wrap16 (wrap16 (c * 10) + l), s2, ps2)) ∧
    (l = -11 → menux_walk (c :: later) s0 ps0 = some (-1, s2, ps2)) ∧
    (l = -1 → menux_walk (c :: later) s0 ps0 = menux_walk later s2 ps2) := by
  refine ⟨?_, ?_, ?_⟩
  · intro hl
    simp only [menux_walk, hw, hn, hl, if_true]
  · intro hl
    subst hl
    have h1 : ¬ ((-11 : Int) > -1) := by decide
    simp only [menux_walk, hw, hn, h1, if_false, if_true]
  · intro hl
    subst hl
    have h1 : ¬ ((-1 : Int) > -1) := by decide
    have h2 : ¬ ((-1 : Int) = -11) := by decide
    simp only [menux_walk, hw, hn, h1, h2, if_false]

/-- C13. Menu result coding: every non-negative value returned by `menux` is
`10 * c + l` for a menu `c` in 0..5 whose `navigate_thru_item_list` loop ended with
the select key (key code 2) on the cursor `l`, with `0 ≤ l ≤ MENUITEMS[c]`; it is one
of 0..4, 10..11, 20..23, 30..32, 40..41, 50..51, and `c` and `l` are recovered as
the quotient and the remainder by 10.  Conversely, when the loop of menu `c` ends
with key 2 on the cursor `l`, the walk from that menu on returns `10 * c + l`. -/
theorem menu_result_coding (s : State) (ps : List Poll) (r : Int) (s' : State)
    (ps' : List Poll) (h : menux s ps = some (r, s', ps')) (hr : 0 ≤ r) :
    (∃ c l s1 p ps1, (0 ≤ c ∧ c ≤ 5) ∧
      navigate_thru_item_list c (menu_items c) s1 (p :: ps1) = some (l, s', ps') ∧
      (navigate_loop c (menu_items c) p.key 0 (-1) (interrupts p s1) ps1).key = 2 ∧
      (navigate_loop c (menu_items c) p.key 0 (-1) (interrupts p s1) ps1).pos = l ∧
      0 ≤ l ∧ l ≤ menu_items c ∧ r = 10 * c + l ∧ r / 10 = c ∧ r % 10 = l) ∧
    r ∈ ([0, 1, 2, 3, 4, 10, 11, 20, 21, 22, 23, 30, 31, 32, 40, 41, 50, 51] : List Int) ∧
    (∀ (c : Int) (later : List Int) (s0 : State) (ps0 : List Poll) (s1 : State) (p : Poll)
      (ps1 : List Poll) (l : Int) (s2 : State) (ps2 : List Poll), 0 ≤ c → c ≤ 5 →
      wait_no_key s0 ps0 = (true, s1, p :: ps1) →
      navigate_thru_item_list c (menu_items c) s1 (p :: ps1) = some (l, s2, ps2) →
      (navigate_loop c (menu_items c) p.key 0 (-1) (interrupts p s1) ps1).key = 2 →
      l = (navigate_loop c (menu_items c) p.key 0 (-1) (interrupts p s1) ps1).pos ∧
      menux_walk (c :: later) s0 ps0 = some (10 * c + l, s2, ps2)) := by
  have hmenus : ∀ c ∈ ([0, 1, 2, 3, 4, 5] : List Int), 0 ≤ c ∧ c ≤ 5 := by decide
  obtain ⟨_, hres⟩ := menux_walk_result [0, 1, 2, 3, 4, 5] s ps r s' ps' hmenus h
  rcases hres with h2 | ⟨h1, _⟩ | ⟨c, hc, l, s1, p, ps1, hn, hk, hpos, hl0, hl1, hrl⟩
  · omega
  · omega
  · have hcr := hmenus c hc
    have hmi := menu_items_range c hcr.1 hcr.2
    refine ⟨⟨c, l, s1, p, ps1, hcr, hn, hk, hpos, hl0, hl1, hrl, by omega, by omega⟩, ?_, ?_⟩
    · have hl4 : l ≤ 4 := by omega
      have hcc : c = 0 ∨ c = 1 ∨ c = 2 ∨ c = 3 ∨ c = 4 ∨ c = 5 := by omega
      rw [hmi.2.2] at hl1
      have hll : l = 0 ∨ l = 1 ∨ l = 2 ∨ l = 3 ∨ l = 4 := by omega
      rcases hcc with rfl | rfl | rfl | rfl | rfl | rfl <;>
        rcases hll with rfl | rfl | rfl | rfl | rfl <;> subst hrl <;>
        first | decide | (exfalso; revert hl1; decide)
    · intro c later s0 ps0 s1 p ps1 l s2 ps2 hc0 hc5 hw hn hk
      have hmi := menu_items_range c hc0 hc5
      obtain ⟨p', ps1', hps, _, _, _, hl, hp0, hp1⟩ :=
        navigate_thru_item_list_result c (menu_items c) hmi.1 (by omega) s1 (p :: ps1) l s2 ps2 hn
      obtain ⟨hp', hps1'⟩ := List.cons.inj hps
      subst hp' hps1'
      rw [if_neg (by rw [hk]; decide), if_pos hk] at hl
      refine ⟨hl, ?_⟩
      rw [(menux_walk_block c later s0 ps0 s1 (p :: ps1) l s2 ps2 hw hn).1 (by omega)]
      have : wrap16 (wrap16 (c * 10) + l) = 10 * c + l := by
        unfold wrap16; omega
      rw [this]

theorem menu_result_coding_witness :
    ∃ x, menux (main_init erased)
        [idle, press 1, idle, idle, press 1, idle,
         idle, idle, turn (-3), turn (-3), turn (-3), press 2, idle] = some x ∧
      x.1 = 23 ∧ x.1 / 10 = 2 ∧ x.1 % 10 = 3 ∧
      x.1 ∈ ([0, 1, 2, 3, 4, 10, 11, 20, 21, 22, 23, 30, 31, 32, 40, 41, 50, 51] : List Int) := by
  have hs : ((menux (main_init erased)
        [idle, press 1, idle, idle, press 1, idle,
         idle, idle, turn (-3), turn (-3), turn (-3), press 2, idle]).map Prod.fst) = some 23 := by
    decide
  rcases hx : menux (main_init erased)
        [idle, press 1, idle, idle, press 1, idle,
         idle, idle, turn (-3), turn (-3), turn (-3), press 2, idle] with _ | x
  · rw [hx] at hs; simp at hs
  · rw [hx] at hs
    have h23 : x.1 = 23 := by simpa using hs
    have h := menu_result_coding (main_init erased) _ x.1 x.2.1 x.2.2 hx (by rw [h23]; decide)
    refine ⟨x, rfl, h23, ?_, ?_, h.2.1⟩
    · rw [h23]; decide
    · rw [h23]; decide

/-- C14 (as amended). Menu walk: when the loop of a menu ends without a selection
(`navigate_thru_item_list` returns -1, which key 1 and every key other than 2 and 11
produce) the walk goes on with the next menu; it ends before the last menu only
with a selection or with the code -11 of key 11, for which `menux` returns -1.
`get_keys` only returns 0, 1 or 2, and for polls with such keys `menux` never
returns -1: its value is -2 (no menu ended with a selection) or a selection code. -/
theorem menu_walk_advances (s : State) (ps : List Poll) (r : Int) (s' : State)
    (ps' : List Poll) (hk : ∀ p ∈ ps, p.key = 0 ∨ p.key = 1 ∨ p.key = 2)
    (h : menux s ps = some (r, s', ps')) :
    (r ≠ -1 ∧ (r = -2 ∨ 0 ≤ r)) ∧
    (∀ adcval, get_keys adcval = 0 ∨ get_keys adcval = 1 ∨ get_keys adcval = 2) ∧
    (∀ (c : Int) (later : List Int) (s0 : State) (ps0 : List Poll) (s1 : State) (p : Poll)
      (ps1 : List Poll) (l : Int) (s2 : State) (ps2 : List Poll), 0 ≤ c → c ≤ 5 →
      wait_no_key s0 ps0 = (true, s1, p :: ps1) →
      navigate_thru_item_list c (menu_items c) s1 (p :: ps1) = some (l, s2, ps2) →
      ((navigate_loop c (menu_items c) p.key 0 (-1) (interrupts p s1) ps1).key = 1 →
        l = -1 ∧ menux_walk (c :: later) s0 ps0 = menux_walk later s2 ps2) ∧
      ((navigate_loop c (menu_items c) p.key 0 (-1) (interrupts p s1) ps1).key = 11 →
        l = -11 ∧ menux_walk (c :: later) s0 ps0 = some (-1, s2, ps2))) ∧
    (∀ (s0 : State) (ps0 : List Poll), menux_walk [] s0 ps0 = some (-2, s0, ps0)) := by
  have hmenus : ∀ c ∈ ([0, 1, 2, 3, 4, 5] : List Int), 0 ≤ c ∧ c ≤ 5 := by decide
  refine ⟨?_, get_keys_range, ?_, fun _ _ => rfl⟩
  · obtain ⟨_, hres⟩ := menux_walk_result [0, 1, 2, 3, 4, 5] s ps r s' ps' hmenus h
    rcases hres with h2 | ⟨h1, q, hq, h11⟩ | ⟨c, hc, l, s1, p, ps1, hn, hk2, hpos, hl0, hl1, hrl⟩
    · exact ⟨by omega, Or.inl h2⟩
    · rcases hk q hq with h | h | h <;> omega
    · have hcr := hmenus c hc
      exact ⟨by omega, Or.inr (by omega)⟩
  · intro c later s0 ps0 s1 p ps1 l s2 ps2 hc0 hc5 hw hn
    have hmi := menu_items_range c hc0 hc5
    obtain ⟨p', ps1', hps, _, _, _, hl, hp0, hp1⟩ :=
      navigate_thru_item_list_result c (menu_items c) hmi.1 (by omega) s1 (p :: ps1) l s2 ps2 hn
    obtain ⟨hp', hps1'⟩ := List.cons.inj hps
    subst hp' hps1'
    have hb := menux_walk_block c later s0 ps0 s1 (p :: ps1) l s2 ps2 hw hn
    constructor
    · intro hk1
      rw [if_pos hk1] at hl
      exact ⟨hl, hb.2.2 hl⟩
    · intro hk11
      rw [if_neg (by rw [hk11]; decide), if_neg (by rw [hk11]; decide), if_pos hk11] at hl
      exact ⟨hl, hb.2.1 hl⟩

theorem menu_walk_advances_witness :
    ∃ x, menux (main_init erased)
        [idle, press 1, idle, idle, press 1, idle, idle, press 1, idle,
         idle, press 1, idle, idle, press 1, idle, idle, press 1, idle] = some x ∧
      x.1 = -2 ∧ x.2.2 = [] ∧ x.1 ≠ -1 := by
  have hs : ((menux (main_init erased)
        [idle, press 1, idle, idle, press 1, idle, idle, press 1, idle,
         idle, press 1, idle, idle, press 1, idle, idle, press 1, idle]).map
          (fun x => (x.1, x.2.2))) = some (-2, []) := by
    decide
  rcases hx : menux (main_init erased)
        [idle, press 1, idle, idle, press 1, idle, idle, press 1, idle,
         idle, press 1, idle, idle, press 1, idle, idle, press 1, idle] with _ | x
  · rw [hx] at hs; simp at hs
  · rw [hx] at hs
    have h2 : x.1 = -2 ∧ x.2.2 = [] := by simpa using hs
    have h := menu_walk_advances (main_init erased) _ x.1 x.2.1 x.2.2 (by decide) hx
    exact ⟨x, rfl, h2.1, h2.2, h.1.1⟩

/-- After the back key (key 1) ended menu 0, where `navigate_thru_item_list` returns
its code -1, the walk is not over: menu 1 is presented, and the select key pressed
there makes `menux` return 10. -/
theorem menu_back_key_advances :
    (navigate_thru_item_list 0 (menu_items 0) (main_init erased) [press 1, idle]).map Prod.fst
      = some (-1) ∧
    (menux (main_init erased) [idle, press 1, idle, idle, press 2, idle]).map Prod.fst
      = some 10 := by
  decide

/-! ## Scanning: what the loops leave unchanged -/

theorem run_TIMER1_COMPA_frame (n : Nat) : ∀ s : State,
    (run_TIMER1_COMPA n s).eeprom = s.eeprom ∧
    (run_TIMER1_COMPA n s).si5351 = s.si5351 ∧
    (run_TIMER1_COMPA n s).f_vfo = s.f_vfo := by
  induction n with
  | zero => intro s; exact ⟨rfl, rfl, rfl⟩
  | succ n ih => intro s; exact ih (ISR_TIMER1_COMPA s)

theorem interrupts_frame (p : Poll) (s : State) :
    (interrupts p s).eeprom = s.eeprom ∧
    (interrupts p s).si5351 = s.si5351 ∧
    (interrupts p s).f_vfo = s.f_vfo :=
  run_TIMER1_COMPA_frame p.ticks s

theorem run_TIMER1_COMPA_runseconds10 (n : Nat) : ∀ s : State,
    -2147483648 ≤ s.runseconds10 → s.runseconds10 + n < 2147483648 →
    (run_TIMER1_COMPA n s).runseconds10 = s.runseconds10 + n := by
  induction n with
  | zero => intro s _ _; simp [run_TIMER1_COMPA]
  | succ n ih =>
    intro s h0 h1
    have hs : (ISR_TIMER1_COMPA s).runseconds10 = s.runseconds10 + 1 := by
      show wrap32 (s.runseconds10 + 1) = s.runseconds10 + 1
      unfold wrap32
      push_cast at h1
      omega
    show (run_TIMER1_COMPA n (ISR_TIMER1_COMPA s)).runseconds10 = _
    rw [ih (ISR_TIMER1_COMPA s) (by rw [hs]; omega) (by rw [hs]; push_cast at h1; omega), hs]
    push_cast
    ring

theorem interrupts_runseconds10 (p : Poll) (s : State)
    (h0 : -2147483648 ≤ s.runseconds10) (h1 : s.runseconds10 + p.ticks < 2147483648) :
    (interrupts p s).runseconds10 = s.runseconds10 + p.ticks :=
  run_TIMER1_COMPA_runseconds10 p.ticks s h0 h1

theorem scan_dwell_frame (thresh scan : Int) : ∀ (ps : List Poll) (holding : Bool)
    (sval key : Int) (s : State),
    (scan_dwell thresh scan holding sval key s ps).state.eeprom = s.eeprom ∧
    (scan_dwell thresh scan holding sval key s ps).state.si5351 = s.si5351 := by
  intro ps
  induction ps with
  | nil =>
    intro holding sval key s
    simp only [scan_dwell]
    split_ifs <;> exact ⟨rfl, rfl⟩
  | cons p ps ih =>
    intro holding sval key s
    simp only [scan_dwell]
    split_ifs
    · rw [(ih _ _ _ _).1, (ih _ _ _ _).2]
      exact ⟨(interrupts_frame p s).1, (interrupts_frame p s).2.1⟩
    · rw [(ih _ _ _ _).1, (ih _ _ _ _).2]
      exact ⟨(interrupts_frame p s).1, (interrupts_frame p s).2.1⟩
    · exact ⟨rfl, rfl⟩

/-- A dwell entered with a key already sampled is left at once. -/
theorem scan_dwell_key (thresh scan : Int) (ps : List Poll) (holding : Bool)
    (sval key : Int) (s : State) (hk : key ≠ 0) :
    scan_dwell thresh scan holding sval key s ps
      = { done := true, key := key, state := s, rest := ps } := by
  cases ps with
  | nil => simp only [scan_dwell, hk, and_false, or_self, if_false]
  | cons p ps => simp only [scan_dwell, hk, and_false, if_false]

/-- While no poll shows a key the dwell ends with `key = 0`. -/
theorem scan_dwell_keys_zero (thresh scan : Int) : ∀ (ps : List Poll) (holding : Bool)
    (sval : Int) (s : State), (∀ p ∈ ps, p.key = 0) →
    (scan_dwell thresh scan holding sval 0 s ps).key = 0 := by
  intro ps
  induction ps with
  | nil =>
    intro holding sval s _
    simp only [scan_dwell]
    split_ifs <;> rfl
  | cons p ps ih =>
    intro holding sval s h
    have hp : p.key = 0 := h p (List.mem_cons_self _ _)
    have hps : ∀ q ∈ ps, q.key = 0 := fun q hq => h q (List.mem_cons_of_mem _ hq)
    simp only [scan_dwell, hp]
    split_ifs
    · exact ih _ _ _ hps
    · exact ih _ _ _ hps
    · rfl

/-- The first poll that shows a key, when the dwell reads it, ends the dwell at
once: the dwell is either left before that poll is read (with `key = 0`), or left
with that key and exactly the polls after it unread. -/
theorem scan_dwell_first_key (thresh scan : Int) (q : Poll) (post : List Poll)
    (hq : q.key ≠ 0) : ∀ (pre : List Poll) (holding : Bool) (sval : Int) (s : State),
    (∀ p ∈ pre, p.key = 0) →
    ((scan_dwell thresh scan holding sval 0 s (pre ++ q :: post)).done = true ∧
      (scan_dwell thresh scan holding sval 0 s (pre ++ q :: post)).key = 0 ∧
      ∃ pre1 pre2, pre = pre1 ++ pre2 ∧
        (scan_dwell thresh scan holding sval 0 s (pre ++ q :: post)).rest = pre2 ++ q :: post) ∨
    ((scan_dwell thresh scan holding sval 0 s (pre ++ q :: post)).done = true ∧
      (scan_dwell thresh scan holding sval 0 s (pre ++ q :: post)).key = q.key ∧
      (scan_dwell thresh scan holding sval 0 s (pre ++ q :: post)).rest = post) := by
  intro pre
  induction pre with
  | nil =>
    intro holding sval s _
    simp only [List.nil_append, scan_dwell]
    split_ifs
    · right
      rw [scan_dwell_key thresh scan post _ _ _ _ hq]
      exact ⟨rfl, rfl, rfl⟩
    · right
      rw [scan_dwell_key thresh scan post _ _ _ _ hq]
      exact ⟨rfl, rfl, rfl⟩
    · left
      exact ⟨rfl, rfl, [], [], rfl, rfl⟩
  | cons p pre ih =>
    intro holding sval s h
    have hp : p.key = 0 := h p (List.mem_cons_self _ _)
    have hps : ∀ r ∈ pre, r.key = 0 := fun r hr => h r (List.mem_cons_of_mem _ hr)
    simp only [List.cons_append, scan_dwell, hp]
    split_ifs
    · rcases ih true p.sval (interrupts p s) hps with ⟨hd, hk, pre1, pre2, he, hr⟩ | h2
      · left
        exact ⟨hd, hk, p :: pre1, pre2, by rw [he]; rfl, hr⟩
      · right; exact h2
    · rcases ih (decide (thresh ≠ 0)) p.sval (interrupts p s) hps with
        ⟨hd, hk, pre1, pre2, he, hr⟩ | h2
      · left
        exact ⟨hd, hk, p :: pre1, pre2, by rw [he]; rfl, hr⟩
      · right; exact h2
    · left
      exact ⟨rfl, rfl, [], p :: pre, rfl, rfl⟩

theorem scan_memories_visit_invalid (thresh m : Int) (s : State) (ps : List Poll)
    (h : is_mem_freq_ok (load_frequency s.eeprom 0 m) = 0) :
    scan_memories_visit thresh m s ps = { done := true, key := 0, state := s, rest := ps } := by
  unfold scan_memories_visit
  simp only [h, ne_eq, not_true_eq_false, if_false]

theorem scan_memories_visit_valid (thresh m : Int) (s : State) (ps : List Poll)
    (h : is_mem_freq_ok (load_frequency s.eeprom 0 m) ≠ 0) :
    scan_memories_visit thresh m s ps
      = scan_dwell thresh s.runseconds10 false 0 0
          (set_vfo_frequency s (load_frequency s.eeprom 0 m + INTERFREQUENCY)) ps ∧
    (set_vfo_frequency s (load_frequency s.eeprom 0 m + INTERFREQUENCY)).si5351
      = s.si5351 ++ si5351_set_freq SYNTH_MS_1 (load_frequency s.eeprom 0 m + 9000000) := by
  have hr := is_mem_freq_ok_cases (load_frequency s.eeprom 0 m)
  have hv : 13999990 ≤ load_frequency s.eeprom 0 m ∧ load_frequency s.eeprom 0 m ≤ 14400000 := by
    unfold is_mem_freq_ok at h
    split_ifs at h with hc
    · exact ⟨hc.1, hc.2⟩
    · exact absurd rfl h
  have hw : wrap32 (load_frequency s.eeprom 0 m + INTERFREQUENCY)
      = load_frequency s.eeprom 0 m + INTERFREQUENCY := by
    unfold wrap32 INTERFREQUENCY; omega
  have hu : u32 (load_frequency s.eeprom 0 m + INTERFREQUENCY)
      = load_frequency s.eeprom 0 m + 9000000 := by
    unfold u32 INTERFREQUENCY; omega
  constructor
  · unfold scan_memories_visit
    simp only [h, ne_eq, not_false_eq_true, if_true, hw]
    rfl
  · show s.si5351 ++ si5351_set_freq SYNTH_MS_1 (u32 _) = _
    rw [hu]

/-! ## Memory scan: order of the visits and dwell time -/

theorem scan_dwell_suffix (thresh scan : Int) : ∀ (ps : List Poll) (holding : Bool)
    (sval key : Int) (s : State),
    (scan_dwell thresh scan holding sval key s ps).rest <:+ ps ∧
    ((scan_dwell thresh scan holding sval key s ps).done = false →
      (scan_dwell thresh scan holding sval key s ps).rest = []) := by
  intro ps
  induction ps with
  | nil =>
    intro holding sval key s
    simp only [scan_dwell]
    split_ifs <;> exact ⟨List.suffix_refl _, fun _ => rfl⟩
  | cons p ps ih =>
    intro holding sval key s
    simp only [scan_dwell]
    split_ifs
    · exact ⟨(ih _ _ _ _).1.trans (List.suffix_cons _ _), (ih _ _ _ _).2⟩
    · exact ⟨(ih _ _ _ _).1.trans (List.suffix_cons _ _), (ih _ _ _ _).2⟩
    · exact ⟨List.suffix_refl _, fun h => by simp at h⟩

theorem scan_memories_visit_frame (thresh m : Int) (s : State) (ps : List Poll) :
    (scan_memories_visit thresh m s ps).state.eeprom = s.eeprom ∧
    (scan_memories_visit thresh m s ps).state.si5351 = s.si5351 ++
      (if is_mem_freq_ok (load_frequency s.eeprom 0 m) ≠ 0 then
        si5351_set_freq SYNTH_MS_1 (load_frequency s.eeprom 0 m + 9000000) else []) ∧
    (scan_memories_visit thresh m s ps).rest <:+ ps ∧
    ((scan_memories_visit thresh m s ps).done = false →
      (scan_memories_visit thresh m s ps).rest = []) := by
  by_cases h : is_mem_freq_ok (load_frequency s.eeprom 0 m) = 0
  · rw [scan_memories_visit_invalid thresh m s ps h, if_neg (not_not.mpr h), List.append_nil]
    exact ⟨rfl, rfl, List.suffix_refl _, fun h => by simp at h⟩
  · obtain ⟨hv, hs⟩ := scan_memories_visit_valid thresh m s ps h
    rw [hv, if_pos h, (scan_dwell_frame _ _ _ _ _ _ _).1, (scan_dwell_frame _ _ _ _ _ _ _).2, hs]
    exact ⟨rfl, rfl, (scan_dwell_suffix _ _ _ _ _ _ _).1, (scan_dwell_suffix _ _ _ _ _ _ _).2⟩

theorem scan_memories_visit_keys_zero (thresh m : Int) (s : State) (ps : List Poll)
    (hk : ∀ p ∈ ps, p.key = 0) :
    (scan_memories_visit thresh m s ps).key = 0 ∧
    ∀ p ∈ (scan_memories_visit thresh m s ps).rest, p.key = 0 := by
  refine ⟨?_, fun p hp => hk p ((scan_memories_visit_frame thresh m s ps).2.2.1.subset hp)⟩
  by_cases h : is_mem_freq_ok (load_frequency s.eeprom 0 m) = 0
  · rw [scan_memories_visit_invalid thresh m s ps h]
  · rw [(scan_memories_visit_valid thresh m s ps h).1]
    exact scan_dwell_keys_zero _ _ _ _ _ _ hk

/-- The index after `m` in the scan is `m + 1` modulo 16. -/
theorem scan_order_succ (m : Int) (h0 : 0 ≤ m) (h1 : m ≤ 15) (n : Nat) :
    (List.range (n + 1)).map (fun i : Nat => (m + (i : Int)) % 16)
      = m :: (List.range n).map
          (fun i : Nat => ((if m < 15 then wrap16 (m + 1) else 0) + (i : Int)) % 16) := by
  rw [List.range_succ_eq_map, List.map_cons, List.map_map]
  congr 1
  · simp only [Nat.cast_zero, add_zero]
    omega
  · apply List.map_congr_left
    intro i _
    simp only [Function.comp, Nat.succ_eq_add_one, Nat.cast_add, Nat.cast_one]
    split_ifs
    · unfold wrap16; omega
    · omega

theorem scan_order_range (m : Int) (h0 : 0 ≤ m) (h1 : m ≤ 15) :
    0 ≤ (if m < 15 then wrap16 (m + 1) else 0) ∧ (if m < 15 then wrap16 (m + 1) else 0) ≤ 15 := by
  split_ifs
  · unfold wrap16; omega
  · omega

/-- What the loop of `scan_memories` has done when it stops: from index `m` it has
visited consecutive indices modulo 16, it has not touched the EEPROM, and it has
programmed the synthesizer once for each visited index whose slot is band-valid. -/
theorem scan_memories_loop_trace (thresh : Int) : ∀ (fuel : Nat) (m : Int) (vis : List Int)
    (s : State) (ps : List Poll), 0 ≤ m → m ≤ 15 →
    ∃ n : Nat, n ≤ fuel ∧
      (scan_memories_loop thresh fuel m vis s ps).visited
        = vis ++ (List.range n).map (fun i : Nat => (m + (i : Int)) % 16) ∧
      (scan_memories_loop thresh fuel m vis s ps).state.eeprom = s.eeprom ∧
      (scan_memories_loop thresh fuel m vis s ps).state.si5351 = s.si5351 ++
        (((List.range n).map (fun i : Nat => (m + (i : Int)) % 16)).filter
          (fun k => decide (is_mem_freq_ok (load_frequency s.eeprom 0 k) ≠ 0))).flatMap
          (fun k => si5351_set_freq SYNTH_MS_1 (load_frequency s.eeprom 0 k + 9000000)) := by
  intro fuel
  induction fuel with
  | zero =>
    intro m vis s ps _ _
    exact ⟨0, le_refl 0, by simp [scan_memories_loop], rfl, by simp [scan_memories_loop]⟩
  | succ fuel ih =>
    intro m vis s ps h0 h1
    obtain ⟨he, hs, _, _⟩ := scan_memories_visit_frame thresh m s ps
    have hm : (m + ((0 : Nat) : Int)) % 16 = m := by
      simp only [Nat.cast_zero, add_zero]; omega
    have hone : (List.range 1).map (fun i : Nat => (m + (i : Int)) % 16) = [m] := by
      simp only [List.range_succ_eq_map, List.range_zero, List.map_nil, List.map_cons, hm]
    have hw : ([m].filter
          (fun k => decide (is_mem_freq_ok (load_frequency s.eeprom 0 k) ≠ 0))).flatMap
          (fun k => si5351_set_freq SYNTH_MS_1 (load_frequency s.eeprom 0 k + 9000000))
        = (if is_mem_freq_ok (load_frequency s.eeprom 0 m) ≠ 0 then
            si5351_set_freq SYNTH_MS_1 (load_frequency s.eeprom 0 m + 9000000) else []) := by
      by_cases hv : is_mem_freq_ok (load_frequency s.eeprom 0 m) = 0
      · simp [List.filter_cons, hv]
      · simp [List.filter_cons, hv]
    simp only [scan_memories_loop]
    by_cases c1 : (scan_memories_visit thresh m s ps).done = false
    · rw [if_pos c1]
      exact ⟨1, by omega, by rw [hone], he, by rw [hone, hw]; exact hs⟩
    rw [if_neg c1]
    by_cases c2 : (scan_memories_visit thresh m s ps).key = 2
    · rw [if_pos c2]
      exact ⟨1, by omega, by rw [hone], he, by rw [hone, hw]; exact hs⟩
    rw [if_neg c2]
    by_cases c3 : (scan_memories_visit thresh m s ps).key ≠ 0
    · rw [if_pos c3]
      exact ⟨1, by omega, by rw [hone], he, by rw [hone, hw]; exact hs⟩
    rw [if_neg c3]
    · obtain ⟨hm0, hm1⟩ := scan_order_range m h0 h1
      obtain ⟨n, hn, hvis, hee, hsi⟩ := ih (if m < 15 then wrap16 (m + 1) else 0) (vis ++ [m])
        (scan_memories_visit thresh m s ps).state (scan_memories_visit thresh m s ps).rest hm0 hm1
      refine ⟨n + 1, by omega, ?_, ?_, ?_⟩
      · rw [hvis, scan_order_succ m h0 h1 n, List.append_assoc]
        rfl
      · rw [hee, he]
      · rw [hsi, he, hs, scan_order_succ m h0 h1 n, List.append_assoc]
        congr 1
        rw [← hw, ← List.flatMap_append, ← List.filter_append]
        rfl

/-- While no poll shows a key the loop of `scan_memories` does not return, and it
stops before the fuel is used up only when the polls are. -/
theorem scan_memories_loop_keys_zero (thresh : Int) : ∀ (fuel : Nat) (m : Int)
    (vis : List Int) (s : State) (ps : List Poll), (∀ p ∈ ps, p.key = 0) →
    (scan_memories_loop thresh fuel m vis s ps).result = none ∧
    ((scan_memories_loop thresh fuel m vis s ps).rest ≠ [] →
      (scan_memories_loop thresh fuel m vis s ps).visited.length = vis.length + fuel) := by
  intro fuel
  induction fuel with
  | zero =>
    intro m vis s ps _
    exact ⟨rfl, fun _ => rfl⟩
  | succ fuel ih =>
    intro m vis s ps hk
    obtain ⟨hk0, hkr⟩ := scan_memories_visit_keys_zero thresh m s ps hk
    obtain ⟨_, _, _, hd⟩ := scan_memories_visit_frame thresh m s ps
    simp only [scan_memories_loop]
    by_cases h1 : (scan_memories_visit thresh m s ps).done = false
    · rw [if_pos h1]
      exact ⟨rfl, fun hne => absurd (hd h1) hne⟩
    rw [if_neg h1, if_neg (by rw [hk0]; decide), if_neg (not_not.mpr hk0)]
    · obtain ⟨hr, hl⟩ := ih (if m < 15 then wrap16 (m + 1) else 0) (vis ++ [m])
        (scan_memories_visit thresh m s ps).state (scan_memories_visit thresh m s ps).rest hkr
      refine ⟨hr, fun hne => ?_⟩
      rw [hl hne, List.length_append, List.length_singleton]
      omega

/-- Dwell time with `thresh = 0` and no key, while `scan + 50` and the tick counter
stay inside the range of a `long`: the dwell is left at the first test that finds
the tick counter at `scan + 50` or more. -/
theorem scan_dwell_timing (scan : Int) (h0 : -2147483648 ≤ scan) (h1 : scan + 50 < 2147483648) :
    ∀ (ps : List Poll) (sval : Int) (s : State), (∀ p ∈ ps, p.key = 0) →
    scan ≤ s.runseconds10 →
    s.runseconds10 + (((ps.map Poll.ticks).sum : Nat) : Int) < 2147483648 →
    ∃ pre, ps = pre ++ (scan_dwell 0 scan false sval 0 s ps).rest ∧
      (scan_dwell 0 scan false sval 0 s ps).state.runseconds10
        = s.runseconds10 + (((pre.map Poll.ticks).sum : Nat) : Int) ∧
      ((scan_dwell 0 scan false sval 0 s ps).done = true →
        scan + 50 ≤ (scan_dwell 0 scan false sval 0 s ps).state.runseconds10) ∧
      ((scan_dwell 0 scan false sval 0 s ps).done = false →
        (scan_dwell 0 scan false sval 0 s ps).state.runseconds10 < scan + 50 ∧
        (scan_dwell 0 scan false sval 0 s ps).rest = []) ∧
      (pre ≠ [] →
        s.runseconds10 + (((pre.dropLast.map Poll.ticks).sum : Nat) : Int) < scan + 50) ∧
      ((∀ p ∈ ps, p.ticks ≤ 1) → s.runseconds10 ≤ scan + 50 →
        (scan_dwell 0 scan false sval 0 s ps).done = true →
        (scan_dwell 0 scan false sval 0 s ps).state.runseconds10 = scan + 50) := by
  have hw : wrap32 (scan + 50) = scan + 50 := by unfold wrap32; omega
  intro ps
  induction ps with
  | nil =>
    intro sval s _ hs _
    refine ⟨[], ?_⟩
    simp only [scan_dwell, hw, Bool.false_eq_true, false_and, false_or, and_true]
    split_ifs with hc
    · refine ⟨rfl, by simp, fun h => by simp at h,
        fun _ => ⟨by show s.runseconds10 < scan + 50; omega, rfl⟩,
        fun h => absurd rfl h, fun _ _ h => by simp at h⟩
    · refine ⟨rfl, by simp, fun _ => by show scan + 50 ≤ s.runseconds10; omega,
        fun h => by simp at h, fun h => absurd rfl h, fun _ hle _ => ?_⟩
      show s.runseconds10 = scan + 50
      omega
  | cons p ps ih =>
    intro sval s hk hs hb
    have hp : p.key = 0 := hk p (List.mem_cons_self _ _)
    have hps : ∀ q ∈ ps, q.key = 0 := fun q hq => hk q (List.mem_cons_of_mem _ hq)
    simp only [List.map_cons, List.sum_cons, Nat.cast_add] at hb
    have hi : (interrupts p s).runseconds10 = s.runseconds10 + p.ticks :=
      interrupts_runseconds10 p s (by omega) (by omega)
    have hd : decide ((0 : Int) ≠ 0) = false := by decide
    simp only [scan_dwell, hw, Bool.false_eq_true, false_and, if_false, and_true, hd]
    split_ifs with hc
    · obtain ⟨pre, hpre, hrun, hdone, hnot, hlast, hex⟩ :=
        ih p.sval (interrupts p s) hps (by rw [hi]; omega) (by rw [hi]; omega)
      rw [hp]
      refine ⟨p :: pre, by rw [List.cons_append, ← hpre], ?_, hdone, hnot, fun _ => ?_,
        fun ht _ hdn => ?_⟩
      · rw [hrun, hi]
        simp only [List.map_cons, List.sum_cons, Nat.cast_add]
        ring
      · by_cases hn : pre = []
        · subst hn
          simp only [List.dropLast_single, List.map_nil, List.sum_nil, Nat.cast_zero, add_zero]
          omega
        · rw [List.dropLast_cons_of_ne_nil hn]
          have := hlast hn
          rw [hi] at this
          simp only [List.map_cons, List.sum_cons, Nat.cast_add]
          omega
      · have htp : p.ticks ≤ 1 := ht p (List.mem_cons_self _ _)
        exact hex (fun q hq => ht q (List.mem_cons_of_mem _ hq)) (by rw [hi]; omega) hdn
    · refine ⟨[], rfl, by simp, fun _ => by show scan + 50 ≤ s.runseconds10; omega,
        fun h => by simp at h, fun h => absurd rfl h, fun _ hle _ => ?_⟩
      show s.runseconds10 = scan + 50
      omega

/-- C15 (as amended). Memory scan cycle with `thresh = 0` and no key in any poll:
`scan_memories` does not return; it stops short of the given number of loop passes
only when the polls are used up; it visits the indices 0, 1, ..., 15, 0, ... (the
`i`-th visit is index `i mod 16`, so the first 16 visits are the indices 0..15); it
leaves the EEPROM alone and programmes the synthesizer exactly once for each visit
of an index whose slot is band-valid, with slot frequency + 9000000; an invalid
index is passed without reading a poll; and at a band-valid index, as long as
`runseconds10 + 50` and the tick counter stay inside the range of a `long`, the
dwell is left at the first test that finds the tick counter 50 or more above its
value at the start of the dwell, which is exactly 50 above when no two ticks fall
between two tests. -/
theorem memory_scan_cycle (fuel : Nat) (s : State) (p : Poll) (ps : List Poll)
    (hp : p.key = 0) (hk : ∀ q ∈ ps, q.key = 0) :
    (scan_memories 0 fuel s (p :: ps)).result = none ∧
    ((scan_memories 0 fuel s (p :: ps)).rest ≠ [] →
      (scan_memories 0 fuel s (p :: ps)).visited.length = fuel) ∧
    (scan_memories 0 fuel s (p :: ps)).visited
      = (List.range (scan_memories 0 fuel s (p :: ps)).visited.length).map
          (fun i : Nat => (i : Int) % 16) ∧
    (16 ≤ (scan_memories 0 fuel s (p :: ps)).visited.length →
      (scan_memories 0 fuel s (p :: ps)).visited.take 16
        = [0, 1, 2, 3, 4, 5, 6, 7, 8, 9, 10, 11, 12, 13, 14, 15]) ∧
    (scan_memories 0 fuel s (p :: ps)).state.eeprom = s.eeprom ∧
    (scan_memories 0 fuel s (p :: ps)).state.si5351 = s.si5351 ++
      ((scan_memories 0 fuel s (p :: ps)).visited.filter
        (fun k => decide (is_mem_freq_ok (load_frequency s.eeprom 0 k) ≠ 0))).flatMap
        (fun k => si5351_set_freq SYNTH_MS_1 (load_frequency s.eeprom 0 k + 9000000)) ∧
    (∀ (m : Int) (s1 : State) (ps1 : List Poll),
      is_mem_freq_ok (load_frequency s1.eeprom 0 m) = 0 →
      scan_memories_visit 0 m s1 ps1 = { done := true, key := 0, state := s1, rest := ps1 }) ∧
    (∀ (m : Int) (s1 : State) (ps1 : List Poll),
      is_mem_freq_ok (load_frequency s1.eeprom 0 m) ≠ 0 → (∀ q ∈ ps1, q.key = 0) →
      -2147483648 ≤ s1.runseconds10 →
      s1.runseconds10 + 50 + (((ps1.map Poll.ticks).sum : Nat) : Int) < 2147483648 →
      ∃ pre, ps1 = pre ++ (scan_memories_visit 0 m s1 ps1).rest ∧
        (scan_memories_visit 0 m s1 ps1).state.runseconds10
          = s1.runseconds10 + (((pre.map Poll.ticks).sum : Nat) : Int) ∧
        ((scan_memories_visit 0 m s1 ps1).done = true →
          s1.runseconds10 + 50 ≤ (scan_memories_visit 0 m s1 ps1).state.runseconds10) ∧
        ((scan_memories_visit 0 m s1 ps1).done = false →
          (scan_memories_visit 0 m s1 ps1).state.runseconds10 < s1.runseconds10 + 50 ∧
          (scan_memories_visit 0 m s1 ps1).rest = []) ∧
        (pre ≠ [] → (((pre.dropLast.map Poll.ticks).sum : Nat) : Int) < 50) ∧
        ((∀ q ∈ ps1, q.ticks ≤ 1) → (scan_memories_visit 0 m s1 ps1).done = true →
          (scan_memories_visit 0 m s1 ps1).state.runseconds10 = s1.runseconds10 + 50)) := by
  have hscan : scan_memories 0 fuel s (p :: ps)
      = scan_memories_loop 0 fuel 0 [] (interrupts p s) ps := by
    simp only [scan_memories, wait_no_key, hp, ne_eq, not_true_eq_false, if_false]
  obtain ⟨n, _, hvis, hee, hsi⟩ :=
    scan_memories_loop_trace 0 fuel 0 [] (interrupts p s) ps (le_refl 0) (by decide)
  obtain ⟨hres, hlen⟩ := scan_memories_loop_keys_zero 0 fuel 0 [] (interrupts p s) ps hk
  have hf : (fun i : Nat => ((0 : Int) + (i : Int)) % 16) = (fun i : Nat => (i : Int) % 16) := by
    funext i; rw [zero_add]
  rw [List.nil_append, hf] at hvis
  rw [hf, (interrupts_frame p s).1, (interrupts_frame p s).2.1, ← hvis] at hsi
  have hn : (scan_memories_loop 0 fuel 0 [] (interrupts p s) ps).visited.length = n := by
    rw [hvis, List.length_map, List.length_range]
  rw [hscan]
  refine ⟨hres, fun hne => ?_, ?_, fun h16 => ?_, ?_, hsi, ?_, ?_⟩
  · rw [hlen hne, List.length_nil, zero_add]
  · rw [hn]; exact hvis
  · rw [hn] at h16
    rw [hvis, ← List.map_take, List.take_range, Nat.min_eq_left h16]
    decide
  · rw [hee, (interrupts_frame p s).1]
  · intro m s1 ps1 hinv
    exact scan_memories_visit_invalid 0 m s1 ps1 hinv
  · intro m s1 ps1 hval hk1 hr0 hr1
    obtain ⟨pre, hpre, hrun, hdone, hnot, hlast, hex⟩ :=
      scan_dwell_timing s1.runseconds10 hr0 (by omega) ps1 0
        (set_vfo_frequency s1 (load_frequency s1.eeprom 0 m + INTERFREQUENCY)) hk1
        (le_refl _) (by show s1.runseconds10 + _ < _; omega)
    rw [(scan_memories_visit_valid 0 m s1 ps1 hval).1]
    refine ⟨pre, hpre, hrun, hdone, hnot, fun hne => ?_, fun ht hd => hex ht ?_ hd⟩
    · have := hlast hne
      have hrs : (set_vfo_frequency s1 (load_frequency s1.eeprom 0 m + INTERFREQUENCY)).runseconds10
          = s1.runseconds10 := rfl
      rw [hrs] at this
      omega
    · show s1.runseconds10 ≤ s1.runseconds10 + 50
      omega

theorem memory_scan_cycle_witness :
    (scan_memories 0 16 (main_init only5) (idle :: (List.replicate 50 tick ++ [idle]))).visited
      = [0, 1, 2, 3, 4, 5, 6, 7, 8, 9, 10, 11, 12, 13, 14, 15] ∧
    (scan_memories 0 16 (main_init only5) (idle :: (List.replicate 50 tick ++ [idle]))).state.si5351
      = (main_init only5).si5351 ++ si5351_set_freq SYNTH_MS_1 23200000 ∧
    (scan_memories 0 16 (main_init only5)
      (idle :: (List.replicate 50 tick ++ [idle]))).state.runseconds10 = 50 ∧
    (scan_memories 0 16 (main_init only5) (idle :: (List.replicate 50 tick ++ [idle]))).rest
      = [idle] := by
  have h := memory_scan_cycle 16 (main_init only5) idle (List.replicate 50 tick ++ [idle]) rfl
    (by decide)
  have hrest : (scan_memories 0 16 (main_init only5)
      (idle :: (List.replicate 50 tick ++ [idle]))).rest = [idle] := by decide
  have hlen := h.2.1 (by rw [hrest]; decide)
  have hvis := h.2.2.1
  rw [hlen] at hvis
  have hvis16 : (scan_memories 0 16 (main_init only5)
      (idle :: (List.replicate 50 tick ++ [idle]))).visited
      = [0, 1, 2, 3, 4, 5, 6, 7, 8, 9, 10, 11, 12, 13, 14, 15] := by
    rw [hvis]; decide
  have hsi := h.2.2.2.2.2.1
  rw [hvis16] at hsi
  have hfil : ([0, 1, 2, 3, 4, 5, 6, 7, 8, 9, 10, 11, 12, 13, 14, 15] : List Int).filter
      (fun k => decide (is_mem_freq_ok (load_frequency (main_init only5).eeprom 0 k) ≠ 0))
      = [5] := by decide
  have hfive : load_frequency (main_init only5).eeprom 0 5 + 9000000 = 23200000 := by decide
  rw [hfil, List.flatMap_cons, List.flatMap_nil, List.append_nil, hfive] at hsi
  exact ⟨hvis16, hsi, by decide, hrest⟩

/-- Two dwells that do not last 50 ticks.  When the 50th tick and the 51st fall
between the same two tests of the dwell loop, index 5 is left with the tick counter
51 above its value at the start of the dwell.  When `runseconds10 + 50` exceeds the
range of a `long` (here `runseconds10 = 2147483640`), the dwell at index 5 is left
at its first test, without a poll being read and with the tick counter unchanged;
the scan goes on through index 15 in both cases. -/
theorem memory_scan_dwell_not_50 :
    (scan_memories 0 16 (main_init only5)
      (idle :: (List.replicate 49 tick ++
        [{ ticks := 2, knob := 0, key := 0, sval := 0 }, idle]))).state.runseconds10 = 51 ∧
    (scan_memories 0 16 (main_init only5)
      (idle :: (List.replicate 49 tick ++
        [{ ticks := 2, knob := 0, key := 0, sval := 0 }, idle]))).visited
      = [0, 1, 2, 3, 4, 5, 6, 7, 8, 9, 10, 11, 12, 13, 14, 15] ∧
    is_mem_freq_ok (load_frequency (main_init only5).eeprom 0 5) = 1 ∧
    (scan_memories 0 16 { main_init only5 with runseconds10 := 2147483640 }
      [idle, tick]).visited = [0, 1, 2, 3, 4, 5, 6, 7, 8, 9, 10, 11, 12, 13, 14, 15] ∧
    (scan_memories 0 16 { main_init only5 with runseconds10 := 2147483640 }
      [idle, tick]).rest = [tick] ∧
    (scan_memories 0 16 { main_init only5 with runseconds10 := 2147483640 }
      [idle, tick]).state.runseconds10 = 2147483640 := by
  decide

/-! ## Memory scan: the value returned -/

theorem wait_no_key_frame : ∀ (ps : List Poll) (s : State),
    (wait_no_key s ps).2.1.eeprom = s.eeprom ∧ (wait_no_key s ps).2.1.si5351 = s.si5351 := by
  intro ps
  induction ps with
  | nil => intro s; exact ⟨rfl, rfl⟩
  | cons p ps ih =>
    intro s
    simp only [wait_no_key]
    split_ifs
    · rw [(ih _).1, (ih _).2]
      exact ⟨(interrupts_frame p s).1, (interrupts_frame p s).2.1⟩
    · exact ⟨(interrupts_frame p s).1, (interrupts_frame p s).2.1⟩

/-- A list of polls either shows no key at all or splits at the first poll that
shows one. -/
theorem first_key_split : ∀ ps : List Poll,
    (∀ p ∈ ps, p.key = 0) ∨
    ∃ pre q post, ps = pre ++ q :: post ∧ (∀ p ∈ pre, p.key = 0) ∧ q.key ≠ 0 := by
  intro ps
  induction ps with
  | nil => left; intro p hp; cases hp
  | cons a ps ih =>
    by_cases ha : a.key = 0
    · rcases ih with h | ⟨pre, q, post, he, hz, hq⟩
      · left
        intro p hp
        rcases List.mem_cons.mp hp with rfl | hp
        · exact ha
        · exact h p hp
      · right
        refine ⟨a :: pre, q, post, by rw [he]; rfl, ?_, hq⟩
        intro p hp
        rcases List.mem_cons.mp hp with rfl | hp
        · exact ha
        · exact hz p hp
    · right
      exact ⟨[], a, ps, rfl, fun p hp => absurd hp (List.not_mem_nil p), ha⟩

theorem scan_memories_visit_first_key (thresh m : Int) (s : State) (pre : List Poll)
    (q : Poll) (post : List Poll) (hz : ∀ p ∈ pre, p.key = 0) (hq : q.key ≠ 0) :
    ((scan_memories_visit thresh m s (pre ++ q :: post)).done = true ∧
      (scan_memories_visit thresh m s (pre ++ q :: post)).key = 0 ∧
      ∃ pre1 pre2, pre = pre1 ++ pre2 ∧
        (scan_memories_visit thresh m s (pre ++ q :: post)).rest = pre2 ++ q :: post) ∨
    (is_mem_freq_ok (load_frequency s.eeprom 0 m) ≠ 0 ∧
      (scan_memories_visit thresh m s (pre ++ q :: post)).done = true ∧
      (scan_memories_visit thresh m s (pre ++ q :: post)).key = q.key ∧
      (scan_memories_visit thresh m s (pre ++ q :: post)).rest = post) := by
  by_cases h : is_mem_freq_ok (load_frequency s.eeprom 0 m) = 0
  · left
    rw [scan_memories_visit_invalid thresh m s _ h]
    exact ⟨rfl, rfl, [], pre, rfl, rfl⟩
  · rw [(scan_memories_visit_valid thresh m s _ h).1]
    rcases scan_dwell_first_key thresh s.runseconds10 q post hq pre false 0
      (set_vfo_frequency s (load_frequency s.eeprom 0 m + INTERFREQUENCY)) hz with h1 | h2
    · left; exact h1
    · right; exact ⟨h, h2⟩

/-- The loop of `scan_memories` on polls whose first key is shown by `q`: either
the loop has stopped before `q` was read, without a value, or it has returned on
reading `q`, from a band-valid index, with that index for key 2 and -1 otherwise. -/
theorem scan_memories_loop_first_key (thresh : Int) (q : Poll) (post : List Poll)
    (hq : q.key ≠ 0) : ∀ (fuel : Nat) (m : Int) (vis : List Int) (s : State)
    (pre : List Poll), 0 ≤ m → m ≤ 15 → (∀ p ∈ pre, p.key = 0) →
    ((scan_memories_loop thresh fuel m vis s (pre ++ q :: post)).result = none ∧
      ∃ pre1 pre2, pre = pre1 ++ pre2 ∧
        (scan_memories_loop thresh fuel m vis s (pre ++ q :: post)).rest = pre2 ++ q :: post) ∨
    ((scan_memories_loop thresh fuel m vis s (pre ++ q :: post)).rest = post ∧
      ∃ vis1 m1, (scan_memories_loop thresh fuel m vis s (pre ++ q :: post)).visited
          = vis1 ++ [m1] ∧ 0 ≤ m1 ∧ m1 ≤ 15 ∧
        is_mem_freq_ok (load_frequency s.eeprom 0 m1) ≠ 0 ∧
        (scan_memories_loop thresh fuel m vis s (pre ++ q :: post)).result
          = some (if q.key = 2 then m1 else -1)) := by
  intro fuel
  induction fuel with
  | zero =>
    intro m vis s pre _ _ _
    left
    exact ⟨rfl, [], pre, rfl, rfl⟩
  | succ fuel ih =>
    intro m vis s pre h0 h1 hz
    obtain ⟨he, _, _, _⟩ := scan_memories_visit_frame thresh m s (pre ++ q :: post)
    simp only [scan_memories_loop]
    rcases scan_memories_visit_first_key thresh m s pre q post hz hq with
      ⟨hd, hk, pre1, pre2, hpre, hrest⟩ | ⟨hv, hd, hk, hrest⟩
    · rw [if_neg (by rw [hd]; decide), if_neg (by rw [hk]; decide), if_neg (not_not.mpr hk),
        hrest]
      obtain ⟨hm0, hm1⟩ := scan_order_range m h0 h1
      have hz2 : ∀ p ∈ pre2, p.key = 0 := fun p hp =>
        hz p (by rw [hpre]; exact List.mem_append_right _ hp)
      rcases ih (if m < 15 then wrap16 (m + 1) else 0) (vis ++ [m])
        (scan_memories_visit thresh m s (pre ++ q :: post)).state pre2 hm0 hm1 hz2 with
        ⟨hr, a, b, hab, hr2⟩ | ⟨hr, vis1, m1, hvis, hm10, hm11, hval, hres⟩
      · left
        exact ⟨hr, pre1 ++ a, b, by rw [hpre, hab, List.append_assoc], hr2⟩
      · right
        rw [he] at hval
        exact ⟨hr, vis1, m1, hvis, hm10, hm11, hval, hres⟩
    · right
      rw [if_neg (by rw [hd]; decide)]
      by_cases h2 : q.key = 2
      · rw [if_pos (by rw [hk]; exact h2)]
        exact ⟨hrest, vis, m, rfl, h0, h1, hv, by rw [if_pos h2]⟩
      · rw [if_neg (by rw [hk]; exact h2), if_pos (by rw [hk]; exact hq)]
        exact ⟨hrest, vis, m, rfl, h0, h1, hv, by rw [if_neg h2]⟩

/-- C16. Memory scan result, for the polls `ps1` that follow the release wait at the
start of `scan_memories`.  Every return of `scan_memories` happens on reading the
first poll `q` that shows a key: the polls after `q` are left unread, the index `m`
visited last (the one being dwelt on) is in 0..15 and its slot is band-valid, and
the value is `m` for key 2 and -1 for every other key.  Conversely, as soon as the
first poll that shows a key has been read, `scan_memories` has returned, with no
poll read after it and no index visited after the one being dwelt on. -/
theorem memory_scan_result (thresh : Int) (fuel : Nat) (s s1 : State) (ps ps1 : List Poll)
    (hw : wait_no_key s ps = (true, s1, ps1)) :
    (∀ r, (scan_memories thresh fuel s ps).result = some r →
      ∃ pre q vis m, ps1 = pre ++ q :: (scan_memories thresh fuel s ps).rest ∧
        (∀ p ∈ pre, p.key = 0) ∧ q.key ≠ 0 ∧
        (scan_memories thresh fuel s ps).visited = vis ++ [m] ∧ 0 ≤ m ∧ m ≤ 15 ∧
        is_mem_freq_ok (load_frequency s.eeprom 0 m) = 1 ∧
        (q.key = 2 → r = m) ∧ (q.key ≠ 2 → r = -1)) ∧
    (∀ pre q post, ps1 = pre ++ q :: post → (∀ p ∈ pre, p.key = 0) → q.key ≠ 0 →
      (scan_memories thresh fuel s ps).rest.length ≤ post.length →
      (scan_memories thresh fuel s ps).rest = post ∧
      ∃ vis m, (scan_memories thresh fuel s ps).visited = vis ++ [m] ∧ 0 ≤ m ∧ m ≤ 15 ∧
        is_mem_freq_ok (load_frequency s.eeprom 0 m) = 1 ∧
        (scan_memories thresh fuel s ps).result = some (if q.key = 2 then m else -1)) := by
  have hscan : scan_memories thresh fuel s ps = scan_memories_loop thresh fuel 0 [] s1 ps1 := by
    simp only [scan_memories, hw]
  have hee : s1.eeprom = s.eeprom := by
    have := (wait_no_key_frame ps s).1
    rw [hw] at this
    exact this
  have hone : ∀ f, is_mem_freq_ok f ≠ 0 → is_mem_freq_ok f = 1 := by
    intro f hf
    rcases is_mem_freq_ok_cases f with h | h
    · exact h.1
    · exact absurd h.1 hf
  rw [hscan]
  constructor
  · intro r hr
    rcases first_key_split ps1 with hz | ⟨pre, q, post, he, hz, hq⟩
    · rw [(scan_memories_loop_keys_zero thresh fuel 0 [] s1 ps1 hz).1] at hr
      cases hr
    · subst he
      rcases scan_memories_loop_first_key thresh q post hq fuel 0 [] s1 pre (le_refl 0)
        (by decide) hz with ⟨hn, _⟩ | ⟨hrest, vis, m, hvis, hm0, hm1, hval, hres⟩
      · rw [hn] at hr; cases hr
      · rw [hres] at hr
        have hrm : r = if q.key = 2 then m else -1 := (Option.some.inj hr).symm
        rw [hee] at hval
        refine ⟨pre, q, vis, m, by rw [hrest], hz, hq, hvis, hm0, hm1, hone _ hval, ?_, ?_⟩
        · intro h2; rw [hrm, if_pos h2]
        · intro h2; rw [hrm, if_neg h2]
  · intro pre q post he hz hq hlen
    subst he
    rcases scan_memories_loop_first_key thresh q post hq fuel 0 [] s1 pre (le_refl 0)
      (by decide) hz with ⟨_, pre1, pre2, _, hrest⟩ | ⟨hrest, vis, m, hvis, hm0, hm1, hval, hres⟩
    · rw [hrest, List.length_append, List.length_cons] at hlen
      omega
    · rw [hee] at hval
      exact ⟨hrest, vis, m, hvis, hm0, hm1, hone _ hval, hres⟩

theorem memory_scan_result_witness :
    (scan_memories 0 16 (main_init only5) [idle, tick, tick, press 2, tick]).result = some 5 ∧
    (scan_memories 0 16 (main_init only5) [idle, tick, tick, press 2, tick]).rest = [tick] ∧
    (scan_memories 0 16 (main_init only5) [idle, tick, tick, press 1, tick]).result
      = some (-1) ∧
    (scan_memories 0 16 (main_init only5) [idle, tick, tick, press 1, tick]).visited
      = [0, 1, 2, 3, 4, 5] := by
  have hr2 : (scan_memories 0 16 (main_init only5) [idle, tick, tick, press 2, tick]).rest
      = [tick] := by decide
  have hr1 : (scan_memories 0 16 (main_init only5) [idle, tick, tick, press 1, tick]).rest
      = [tick] := by decide
  have h2 := (memory_scan_result 0 16 (main_init only5) (interrupts idle (main_init only5))
    [idle, tick, tick, press 2, tick] [tick, tick, press 2, tick]
    (by rw [wait_no_key]; exact if_neg (by decide))).2
    [tick, tick] (press 2) [tick] rfl (by decide) (by decide) (by rw [hr2])
  have h1 := (memory_scan_result 0 16 (main_init only5) (interrupts idle (main_init only5))
    [idle, tick, tick, press 1, tick] [tick, tick, press 1, tick]
    (by rw [wait_no_key]; exact if_neg (by decide))).2
    [tick, tick] (press 1) [tick] rfl (by decide) (by decide) (by rw [hr1])
  obtain ⟨vis, m, hv, _, _, _, hres⟩ := h1.2
  rw [if_neg (by decide)] at hres
  exact ⟨by decide, h2.1, hres, by decide⟩

/-! ## Threshold hold -/

/-- Inside the inner loop of a dwell, polls that all show a signal above `thresh`
and no key never end the loop. -/
theorem scan_dwell_hold (thresh scan : Int) : ∀ (ps : List Poll) (sval : Int) (s : State),
    sval > thresh → (∀ p ∈ ps, p.sval > thresh ∧ p.key = 0) →
    (scan_dwell thresh scan true sval 0 s ps).done = false ∧
    (scan_dwell thresh scan true sval 0 s ps).rest = [] ∧
    (scan_dwell thresh scan true sval 0 s ps).state
      = ps.foldl (fun t p => interrupts p t) s := by
  intro ps
  induction ps with
  | nil =>
    intro sval s hs _
    simp only [scan_dwell, hs, and_self, true_or, if_true, List.foldl_nil]
  | cons p ps ih =>
    intro sval s hs hp
    have hp0 := hp p (List.mem_cons_self _ _)
    simp only [scan_dwell, hs, and_self, if_true, hp0.2, List.foldl_cons]
    exact ih p.sval (interrupts p s) hp0.1 (fun q hq => hp q (List.mem_cons_of_mem _ hq))

/-- Once the test of the inner loop fails, control is in the outer loop of the
dwell. -/
theorem scan_dwell_release (thresh scan : Int) (ps : List Poll) (sval key : Int) (s : State)
    (h : sval ≤ thresh ∨ key ≠ 0) :
    scan_dwell thresh scan true sval key s ps = scan_dwell thresh scan false sval key s ps := by
  have hn : ¬ (sval > thresh ∧ key = 0) := by
    rintro ⟨h1, h2⟩
    rcases h with h | h
    · omega
    · exact h h2
  cases ps with
  | nil => simp only [scan_dwell, hn, and_false, Bool.false_eq_true, false_and, true_and]
  | cons p ps => simp only [scan_dwell, hn, and_false, Bool.false_eq_true, false_and, true_and]

/-- The inner loop of a dwell runs up to the first poll that shows a signal at or
below `thresh`, or a key. -/
theorem scan_dwell_hold_until (thresh scan : Int) (q : Poll) (post : List Poll) :
    ∀ (ps : List Poll) (sval : Int) (s : State),
    sval > thresh → (∀ p ∈ ps, p.sval > thresh ∧ p.key = 0) →
    scan_dwell thresh scan true sval 0 s (ps ++ q :: post)
      = scan_dwell thresh scan true q.sval q.key
          (interrupts q (ps.foldl (fun t p => interrupts p t) s)) post := by
  intro ps
  induction ps with
  | nil =>
    intro sval s hs _
    simp only [List.nil_append, scan_dwell, hs, and_self, if_true, List.foldl_nil]
  | cons p ps ih =>
    intro sval s hs hp
    have hp0 := hp p (List.mem_cons_self _ _)
    simp only [List.cons_append, scan_dwell, hs, and_self, if_true, List.foldl_cons]
    rw [hp0.2]
    exact ih p.sval (interrupts p s) hp0.1 (fun r hr => hp r (List.mem_cons_of_mem _ hr))

theorem foldl_interrupts_frame : ∀ (ps : List Poll) (s : State),
    (ps.foldl (fun t p => interrupts p t) s).eeprom = s.eeprom ∧
    (ps.foldl (fun t p => interrupts p t) s).si5351 = s.si5351 := by
  intro ps
  induction ps with
  | nil => intro s; exact ⟨rfl, rfl⟩
  | cons p ps ih =>
    intro s
    rw [List.foldl_cons, (ih _).1, (ih _).2]
    exact ⟨(interrupts_frame p s).1, (interrupts_frame p s).2.1⟩

/-- Inside the inner loop of a step of the VFO scan, polls that all show a signal
above `thresh` and no key never end the loop. -/
theorem scan_vfo_for_hold (thresh f1 f_tmp : Int) (vis : List Int) :
    ∀ (ps : List Poll) (sval : Int) (s : State),
    sval > thresh → (∀ p ∈ ps, p.sval > thresh ∧ p.key = 0) →
    scan_vfo_for thresh f1 Phase.hold f_tmp sval 0 vis s ps
      = { ret := none, done := false, key := 0, visited := vis,
          state := ps.foldl (fun t p => interrupts p t) s, rest := [] } := by
  intro ps
  induction ps with
  | nil =>
    intro sval s _ _
    simp only [scan_vfo_for, List.foldl_nil]
  | cons p ps ih =>
    intro sval s hs hp
    have hp0 := hp p (List.mem_cons_self _ _)
    simp only [scan_vfo_for, hs, and_self, if_true, List.foldl_cons]
    rw [hp0.2]
    exact ih p.sval (interrupts p s) hp0.1 (fun r hr => hp r (List.mem_cons_of_mem _ hr))

theorem scan_vfo_for_hold_until (thresh f1 f_tmp : Int) (vis : List Int) (q : Poll)
    (post : List Poll) : ∀ (ps : List Poll) (sval : Int) (s : State),
    sval > thresh → (∀ p ∈ ps, p.sval > thresh ∧ p.key = 0) →
    scan_vfo_for thresh f1 Phase.hold f_tmp sval 0 vis s (ps ++ q :: post)
      = scan_vfo_for thresh f1 Phase.hold f_tmp q.sval q.key vis
          (interrupts q (ps.foldl (fun t p => interrupts p t) s)) post := by
  intro ps
  induction ps with
  | nil =>
    intro sval s hs _
    simp only [List.nil_append, scan_vfo_for, hs, and_self, if_true, List.foldl_nil]
  | cons p ps ih =>
    intro sval s hs hp
    have hp0 := hp p (List.mem_cons_self _ _)
    simp only [List.cons_append, scan_vfo_for, hs, and_self, if_true, List.foldl_cons]
    rw [hp0.2]
    exact ih p.sval (interrupts p s) hp0.1 (fun r hr => hp r (List.mem_cons_of_mem _ hr))

/-- With `thresh = 0` a dwell does not depend on the signal samples: two runs on
polls that agree in ticks, knob and key end alike. -/
theorem scan_dwell_no_hold (scan : Int) : ∀ (ps1 ps2 : List Poll),
    List.Forall₂ (fun a b : Poll => a.ticks = b.ticks ∧ a.knob = b.knob ∧ a.key = b.key)
      ps1 ps2 →
    ∀ (sv1 sv2 key : Int) (s : State),
    (scan_dwell 0 scan false sv1 key s ps1).done = (scan_dwell 0 scan false sv2 key s ps2).done ∧
    (scan_dwell 0 scan false sv1 key s ps1).key = (scan_dwell 0 scan false sv2 key s ps2).key ∧
    (scan_dwell 0 scan false sv1 key s ps1).state
      = (scan_dwell 0 scan false sv2 key s ps2).state ∧
    (scan_dwell 0 scan false sv1 key s ps1).rest.length
      = (scan_dwell 0 scan false sv2 key s ps2).rest.length := by
  have hd : decide ((0 : Int) ≠ 0) = false := by decide
  intro ps1
  induction ps1 with
  | nil =>
    intro ps2 h sv1 sv2 key s
    cases h
    simp only [scan_dwell, Bool.false_eq_true, false_and, false_or, and_self]
  | cons a l1 ih =>
    intro ps2 h sv1 sv2 key s
    cases h with
    | cons hab hl =>
      rename_i b l2
      have hi : interrupts a s = interrupts b s := by
        unfold interrupts
        rw [hab.1, hab.2.1]
      simp only [scan_dwell, Bool.false_eq_true, false_and, if_false, hd]
      split_ifs
      · rw [hi, hab.2.2]
        exact ih l2 hl a.sval b.sval b.key (interrupts b s)
      · refine ⟨rfl, rfl, rfl, ?_⟩
        simp only [List.length_cons]
        rw [List.Forall₂.length_eq hl]

/-- Once the test of the inner loop of a step of the VFO scan fails, control is at
`key = get_keys()`. -/
theorem scan_vfo_for_release (thresh f1 f_tmp : Int) (vis : List Int) (ps : List Poll)
    (sval key : Int) (s : State) (h : sval ≤ thresh ∨ key ≠ 0) :
    scan_vfo_for thresh f1 Phase.hold f_tmp sval key vis s ps
      = scan_vfo_for thresh f1 Phase.key f_tmp sval key vis s ps := by
  have hn : ¬ (sval > thresh ∧ key = 0) := by
    rintro ⟨h1, h2⟩
    rcases h with h | h
    · omega
    · exact h h2
  cases ps with
  | nil => simp only [scan_vfo_for]
  | cons p ps => simp only [scan_vfo_for, hn, if_false]

/-- With `thresh = 0` the `for` loop of the VFO scan does not depend on the signal
samples: two runs on polls that agree in ticks, knob and key end alike. -/
theorem scan_vfo_for_no_hold (f1 : Int) : ∀ (ps1 ps2 : List Poll),
    List.Forall₂ (fun a b : Poll => a.ticks = b.ticks ∧ a.knob = b.knob ∧ a.key = b.key)
      ps1 ps2 →
    ∀ (ph : Phase) (f_tmp sv1 sv2 key : Int) (vis : List Int) (s : State), ph ≠ Phase.hold →
    (scan_vfo_for 0 f1 ph f_tmp sv1 key vis s ps1).ret
      = (scan_vfo_for 0 f1 ph f_tmp sv2 key vis s ps2).ret ∧
    (scan_vfo_for 0 f1 ph f_tmp sv1 key vis s ps1).done
      = (scan_vfo_for 0 f1 ph f_tmp sv2 key vis s ps2).done ∧
    (scan_vfo_for 0 f1 ph f_tmp sv1 key vis s ps1).key
      = (scan_vfo_for 0 f1 ph f_tmp sv2 key vis s ps2).key ∧
    (scan_vfo_for 0 f1 ph f_tmp sv1 key vis s ps1).visited
      = (scan_vfo_for 0 f1 ph f_tmp sv2 key vis s ps2).visited ∧
    (scan_vfo_for 0 f1 ph f_tmp sv1 key vis s ps1).state
      = (scan_vfo_for 0 f1 ph f_tmp sv2 key vis s ps2).state ∧
    (scan_vfo_for 0 f1 ph f_tmp sv1 key vis s ps1).rest.length
      = (scan_vfo_for 0 f1 ph f_tmp sv2 key vis s ps2).rest.length := by
  have hz : ¬ ((0 : Int) ≠ 0) := by decide
  intro ps1
  induction ps1 with
  | nil =>
    intro ps2 h ph f_tmp sv1 sv2 key vis s hph
    cases h
    cases ph with
    | tune => simp only [scan_vfo_for, and_self]
    | hold => exact absurd rfl hph
    | key => simp only [scan_vfo_for, and_self]
  | cons a l1 ih =>
    intro ps2 h ph f_tmp sv1 sv2 key vis s hph
    cases h with
    | cons hab hl =>
      rename_i b l2
      have hi : ∀ t, interrupts a t = interrupts b t := by
        intro t
        unfold interrupts
        rw [hab.1, hab.2.1]
      cases ph with
      | tune =>
        simp only [scan_vfo_for, hz, if_false]
        split_ifs
        · rw [hi]
          exact ih l2 hl Phase.key f_tmp a.sval b.sval key _ _ (by simp)
        · refine ⟨rfl, rfl, rfl, rfl, rfl, ?_⟩
          simp only [List.length_cons]
          rw [List.Forall₂.length_eq hl]
      | hold => exact absurd rfl hph
      | key =>
        simp only [scan_vfo_for]
        rw [hab.2.2, hi]
        split_ifs
        · exact ⟨rfl, rfl, rfl, rfl, rfl, List.Forall₂.length_eq hl⟩
        · exact ih l2 hl Phase.tune _ sv1 sv2 b.key vis _ (by simp)

/-- C18. Threshold hold, for `thresh > 0`, a most recent signal sample above `thresh`,
no key sampled, and polls that all show a signal above `thresh` and no key, with any
number of ticks between them.  The inner loop of the dwell of `scan_memories` and the
inner loop of a step of `scan_vfo` never end: no further index or frequency is
visited and the synthesizer is not programmed again; a scan that comes to a
band-valid index, resp. to a frequency below the end bound, stays there.  The hold
ends with the first poll that shows a signal at or below `thresh` or a key, after
which control is back in the outer dwell loop, resp. at `key = get_keys()`.  With
`thresh = 0` neither scan depends on the signal samples. -/
theorem threshold_hold (thresh scan f1 f_tmp sval : Int) (vis : List Int) (s : State)
    (ps : List Poll) (ht : thresh > 0) (hs : sval > thresh)
    (hp : ∀ p ∈ ps, p.sval > thresh ∧ p.key = 0) :
    ((scan_dwell thresh scan true sval 0 s ps).done = false ∧
      (scan_dwell thresh scan true sval 0 s ps).rest = [] ∧
      (scan_dwell thresh scan true sval 0 s ps).state.si5351 = s.si5351) ∧
    ((scan_vfo_for thresh f1 Phase.hold f_tmp sval 0 vis s ps).ret = none ∧
      (scan_vfo_for thresh f1 Phase.hold f_tmp sval 0 vis s ps).done = false ∧
      (scan_vfo_for thresh f1 Phase.hold f_tmp sval 0 vis s ps).visited = vis ∧
      (scan_vfo_for thresh f1 Phase.hold f_tmp sval 0 vis s ps).rest = [] ∧
      (scan_vfo_for thresh f1 Phase.hold f_tmp sval 0 vis s ps).state.si5351 = s.si5351) ∧
    (∀ (m : Int) (fuel : Nat), is_mem_freq_ok (load_frequency s.eeprom 0 m) ≠ 0 →
      -2147483648 ≤ s.runseconds10 → s.runseconds10 + 50 < 2147483648 →
      (scan_memories_loop thresh (fuel + 1) m vis s ps).result = none ∧
      (scan_memories_loop thresh (fuel + 1) m vis s ps).visited = vis ++ [m] ∧
      (scan_memories_loop thresh (fuel + 1) m vis s ps).rest = []) ∧
    (f_tmp < f1 →
      (scan_vfo_for thresh f1 Phase.tune f_tmp sval 0 vis s ps).ret = none ∧
      (scan_vfo_for thresh f1 Phase.tune f_tmp sval 0 vis s ps).done = false ∧
      (scan_vfo_for thresh f1 Phase.tune f_tmp sval 0 vis s ps).visited = vis ++ [f_tmp] ∧
      (scan_vfo_for thresh f1 Phase.tune f_tmp sval 0 vis s ps).rest = []) ∧
    (∀ (q : Poll) (post : List Poll), q.sval ≤ thresh ∨ q.key ≠ 0 →
      scan_dwell thresh scan true sval 0 s (ps ++ q :: post)
        = scan_dwell thresh scan false q.sval q.key
            (interrupts q (ps.foldl (fun t p => interrupts p t) s)) post ∧
      scan_vfo_for thresh f1 Phase.hold f_tmp sval 0 vis s (ps ++ q :: post)
        = scan_vfo_for thresh f1 Phase.key f_tmp q.sval q.key vis
            (interrupts q (ps.foldl (fun t p => interrupts p t) s)) post) ∧
    (∀ (ps1 ps2 : List Poll) (sv1 sv2 key : Int) (s0 : State),
      List.Forall₂ (fun a b : Poll => a.ticks = b.ticks ∧ a.knob = b.knob ∧ a.key = b.key)
        ps1 ps2 →
      ((scan_dwell 0 scan false sv1 key s0 ps1).done
          = (scan_dwell 0 scan false sv2 key s0 ps2).done ∧
        (scan_dwell 0 scan false sv1 key s0 ps1).key
          = (scan_dwell 0 scan false sv2 key s0 ps2).key ∧
        (scan_dwell 0 scan false sv1 key s0 ps1).state
          = (scan_dwell 0 scan false sv2 key s0 ps2).state ∧
        (scan_dwell 0 scan false sv1 key s0 ps1).rest.length
          = (scan_dwell 0 scan false sv2 key s0 ps2).rest.length) ∧
      ((scan_vfo_for 0 f1 Phase.tune f_tmp sv1 key vis s0 ps1).ret
          = (scan_vfo_for 0 f1 Phase.tune f_tmp sv2 key vis s0 ps2).ret ∧
        (scan_vfo_for 0 f1 Phase.tune f_tmp sv1 key vis s0 ps1).done
          = (scan_vfo_for 0 f1 Phase.tune f_tmp sv2 key vis s0 ps2).done ∧
        (scan_vfo_for 0 f1 Phase.tune f_tmp sv1 key vis s0 ps1).visited
          = (scan_vfo_for 0 f1 Phase.tune f_tmp sv2 key vis s0 ps2).visited ∧
        (scan_vfo_for 0 f1 Phase.tune f_tmp sv1 key vis s0 ps1).state
          = (scan_vfo_for 0 f1 Phase.tune f_tmp sv2 key vis s0 ps2).state)) := by
  have hne : thresh ≠ 0 := by omega
  obtain ⟨hd1, hd2, hd3⟩ := scan_dwell_hold thresh scan ps sval s hs hp
  have hv := scan_vfo_for_hold thresh f1 f_tmp vis ps sval s hs hp
  refine ⟨⟨hd1, hd2, by rw [hd3]; exact (foldl_interrupts_frame ps s).2⟩, ?_, ?_, ?_, ?_, ?_⟩
  · rw [hv]
    exact ⟨rfl, rfl, rfl, rfl, (foldl_interrupts_frame ps s).2⟩
  · intro m fuel hval hr0 hr1
    have hw : wrap32 (s.runseconds10 + 50) = s.runseconds10 + 50 := by unfold wrap32; omega
    have hdw : (scan_memories_visit thresh m s ps).done = false ∧
        (scan_memories_visit thresh m s ps).rest = [] := by
      rw [(scan_memories_visit_valid thresh m s ps hval).1]
      have hrs : (set_vfo_frequency s (load_frequency s.eeprom 0 m + INTERFREQUENCY)).runseconds10
          = s.runseconds10 := rfl
      cases ps with
      | nil =>
        simp only [scan_dwell, hw, hrs, Bool.false_eq_true, false_and, false_or, and_true]
        rw [if_pos (by omega)]
        exact ⟨rfl, rfl⟩
      | cons p ps =>
        have hp0 := hp p (List.mem_cons_self _ _)
        have hdec : decide (thresh ≠ 0) = true := decide_eq_true hne
        simp only [scan_dwell, hw, hrs, Bool.false_eq_true, false_and, if_false, and_true, hdec]
        rw [if_pos (by omega), hp0.2]
        obtain ⟨h1, h2, _⟩ := scan_dwell_hold thresh s.runseconds10 ps p.sval
          (interrupts p (set_vfo_frequency s (load_frequency s.eeprom 0 m + INTERFREQUENCY)))
          hp0.1 (fun q hq => hp q (List.mem_cons_of_mem _ hq))
        exact ⟨h1, h2⟩
    simp only [scan_memories_loop]
    rw [if_pos hdw.1]
    exact ⟨rfl, rfl, hdw.2⟩
  · intro hlt
    cases ps with
    | nil =>
      simp only [scan_vfo_for, hlt, if_true, and_self]
    | cons p ps =>
      have hp0 := hp p (List.mem_cons_self _ _)
      simp only [scan_vfo_for, hlt, if_true, hne, ne_eq, not_false_eq_true]
      rw [scan_vfo_for_hold thresh f1 f_tmp (vis ++ [f_tmp]) ps p.sval _ hp0.1
        (fun q hq => hp q (List.mem_cons_of_mem _ hq))]
      exact ⟨rfl, rfl, rfl, rfl⟩
  · intro q post hq
    rw [scan_dwell_hold_until thresh scan q post ps sval s hs hp,
      scan_dwell_release thresh scan post q.sval q.key _ hq,
      scan_vfo_for_hold_until thresh f1 f_tmp vis q post ps sval s hs hp,
      scan_vfo_for_release thresh f1 f_tmp vis post q.sval q.key _ hq]
    exact ⟨rfl, rfl⟩
  · intro ps1 ps2 sv1 sv2 key s0 hrel
    obtain ⟨a1, a2, a3, a4⟩ := scan_dwell_no_hold scan ps1 ps2 hrel sv1 sv2 key s0
    obtain ⟨b1, b2, _, b4, b5, _⟩ :=
      scan_vfo_for_no_hold f1 ps1 ps2 hrel Phase.tune f_tmp sv1 sv2 key vis s0 (by simp)
    exact ⟨⟨a1, a2, a3, a4⟩, b1, b2, b4, b5⟩

set_option maxRecDepth 4096 in
theorem threshold_hold_witness :
    (scan_memories_loop 5 1 5 [] (main_init only5)
      [{ ticks := 30, knob := 0, key := 0, sval := 9 },
       { ticks := 30, knob := 0, key := 0, sval := 9 }]).visited = [5] ∧
    (scan_memories_loop 5 1 5 [] (main_init only5)
      [{ ticks := 30, knob := 0, key := 0, sval := 9 },
       { ticks := 30, knob := 0, key := 0, sval := 9 }]).result = none ∧
    (scan_memories_loop 5 1 5 [] (main_init only5)
      [{ ticks := 30, knob := 0, key := 0, sval := 9 },
       { ticks := 30, knob := 0, key := 0, sval := 9 }]).state.runseconds10 = 60 ∧
    (scan_vfo_for 5 14200100 Phase.tune 14200000 9 0 [] (main_init only5)
      [{ ticks := 30, knob := 0, key := 0, sval := 9 },
       { ticks := 30, knob := 0, key := 0, sval := 9 }]).visited = [14200000] := by
  have h := threshold_hold 5 0 14200100 14200000 9 [] (main_init only5)
    [{ ticks := 30, knob := 0, key := 0, sval := 9 },
     { ticks := 30, knob := 0, key := 0, sval := 9 }] (by decide) (by decide) (by decide)
  have hm := h.2.2.1 5 0 (by decide) (by decide) (by decide)
  have hv := h.2.2.2.1 (by decide)
  exact ⟨hm.2.1, hm.1, by decide, hv.2.2.1⟩

/-! ## Scans that never sample the key -/

/-- When none of the 16 memory slots is band-valid, the loop of `scan_memories`
reads no poll and does not return, whatever the fuel. -/
theorem scan_memories_loop_no_valid (thresh : Int) (s : State) (ps : List Poll)
    (hinv : ∀ m, 0 ≤ m → m ≤ 15 → is_mem_freq_ok (load_frequency s.eeprom 0 m) = 0) :
    ∀ (fuel : Nat) (m : Int) (vis : List Int), 0 ≤ m → m ≤ 15 →
    (scan_memories_loop thresh fuel m vis s ps).result = none ∧
    (scan_memories_loop thresh fuel m vis s ps).rest = ps ∧
    (scan_memories_loop thresh fuel m vis s ps).state = s := by
  intro fuel
  induction fuel with
  | zero => intro m vis _ _; exact ⟨rfl, rfl, rfl⟩
  | succ fuel ih =>
    intro m vis h0 h1
    obtain ⟨hm0, hm1⟩ := scan_order_range m h0 h1
    simp only [scan_memories_loop, scan_memories_visit_invalid thresh m s ps (hinv m h0 h1)]
    rw [if_neg (by decide), if_neg (by decide), if_neg (by decide)]
    exact ih _ _ hm0 hm1

/-- When the two bounds are equal, the loop of `scan_vfo` reads no poll and does not
return, whatever the fuel. -/
theorem scan_vfo_loop_empty (thresh f : Int) (s : State) (ps : List Poll) :
    ∀ (fuel : Nat) (vis : List Int),
    scan_vfo_loop thresh f f fuel 0 vis s ps
      = { result := none, visited := vis, state := s, rest := ps } := by
  intro fuel
  induction fuel with
  | zero => intro vis; rfl
  | succ fuel ih =>
    intro vis
    have hw : scan_vfo_for thresh f Phase.tune f 0 0 vis s ps
        = { ret := none, done := true, key := 0, visited := vis, state := s, rest := ps } := by
      cases ps with
      | nil => simp only [scan_vfo_for, lt_irrefl, if_false]
      | cons p ps => simp only [scan_vfo_for, lt_irrefl, if_false]
    simp only [scan_vfo_loop, hw, ne_eq, not_true_eq_false, if_false, if_true]
    exact ih vis

theorem main_init_erased_no_valid (m : Int) (h0 : 0 ≤ m) (h1 : m ≤ 15) :
    is_mem_freq_ok (load_frequency (main_init erased).eeprom 0 m) = 0 := by
  have h : m = 0 ∨ m = 1 ∨ m = 2 ∨ m = 3 ∨ m = 4 ∨ m = 5 ∨ m = 6 ∨ m = 7 ∨ m = 8 ∨ m = 9 ∨
      m = 10 ∨ m = 11 ∨ m = 12 ∨ m = 13 ∨ m = 14 ∨ m = 15 := by omega
  rcases h with rfl | rfl | rfl | rfl | rfl | rfl | rfl | rfl | rfl | rfl | rfl | rfl | rfl |
    rfl | rfl | rfl <;> decide

/-- C19 (the code departs from it). After start-up on an erased EEPROM none of the 16
memory slots is band-valid and VFO-A equals VFO-B.  In that state, for every
threshold, every number of loop passes and every sequence of polls that follows
the release wait, `scan_memories` and `scan_vfo` have not returned and have not
read a single poll: the key is never sampled, so no key, pressed and held for
however long, ends the scan.  The same holds from every state with no band-valid
memory slot, resp. with VFO-A equal to VFO-B. -/
theorem scan_never_samples_key (thresh : Int) (fuel : Nat) (ps : List Poll) :
    (∀ m, 0 ≤ m → m ≤ 15 → is_mem_freq_ok (load_frequency (main_init erased).eeprom 0 m) = 0) ∧
    (main_init erased).f_vfo 0 = (main_init erased).f_vfo 1 ∧
    ((scan_memories thresh fuel (main_init erased) (idle :: ps)).result = none ∧
      (scan_memories thresh fuel (main_init erased) (idle :: ps)).rest = ps) ∧
    ((scan_vfo thresh fuel (main_init erased) (idle :: ps)).result = none ∧
      (scan_vfo thresh fuel (main_init erased) (idle :: ps)).rest = ps) ∧
    (∀ (s : State) (p : Poll), p.key = 0 →
      (∀ m, 0 ≤ m → m ≤ 15 → is_mem_freq_ok (load_frequency s.eeprom 0 m) = 0) →
      (scan_memories thresh fuel s (p :: ps)).result = none ∧
      (scan_memories thresh fuel s (p :: ps)).rest = ps) ∧
    (∀ (s : State) (p : Poll), p.key = 0 → s.f_vfo 0 = s.f_vfo 1 →
      (scan_vfo thresh fuel s (p :: ps)).result = none ∧
      (scan_vfo thresh fuel s (p :: ps)).rest = ps) := by
  have hmem : ∀ (s : State) (p : Poll), p.key = 0 →
      (∀ m, 0 ≤ m → m ≤ 15 → is_mem_freq_ok (load_frequency s.eeprom 0 m) = 0) →
      (scan_memories thresh fuel s (p :: ps)).result = none ∧
      (scan_memories thresh fuel s (p :: ps)).rest = ps := by
    intro s p hp hinv
    have hscan : scan_memories thresh fuel s (p :: ps)
        = scan_memories_loop thresh fuel 0 [] (interrupts p s) ps := by
      simp only [scan_memories, wait_no_key, hp, ne_eq, not_true_eq_false, if_false]
    have hinv1 : ∀ m, 0 ≤ m → m ≤ 15 →
        is_mem_freq_ok (load_frequency (interrupts p s).eeprom 0 m) = 0 := by
      intro m h0 h1
      rw [(interrupts_frame p s).1]
      exact hinv m h0 h1
    obtain ⟨h1, h2, _⟩ := scan_memories_loop_no_valid thresh (interrupts p s) ps hinv1 fuel 0 []
      (le_refl 0) (by decide)
    rw [hscan]
    exact ⟨h1, h2⟩
  have hvfo : ∀ (s : State) (p : Poll), p.key = 0 → s.f_vfo 0 = s.f_vfo 1 →
      (scan_vfo thresh fuel s (p :: ps)).result = none ∧
      (scan_vfo thresh fuel s (p :: ps)).rest = ps := by
    intro s p hp heq
    have hscan : scan_vfo thresh fuel s (p :: ps)
        = scan_vfo_loop thresh (s.f_vfo 1) (s.f_vfo 1) fuel 0 [] (interrupts p s) ps := by
      simp only [scan_vfo, wait_no_key, hp, ne_eq, not_true_eq_false, if_false, heq,
        gt_iff_lt, lt_irrefl]
    rw [hscan, scan_vfo_loop_empty]
    exact ⟨rfl, rfl⟩
  exact ⟨main_init_erased_no_valid, by decide,
    hmem (main_init erased) idle rfl main_init_erased_no_valid,
    hvfo (main_init erased) idle rfl (by decide), hmem, hvfo⟩

/-! ## VFO scan: the frequency returned -/

/-- A value returned from inside the `for` loop of `scan_vfo` is the frequency tuned
last; it lies between the bounds and is a multiple of 10 above the start bound. -/
theorem scan_vfo_for_ret (thresh f0 f1 : Int) (hb0 : -2147483648 ≤ f0)
    (hb1 : f1 ≤ 2147483637) : ∀ (ps : List Poll) (ph : Phase) (f_tmp sval key : Int)
    (vis : List Int) (s : State), f0 ≤ f_tmp → (f_tmp - f0) % 10 = 0 →
    (ph ≠ Phase.tune → f_tmp < f1 ∧ vis.getLast? = some f_tmp) →
    ∀ r, (scan_vfo_for thresh f1 ph f_tmp sval key vis s ps).ret = some r →
      f0 ≤ r ∧ r < f1 ∧ (r - f0) % 10 = 0 ∧
      (scan_vfo_for thresh f1 ph f_tmp sval key vis s ps).visited.getLast? = some r := by
  intro ps
  induction ps with
  | nil =>
    intro ph f_tmp sval key vis s _ _ _ r hr
    cases ph with
    | tune =>
      simp only [scan_vfo_for] at hr
      split_ifs at hr
    | hold => simp only [scan_vfo_for] at hr; cases hr
    | key => simp only [scan_vfo_for] at hr; cases hr
  | cons p ps ih =>
    intro ph f_tmp sval key vis s h0 hmod hph r hr
    have hstep : ∀ (k : Int) (t : State), f_tmp < f1 → vis.getLast? = some f_tmp →
        ∀ r, (if p.key = 2 then
            ({ ret := some f_tmp, done := false, key := p.key, visited := vis,
               state := t, rest := ps } : Sweep)
          else scan_vfo_for thresh f1 Phase.tune (wrap32 (f_tmp + 10)) sval p.key vis t ps).ret
            = some r →
          f0 ≤ r ∧ r < f1 ∧ (r - f0) % 10 = 0 ∧
          (if p.key = 2 then
            ({ ret := some f_tmp, done := false, key := p.key, visited := vis,
               state := t, rest := ps } : Sweep)
          else scan_vfo_for thresh f1 Phase.tune (wrap32 (f_tmp + 10)) sval p.key vis t
            ps).visited.getLast? = some r := by
      intro k t hlt hlast r hr
      have hw : wrap32 (f_tmp + 10) = f_tmp + 10 := by unfold wrap32; omega
      by_cases h2 : p.key = 2
      · rw [if_pos h2] at hr ⊢
        have hrf : f_tmp = r := Option.some.inj hr
        subst hrf
        exact ⟨h0, hlt, hmod, hlast⟩
      · rw [if_neg h2, hw] at hr ⊢
        exact ih Phase.tune (f_tmp + 10) sval p.key vis t (by omega) (by omega)
          (fun h => absurd rfl h) r hr
    cases ph with
    | tune =>
      simp only [scan_vfo_for] at hr ⊢
      by_cases hlt : f_tmp < f1
      · rw [if_pos hlt] at hr ⊢
        exact ih _ f_tmp p.sval key (vis ++ [f_tmp]) _ h0 hmod
          (fun _ => ⟨hlt, List.getLast?_concat vis⟩) r hr
      · rw [if_neg hlt] at hr
        cases hr
    | hold =>
      obtain ⟨hlt, hlast⟩ := hph (by simp)
      simp only [scan_vfo_for] at hr ⊢
      by_cases hc : sval > thresh ∧ key = 0
      · rw [if_pos hc] at hr ⊢
        exact ih Phase.hold f_tmp p.sval p.key vis _ h0 hmod (fun _ => ⟨hlt, hlast⟩) r hr
      · rw [if_neg hc] at hr ⊢
        exact hstep key _ hlt hlast r hr
    | key =>
      obtain ⟨hlt, hlast⟩ := hph (by simp)
      simp only [scan_vfo_for] at hr ⊢
      exact hstep key _ hlt hlast r hr

theorem scan_vfo_loop_result (thresh f0 f1 : Int) (hb0 : -2147483648 ≤ f0)
    (hb1 : f1 ≤ 2147483637) : ∀ (fuel : Nat) (key : Int) (vis : List Int) (s : State)
    (ps : List Poll) (r : Int), (scan_vfo_loop thresh f0 f1 fuel key vis s ps).result = some r →
    r = -1 ∨ (f0 ≤ r ∧ r < f1 ∧ (r - f0) % 10 = 0 ∧
      (scan_vfo_loop thresh f0 f1 fuel key vis s ps).visited.getLast? = some r) := by
  intro fuel
  induction fuel with
  | zero =>
    intro key vis s ps r hr
    simp only [scan_vfo_loop] at hr
    cases hr
  | succ fuel ih =>
    intro key vis s ps r hr
    simp only [scan_vfo_loop] at hr ⊢
    by_cases hk : key ≠ 0
    · rw [if_pos hk] at hr
      left
      exact (Option.some.inj hr).symm
    · rw [if_neg hk] at hr ⊢
      have hret := scan_vfo_for_ret thresh f0 f1 hb0 hb1 ps Phase.tune f0 0 key vis s
        (le_refl _) (by simp) (fun h => absurd rfl h)
      rcases hw : (scan_vfo_for thresh f1 Phase.tune f0 0 key vis s ps).ret with _ | x
      · rw [hw] at hr
        simp only [] at hr ⊢
        by_cases hd : (scan_vfo_for thresh f1 Phase.tune f0 0 key vis s ps).done = true
        · rw [if_pos hd] at hr ⊢
          exact ih _ _ _ _ r hr
        · rw [if_neg hd] at hr
          cases hr
      · rw [hw] at hr
        simp only [] at hr ⊢
        have hxr : x = r := Option.some.inj hr
        subst hxr
        right
        exact hret x hw

/-- The bounds of `scan_vfo` are the smaller and the larger of VFO-A and VFO-B, and,
for VFO frequencies that leave room for one step below the end of the range of a
`long`, every value returned is -1 or the frequency tuned last, which lies between
the bounds a multiple of 10 above the start bound. -/
theorem scan_vfo_result (thresh : Int) (fuel : Nat) (s : State) (ps : List Poll) (r : Int)
    (ha : -2147483648 ≤ s.f_vfo 0 ∧ s.f_vfo 0 ≤ 2147483637)
    (hb : -2147483648 ≤ s.f_vfo 1 ∧ s.f_vfo 1 ≤ 2147483637)
    (hr : (scan_vfo thresh fuel s ps).result = some r) :
    r = -1 ∨ (min (s.f_vfo 0) (s.f_vfo 1) ≤ r ∧ r < max (s.f_vfo 0) (s.f_vfo 1) ∧
      (r - min (s.f_vfo 0) (s.f_vfo 1)) % 10 = 0 ∧
      (scan_vfo thresh fuel s ps).visited.getLast? = some r) := by
  have hlo : (if s.f_vfo 0 > s.f_vfo 1 then s.f_vfo 1 else s.f_vfo 0)
      = min (s.f_vfo 0) (s.f_vfo 1) := by
    split_ifs with h
    · rw [min_eq_right (le_of_lt h)]
    · rw [min_eq_left (not_lt.mp h)]
  have hhi : (if s.f_vfo 0 > s.f_vfo 1 then s.f_vfo 0 else s.f_vfo 1)
      = max (s.f_vfo 0) (s.f_vfo 1) := by
    split_ifs with h
    · rw [max_eq_left (le_of_lt h)]
    · rw [max_eq_right (not_lt.mp h)]
  unfold scan_vfo at hr ⊢
  simp only [hlo, hhi] at hr ⊢
  rcases hw : wait_no_key s ps with ⟨b, s1, ps1⟩
  rw [hw] at hr
  cases b with
  | false => simp only [] at hr; cases hr
  | true =>
    simp only [] at hr ⊢
    exact scan_vfo_loop_result thresh _ _ (le_min ha.1 hb.1) (max_le ha.2 hb.2) fuel 0 [] s1 ps1
      r hr

theorem scan_vfo_result_example :
    (scan_vfo 0 5 (vfo_pair 14200030 14200000) [idle, idle, idle, idle, press 2]).result
      = some 14200010 ∧
    (scan_vfo 0 5 (vfo_pair 14200030 14200000)
      [idle, idle, idle, idle, press 2]).visited.getLast? = some 14200010 := by
  have h := scan_vfo_result 0 5 (vfo_pair 14200030 14200000) [idle, idle, idle, idle, press 2]
    14200010 (by decide) (by decide) (by decide)
  rcases h with h | h
  · exact absurd h (by decide)
  · exact ⟨by decide, h.2.2.2⟩

/-! ## VFO scan: a key sampled inside a sweep -/

/-- C17 (the code departs from it). VFO scan between 14200000 and 14200030 with
`thresh = 0`: the cancel key (key code 1) is sampled at the first step of the sweep,
yet the scan goes on, tunes 14200010 and 14200020, reaches the end bound and starts
the next sweep at 14200000 without having returned; the same key sampled at the last
step of the sweep does end the scan with -1.  Both hold with VFO-A and VFO-B
swapped. -/
theorem vfo_scan_cancel_ignored :
    (scan_vfo 0 5 (vfo_pair 14200000 14200030)
      [idle, idle, press 1, idle, idle, idle, idle]).result = none ∧
    (scan_vfo 0 5 (vfo_pair 14200000 14200030)
      [idle, idle, press 1, idle, idle, idle, idle]).visited
      = [14200000, 14200010, 14200020, 14200000] ∧
    (scan_vfo 0 5 (vfo_pair 14200000 14200030)
      [idle, idle, press 1, idle, idle, idle, idle]).rest = [] ∧
    (scan_vfo 0 5 (vfo_pair 14200030 14200000)
      [idle, idle, press 1, idle, idle, idle, idle]).result = none ∧
    (scan_vfo 0 5 (vfo_pair 14200030 14200000)
      [idle, idle, press 1, idle, idle, idle, idle]).visited
      = [14200000, 14200010, 14200020, 14200000] ∧
    (scan_vfo 0 5 (vfo_pair 14200000 14200030)
      [idle, idle, idle, idle, idle, idle, press 1]).result = some (-1) ∧
    (scan_vfo 0 5 (vfo_pair 14200000 14200030)
      [idle, idle, idle, idle, idle, idle, press 1]).visited
      = [14200000, 14200010, 14200020] := by
  decide

/-! ## The store key -/

theorem main_store_eeprom (s : State) (hk : s.key = 2) :
    (main_store s).eeprom
      = store_frequency (store_frequency
          (eeprom_write_byte (eeprom_write_byte s.eeprom 8 s.cur_vfo) 11 s.cur_mem)
          (s.f_vfo s.cur_vfo) s.cur_vfo (-1)) (s.f_vfo s.cur_vfo) s.cur_vfo s.cur_mem ∧
    (main_store s).f_vfo = s.f_vfo ∧ (main_store s).cur_vfo = s.cur_vfo ∧
    (main_store s).cur_mem = s.cur_mem := by
  unfold main_store
  rw [if_pos hk]
  exact ⟨rfl, rfl, rfl, rfl⟩

theorem store_frequency_cell_other (e : EEPROM) (f vfo memory a : Int)
    (h : a < start_adr vfo memory ∨ start_adr vfo memory + 3 < a) :
    (store_frequency e f vfo memory).cell a = e.cell a := by
  simp only [store_frequency, eeprom_write_byte]
  split_ifs <;> first | rfl | omega

/-- The store key (`key = 2`) in a state with `cur_vfo` 0 or 1 and an active frequency
that fits a non-negative `long` leaves `f_vfo`, `cur_vfo` and `cur_mem` unchanged.
When `0 ≤ cur_mem ≤ 15` the EEPROM then has byte 8 = `cur_vfo`, byte 11 = `cur_mem`,
the VFO slot of `cur_vfo` and the memory slot `cur_mem` both holding the active
frequency, every other cell unchanged, and exactly the addresses 8, 11,
`4 * cur_vfo ..` and `16 + 4 * cur_mem ..` written.  When `cur_mem = -1` byte 11
reads 255, the VFO slot holds the active frequency and is written twice, and no
other cell changes: no memory slot takes the frequency.  With any other key the
state is unchanged. -/
theorem main_store_effect (s : State) (hk : s.key = 2) (hv : s.cur_vfo = 0 ∨ s.cur_vfo = 1)
    (hf0 : 0 ≤ s.f_vfo s.cur_vfo) (hf1 : s.f_vfo s.cur_vfo < 2147483648) :
    ((main_store s).f_vfo = s.f_vfo ∧ (main_store s).cur_vfo = s.cur_vfo ∧
      (main_store s).cur_mem = s.cur_mem) ∧
    (0 ≤ s.cur_mem → s.cur_mem ≤ 15 →
      eeprom_read_byte (main_store s).eeprom 8 = s.cur_vfo ∧
      eeprom_read_byte (main_store s).eeprom 11 = s.cur_mem ∧
      load_frequency (main_store s).eeprom s.cur_vfo (-1) = s.f_vfo s.cur_vfo ∧
      load_frequency (main_store s).eeprom s.cur_vfo s.cur_mem = s.f_vfo s.cur_vfo ∧
      (∀ a, a ≠ 8 → a ≠ 11 → (a < 4 * s.cur_vfo ∨ 4 * s.cur_vfo + 3 < a) →
        (a < 16 + 4 * s.cur_mem ∨ 16 + 4 * s.cur_mem + 3 < a) →
        (main_store s).eeprom.cell a = s.eeprom.cell a) ∧
      (main_store s).eeprom.written = s.eeprom.written ++
        [8, 11, 4 * s.cur_vfo, 4 * s.cur_vfo + 1, 4 * s.cur_vfo + 2, 4 * s.cur_vfo + 3,
          16 + 4 * s.cur_mem, 16 + 4 * s.cur_mem + 1, 16 + 4 * s.cur_mem + 2,
          16 + 4 * s.cur_mem + 3]) ∧
    (s.cur_mem = -1 →
      eeprom_read_byte (main_store s).eeprom 8 = s.cur_vfo ∧
      eeprom_read_byte (main_store s).eeprom 11 = 255 ∧
      load_frequency (main_store s).eeprom s.cur_vfo (-1) = s.f_vfo s.cur_vfo ∧
      (∀ a, a ≠ 8 → a ≠ 11 → (a < 4 * s.cur_vfo ∨ 4 * s.cur_vfo + 3 < a) →
        (main_store s).eeprom.cell a = s.eeprom.cell a) ∧
      (main_store s).eeprom.written = s.eeprom.written ++
        [8, 11, 4 * s.cur_vfo, 4 * s.cur_vfo + 1, 4 * s.cur_vfo + 2, 4 * s.cur_vfo + 3,
          4 * s.cur_vfo, 4 * s.cur_vfo + 1, 4 * s.cur_vfo + 2, 4 * s.cur_vfo + 3]) ∧
    (∀ t : State, t.key ≠ 2 → main_store t = t) := by
  obtain ⟨he, h1, h2, h3⟩ := main_store_eeprom s hk
  have hV := start_adr_vfo s.cur_vfo (-1) hv rfl
  have hb : ∀ a, (eeprom_write_byte (eeprom_write_byte s.eeprom 8 s.cur_vfo) 11 s.cur_mem).cell a
      = if a = 11 then u8 s.cur_mem else if a = 8 then u8 s.cur_vfo else s.eeprom.cell a := by
    intro a; rfl
  have hother : ∀ a, (a < 4 * s.cur_vfo ∨ 4 * s.cur_vfo + 3 < a) →
      (a < start_adr s.cur_vfo s.cur_mem ∨ start_adr s.cur_vfo s.cur_mem + 3 < a) →
      (main_store s).eeprom.cell a
        = if a = 11 then u8 s.cur_mem else if a = 8 then u8 s.cur_vfo else s.eeprom.cell a := by
    intro a hav ham
    rw [he, store_frequency_cell_other _ _ _ _ _ ham,
      store_frequency_cell_other _ _ _ _ _ (by rw [hV]; exact hav), hb]
  have hwr : (main_store s).eeprom.written = s.eeprom.written ++
      [8, 11, 4 * s.cur_vfo, 4 * s.cur_vfo + 1, 4 * s.cur_vfo + 2, 4 * s.cur_vfo + 3,
        start_adr s.cur_vfo s.cur_mem, start_adr s.cur_vfo s.cur_mem + 1,
        start_adr s.cur_vfo s.cur_mem + 2, start_adr s.cur_vfo s.cur_mem + 3] := by
    rw [he, store_frequency_written, store_frequency_written, hV]
    simp [eeprom_write_byte]
  have hloadm : load_frequency (main_store s).eeprom s.cur_vfo s.cur_mem = s.f_vfo s.cur_vfo := by
    rw [he]
    exact load_store_frequency _ _ _ _ hf0 hf1
  have hu8 : u8 s.cur_vfo = s.cur_vfo := by
    unfold u8
    rcases hv with h | h <;> rw [h] <;> decide
  refine ⟨⟨h1, h2, h3⟩, ?_, ?_, ?_⟩
  · intro hm0 hm15
    have hM := start_adr_mem s.cur_vfo s.cur_mem hm0 hm15
    rw [hM] at hother hwr
    refine ⟨?_, ?_, ?_, hloadm, ?_, hwr⟩
    · unfold eeprom_read_byte
      rw [hother 8 (by omega) (by omega), if_neg (by decide), if_pos rfl, hu8, hu8]
    · unfold eeprom_read_byte
      rw [hother 11 (by omega) (by omega), if_pos rfl]
      unfold u8
      omega
    · have hc : ∀ a, start_adr s.cur_vfo (-1) ≤ a → a ≤ start_adr s.cur_vfo (-1) + 3 →
          (main_store s).eeprom.cell a
            = (store_frequency
                (eeprom_write_byte (eeprom_write_byte s.eeprom 8 s.cur_vfo) 11 s.cur_mem)
                (s.f_vfo s.cur_vfo) s.cur_vfo (-1)).cell a := by
        intro a ha0 ha1
        rw [hV] at ha0 ha1
        rw [he, store_frequency_cell_other _ _ _ _ _ (by rw [hM]; omega)]
      rw [load_frequency_congr _ _ _ _ hc]
      exact load_store_frequency _ _ _ _ hf0 hf1
    · intro a ha8 ha11 hav ham
      rw [hother a hav ham, if_neg ha11, if_neg ha8]
  · intro hm
    have hA : start_adr s.cur_vfo s.cur_mem = 4 * s.cur_vfo := start_adr_vfo _ _ hv hm
    rw [hA] at hother hwr
    refine ⟨?_, ?_, ?_, ?_, hwr⟩
    · unfold eeprom_read_byte
      rw [hother 8 (by omega) (by omega), if_neg (by decide), if_pos rfl, hu8, hu8]
    · unfold eeprom_read_byte
      rw [hother 11 (by omega) (by omega), if_pos rfl, hm]
      decide
    · rw [hm] at hloadm
      exact hloadm
    · intro a ha8 ha11 hav
      rw [hother a hav hav, if_neg ha11, if_neg ha8]
  · intro t ht
    unfold main_store
    rw [if_neg ht]

theorem main_store_effect_example :
    eeprom_read_byte (main_store { main_init erased with key := 2, cur_mem := 3 }).eeprom 11 = 3 ∧
    load_frequency (main_store { main_init erased with key := 2, cur_mem := 3 }).eeprom 0 3
      = 14200000 ∧
    (main_store { main_init erased with key := 2, cur_mem := 3 }).eeprom.cell 80 = 255 ∧
    eeprom_read_byte (main_store { main_init erased with key := 2, cur_mem := -1 }).eeprom 11
      = 255 := by
  have h := main_store_effect { main_init erased with key := 2, cur_mem := 3 } rfl
    (by decide) (by decide) (by decide)
  have h3 := h.2.1 (by decide) (by decide)
  have h0 := main_store_effect { main_init erased with key := 2, cur_mem := -1 } rfl
    (by decide) (by decide) (by decide)
  have hn := h0.2.2.1 rfl
  exact ⟨h3.2.1, h3.2.2.2.1, (h3.2.2.2.2.1 80 (by decide) (by decide) (by decide) (by decide)),
    hn.2.1⟩

set_option maxRecDepth 4096 in
/-- C20 (the code departs from it). Start-up sets `cur_mem` to an index in 0..15 (0 on
an erased EEPROM), but the VFO-to-memory action assigns the value of `mem_select`
to `cur_mem` before testing it: when `mem_select` is ended with key 1 the control
loop goes on with `cur_mem = -1`.  The store key in that state leaves byte 11 reading
255, writes the addresses 8, 11 and twice 0..3, and leaves the cells 12..15 (the
cells `16 + 4 * cur_mem ..`) and every memory slot as they were: no memory slot
holds the frequency of the active VFO, which the VFO slot does hold. -/
theorem store_key_without_memory :
    (main_init erased).cur_mem = 0 ∧
    (main_vfo_to_mem (main_init erased) [idle, press 1]).map (fun x => x.1.cur_mem)
      = some (-1) ∧
    (main_vfo_to_mem (main_init erased) [idle, press 1]).map
      (fun x => eeprom_read_byte (main_store { x.1 with key := 2 }).eeprom 11) = some 255 ∧
    (main_vfo_to_mem (main_init erased) [idle, press 1]).map
      (fun x => (main_store { x.1 with key := 2 }).eeprom.written)
      = some ((main_init erased).eeprom.written ++ [8, 11, 0, 1, 2, 3, 0, 1, 2, 3]) ∧
    (main_vfo_to_mem (main_init erased) [idle, press 1]).map
      (fun x => [12, 13, 14, 15, 16, 17, 18, 19].map (main_store { x.1 with key := 2 }).eeprom.cell)
      = some [255, 255, 255, 255, 255, 255, 255, 255] ∧
    (main_vfo_to_mem (main_init erased) [idle, press 1]).map
      (fun x => (load_frequency (main_store { x.1 with key := 2 }).eeprom 0 (-1),
        x.1.f_vfo x.1.cur_vfo)) = some (14200000, 14200000) := by
  refine ⟨by decide, by decide, by decide, by decide, by decide, by decide⟩

/-! ## What the polling loops leave unchanged -/

theorem main_vars_kept_refl (s : State) : main_vars_kept s s :=
  ⟨rfl, rfl, rfl, rfl, rfl, rfl, rfl⟩

theorem main_vars_kept_trans (s t u : State) (h1 : main_vars_kept s t)
    (h2 : main_vars_kept t u) : main_vars_kept s u := by
  obtain ⟨a1, a2, a3, a4, a5, a6, a7⟩ := h1
  obtain ⟨b1, b2, b3, b4, b5, b6, b7⟩ := h2
  exact ⟨b1.trans a1, b2.trans a2, b3.trans a3, b4.trans a4, b5.trans a5, b6.trans a6,
    b7.trans a7⟩

theorem run_TIMER1_COMPA_kept (n : Nat) : ∀ s : State,
    main_vars_kept s (run_TIMER1_COMPA n s) := by
  induction n with
  | zero => intro s; exact main_vars_kept_refl s
  | succ n ih =>
    intro s
    exact main_vars_kept_trans _ _ _ ⟨rfl, rfl, rfl, rfl, rfl, rfl, rfl⟩ (ih (ISR_TIMER1_COMPA s))

theorem interrupts_kept (p : Poll) (s : State) : main_vars_kept s (interrupts p s) :=
  main_vars_kept_trans _ _ _ (run_TIMER1_COMPA_kept p.ticks s) ⟨rfl, rfl, rfl, rfl, rfl, rfl, rfl⟩

theorem set_vfo_frequency_kept (s : State) (f : Int) :
    main_vars_kept s (set_vfo_frequency s f) := ⟨rfl, rfl, rfl, rfl, rfl, rfl, rfl⟩

theorem set_lo_frequency_kept (s : State) (f : Int) :
    main_vars_kept s (set_lo_frequency s f) := ⟨rfl, rfl, rfl, rfl, rfl, rfl, rfl⟩

theorem wait_no_key_kept : ∀ (ps : List Poll) (s : State),
    main_vars_kept s (wait_no_key s ps).2.1 := by
  intro ps
  induction ps with
  | nil => intro s; exact main_vars_kept_refl s
  | cons p ps ih =>
    intro s
    simp only [wait_no_key]
    split_ifs
    · exact main_vars_kept_trans _ _ _ (interrupts_kept p s) (ih _)
    · exact interrupts_kept p s

theorem show_mem_menu_item_kept (m_item inv : Int) (s : State) :
    main_vars_kept s (show_mem_menu_item m_item inv s) := by
  unfold show_mem_menu_item
  simp only []
  split_ifs
  · exact set_vfo_frequency_kept _ _
  · exact main_vars_kept_refl s

theorem mem_select_draw_kept (c_mem : Int) : ∀ (n : Nat) (s : State),
    main_vars_kept s (mem_select_draw c_mem n s) := by
  intro n
  induction n with
  | zero => intro s; exact main_vars_kept_refl s
  | succ n ih =>
    intro s
    simp only [mem_select_draw]
    exact main_vars_kept_trans _ _ _ (show_mem_menu_item_kept _ _ s) (ih _)

theorem mem_select_pass_kept (c : Menu) : main_vars_kept c.state (mem_select_pass c).state := by
  have hstep : ∀ (pos pos1 : Int) (t : State),
      main_vars_kept t
        { show_mem_menu_item pos1 1 (show_mem_menu_item pos 0 t) with tuningknob := 0 } := by
    intro pos pos1 t
    exact main_vars_kept_trans _ _ _
      (main_vars_kept_trans _ _ _ (show_mem_menu_item_kept pos 0 t)
        (show_mem_menu_item_kept pos1 1 _)) ⟨rfl, rfl, rfl, rfl, rfl, rfl, rfl⟩
  unfold mem_select_pass
  simp only []
  by_cases h1 : c.state.tuningknob < -2
  · rw [if_pos h1]
    by_cases h2 : ({ c with
        pos := if c.pos < 15 then wrap16 (c.pos + 1) else 0,
        state := { show_mem_menu_item (if c.pos < 15 then wrap16 (c.pos + 1) else 0) 1
          (show_mem_menu_item c.pos 0 c.state) with tuningknob := 0 } } : Menu).state.tuningknob > 2
    · rw [if_pos h2]
      exact main_vars_kept_trans _ _ _ (hstep _ _ _) (hstep _ _ _)
    · rw [if_neg h2]
      exact hstep _ _ _
  · rw [if_neg h1]
    by_cases h2 : c.state.tuningknob > 2
    · rw [if_pos h2]
      exact hstep _ _ _
    · rw [if_neg h2]
      exact main_vars_kept_refl _

theorem mem_select_loop_kept : ∀ (ps : List Poll) (key pos : Int) (s : State),
    main_vars_kept s (mem_select_loop key pos s ps).state := by
  intro ps
  induction ps with
  | nil => intro key pos s; exact main_vars_kept_refl s
  | cons p ps ih =>
    intro key pos s
    simp only [mem_select_loop]
    by_cases hk : key = 0
    · rw [if_pos hk]
      exact main_vars_kept_trans _ _ _
        (main_vars_kept_trans _ _ _ (interrupts_kept p s) (mem_select_pass_kept _)) (ih _ _ _)
    · rw [if_neg hk]
      exact main_vars_kept_refl s

theorem mem_select_kept (c_mem : Int) (s : State) (ps : List Poll) (r : Int) (s1 : State)
    (ps1 : List Poll) (h : mem_select c_mem s ps = some (r, s1, ps1)) :
    main_vars_kept s s1 := by
  unfold mem_select at h
  have hw := wait_no_key_kept ps s
  rcases hwe : wait_no_key s ps with ⟨b, t, qs⟩
  rw [hwe] at h hw
  cases b with
  | false => simp at h
  | true =>
    cases qs with
    | nil => simp at h
    | cons p qs =>
      simp only [] at h
      have hall : main_vars_kept s (mem_select_loop p.key c_mem
          (show_mem_menu_item c_mem 1 (interrupts p (mem_select_draw c_mem 16 t))) qs).state :=
        main_vars_kept_trans _ _ _ hw
          (main_vars_kept_trans _ _ _
            (main_vars_kept_trans _ _ _
              (main_vars_kept_trans _ _ _ (mem_select_draw_kept c_mem 16 t)
                (interrupts_kept p _))
              (show_mem_menu_item_kept c_mem 1 _))
            (mem_select_loop_kept _ _ _ _))
      by_cases hk : (mem_select_loop p.key c_mem
          (show_mem_menu_item c_mem 1 (interrupts p (mem_select_draw c_mem 16 t))) qs).key = 0
      · rw [if_pos hk] at h
        cases h
      · rw [if_neg hk] at h
        have hs1 := (Prod.mk.inj (Prod.mk.inj (Option.some.inj h)).2).1
        rw [← hs1]
        exact hall

/-! ## Memory recall -/

/-- C21 (as amended). Memory recall: when `mem_select` returns a slot `r > -1` for the
MEM>VFO action, `cur_mem` becomes `r` and neither `cur_vfo` nor the EEPROM changes.
If the frequency stored in slot `r` is band-valid, the active VFO takes exactly that
frequency, the other VFO keeps its own, and the synthesizer is programmed with the
stored frequency + 9000000.  If it is not band-valid, both VFO frequencies stay as
they were (no default is substituted) and the synthesizer is not programmed by the
action. -/
theorem memory_recall (s : State) (ps : List Poll) (r : Int) (s1 : State) (ps1 : List Poll)
    (h : mem_select s.cur_mem s ps = some (r, s1, ps1)) (hr : r > -1) :
    ∃ t, main_mem_to_vfo s ps = some (t, ps1) ∧ t.cur_mem = r ∧ t.cur_vfo = s.cur_vfo ∧
      t.eeprom = s.eeprom ∧
      (is_mem_freq_ok (load_frequency s.eeprom 0 r) ≠ 0 →
        t.f_vfo s.cur_vfo = load_frequency s.eeprom 0 r ∧
        (∀ i, i ≠ s.cur_vfo → t.f_vfo i = s.f_vfo i) ∧
        t.si5351 = s1.si5351 ++
          si5351_set_freq SYNTH_MS_1 (load_frequency s.eeprom 0 r + 9000000)) ∧
      (is_mem_freq_ok (load_frequency s.eeprom 0 r) = 0 →
        t.f_vfo = s.f_vfo ∧ t.si5351 = s1.si5351) := by
  obtain ⟨k1, k2, _, _, _, _, k7⟩ := mem_select_kept s.cur_mem s ps r s1 ps1 h
  unfold main_mem_to_vfo
  rw [h]
  simp only []
  rw [if_pos hr, k7]
  by_cases hv : is_mem_freq_ok (load_frequency s.eeprom 0 r) = 0
  · rw [if_neg (not_not.mpr hv)]
    exact ⟨_, rfl, rfl, k1, rfl, fun hn => absurd hv hn, fun _ => ⟨k2, rfl⟩⟩
  · rw [if_pos hv]
    refine ⟨_, rfl, rfl, k1, rfl, fun _ => ⟨?_, ?_, ?_⟩, fun h0 => absurd h0 hv⟩
    · show Function.update s1.f_vfo s1.cur_vfo (load_frequency s.eeprom 0 r) s.cur_vfo = _
      rw [k1, Function.update_same]
    · intro i hi
      show Function.update s1.f_vfo s1.cur_vfo (load_frequency s.eeprom 0 r) i = _
      rw [k1, Function.update_noteq hi, k2]
    · have hb : 13999990 ≤ load_frequency s.eeprom 0 r ∧ load_frequency s.eeprom 0 r ≤ 14400000 := by
        rcases is_mem_freq_ok_cases (load_frequency s.eeprom 0 r) with hc | hc
        · exact hc.2
        · exact absurd hc.1 hv
      show s1.si5351 ++ si5351_set_freq SYNTH_MS_1
        (u32 (wrap32 (Function.update s1.f_vfo s1.cur_vfo (load_frequency s.eeprom 0 r) s1.cur_vfo
          + INTERFREQUENCY))) = _
      rw [Function.update_same]
      have hu : u32 (wrap32 (load_frequency s.eeprom 0 r + INTERFREQUENCY))
          = load_frequency s.eeprom 0 r + 9000000 := by
        unfold u32 wrap32 INTERFREQUENCY; omega
      rw [hu]

set_option maxRecDepth 8192 in
theorem memory_recall_witness :
    ∃ t, main_mem_to_vfo (main_init (store_frequency erased 14250000 0 5))
        [idle, idle, turn (-3), turn (-3), turn (-3), turn (-3), turn (-3), press 2]
        = some (t, []) ∧
      t.cur_mem = 5 ∧ t.f_vfo 0 = 14250000 ∧ t.f_vfo 1 = 14200000 := by
  have hs : (mem_select 0 (main_init (store_frequency erased 14250000 0 5))
      [idle, idle, turn (-3), turn (-3), turn (-3), turn (-3), turn (-3), press 2]).map
        (fun x => (x.1, x.2.2)) = some (5, []) := by decide
  rcases hx : mem_select 0 (main_init (store_frequency erased 14250000 0 5))
      [idle, idle, turn (-3), turn (-3), turn (-3), turn (-3), turn (-3), press 2] with _ | x
  · rw [hx] at hs; simp at hs
  · rw [hx] at hs
    have h5 : x.1 = 5 ∧ x.2.2 = [] := by simpa using hs
    have hx' : mem_select (main_init (store_frequency erased 14250000 0 5)).cur_mem
        (main_init (store_frequency erased 14250000 0 5))
        [idle, idle, turn (-3), turn (-3), turn (-3), turn (-3), turn (-3), press 2]
        = some (x.1, x.2.1, x.2.2) := hx
    obtain ⟨t, ht, hm, hc, he, hval, _⟩ := memory_recall _ _ x.1 x.2.1 x.2.2 hx'
      (by rw [h5.1]; decide)
    rw [h5.1] at hm hval
    rw [h5.2] at ht
    have hv := hval (by decide)
    refine ⟨t, ht, hm, ?_, ?_⟩
    · have := hv.1
      have hcv : (main_init (store_frequency erased 14250000 0 5)).cur_vfo = 0 := by decide
      rw [hcv] at this
      rw [this]
      decide
    · have hcv : (main_init (store_frequency erased 14250000 0 5)).cur_vfo = 0 := by decide
      rw [hv.2.1 1 (by rw [hcv]; decide)]
      decide

set_option maxRecDepth 8192 in
/-- Recall of an erased slot: with VFO-A at 14250000 and VFO-B at 14300000, selecting
memory 0 of an erased EEPROM with the MEM>VFO action leaves both VFO frequencies as
they were; the active VFO does not become 14200000.  The slot stays erased. -/
theorem memory_recall_keeps_vfo :
    is_mem_freq_ok (load_frequency (vfo_pair 14250000 14300000).eeprom 0 0) = 0 ∧
    (vfo_pair 14250000 14300000).cur_vfo = 0 ∧
    (main_mem_to_vfo (vfo_pair 14250000 14300000) [idle, press 2]).map
      (fun x => (x.1.cur_mem, x.1.f_vfo 0, x.1.f_vfo 1)) = some (0, 14250000, 14300000) ∧
    (main_mem_to_vfo (vfo_pair 14250000 14300000) [idle, press 2]).map
      (fun x => [16, 17, 18, 19].map x.1.eeprom.cell) = some [255, 255, 255, 255] := by
  refine ⟨by decide, by decide, by decide, by decide⟩

/-! ## Split operation -/

/-- C22. Split operation, in a receive state with `cur_vfo` 0 or 1.  With split
enabled, the receive-to-transmit transition (PTT found pressed) switches `cur_vfo`
to the other VFO, sets `txrx`, leaves both VFO frequencies unchanged and programmes
the VFO synthesizer channel with the frequency of that other VFO + 9000000; while
PTT stays pressed nothing more is switched and tuning is off; the following
transmit-to-receive transition switches `cur_vfo` back, clears `txrx`, leaves both
VFO frequencies unchanged and programmes the channel with the frequency of the
original VFO + 9000000.  With split disabled neither transition changes `cur_vfo`
or programmes the synthesizer. -/
theorem split_operation (s : State) (ptt : Int) (hv : s.cur_vfo = 0 ∨ s.cur_vfo = 1)
    (hrx : s.txrx = 0) (hp : ptt ≠ 0) :
    (s.split ≠ 0 →
      ((main_tx ptt s).cur_vfo = 1 - s.cur_vfo ∧ (main_tx ptt s).txrx = 1 ∧
        (main_tx ptt s).f_vfo = s.f_vfo ∧
        (-9000000 ≤ s.f_vfo (1 - s.cur_vfo) → s.f_vfo (1 - s.cur_vfo) < 2147483648 →
          (main_tx ptt s).si5351 = s.si5351 ++
            si5351_set_freq SYNTH_MS_1 (s.f_vfo (1 - s.cur_vfo) + 9000000))) ∧
      (main_tx ptt (main_tx ptt s) = main_tx ptt s ∧
        main_rx ptt (main_tx ptt s) = main_tx ptt s ∧
        main_tuning (main_tx ptt s) = main_tx ptt s) ∧
      ((main_rx 0 (main_tx ptt s)).cur_vfo = s.cur_vfo ∧
        (main_rx 0 (main_tx ptt s)).txrx = 0 ∧
        (main_rx 0 (main_tx ptt s)).f_vfo = s.f_vfo ∧
        (-9000000 ≤ s.f_vfo s.cur_vfo → s.f_vfo s.cur_vfo < 2147483648 →
          (main_rx 0 (main_tx ptt s)).si5351 = (main_tx ptt s).si5351 ++
            si5351_set_freq SYNTH_MS_1 (s.f_vfo s.cur_vfo + 9000000)))) ∧
    (s.split = 0 →
      (main_tx ptt s).cur_vfo = s.cur_vfo ∧ (main_tx ptt s).txrx = 1 ∧
      (main_tx ptt s).si5351 = s.si5351 ∧
      (main_rx 0 (main_tx ptt s)).cur_vfo = s.cur_vfo ∧
      (main_rx 0 (main_tx ptt s)).txrx = 0 ∧
      (main_rx 0 (main_tx ptt s)).f_vfo = s.f_vfo ∧
      (main_rx 0 (main_tx ptt s)).si5351 = s.si5351) := by
  have hu : ∀ f : Int, -9000000 ≤ f → f < 2147483648 →
      u32 (wrap32 (f + INTERFREQUENCY)) = f + 9000000 := by
    intro f h0 h1
    unfold u32 wrap32 INTERFREQUENCY
    omega
  have hother : (if s.cur_vfo = 0 then (1 : Int) else 0) = 1 - s.cur_vfo := by
    rcases hv with h | h <;> rw [h] <;> decide
  have hback : (if (1 - s.cur_vfo) = 0 then (1 : Int) else 0) = s.cur_vfo := by
    rcases hv with h | h <;> rw [h] <;> decide
  have htx_idle : ∀ t : State, t.txrx ≠ 0 → main_tx ptt t = t := by
    intro t ht
    unfold main_tx
    rw [if_pos hp, if_neg ht]
  have hrx_idle : ∀ t : State, main_rx ptt t = t := by
    intro t
    unfold main_rx
    rw [if_neg hp]
  have hrx_act : ∀ t : State, t.txrx ≠ 0 → t.split = 0 → main_rx 0 t = { t with txrx := 0 } := by
    intro t ht hsp
    unfold main_rx
    rw [if_pos rfl, if_pos ht]
    simp only []
    rw [if_neg (not_not.mpr hsp)]
  constructor
  · intro hs
    have htx : main_tx ptt s
        = set_vfo_frequency { s with txrx := 1, cur_vfo := 1 - s.cur_vfo }
            (wrap32 (s.f_vfo (1 - s.cur_vfo) + INTERFREQUENCY)) := by
      unfold main_tx
      rw [if_pos hp, if_pos hrx]
      simp only []
      rw [if_pos hs, hother]
    have h1 : (main_tx ptt s).txrx = 1 := by rw [htx]; rfl
    have hsp : (main_tx ptt s).split ≠ 0 := by rw [htx]; exact hs
    have hcv : (main_tx ptt s).cur_vfo = 1 - s.cur_vfo := by rw [htx]; rfl
    have hfv : (main_tx ptt s).f_vfo = s.f_vfo := by rw [htx]; rfl
    have hrx_sw : ∀ t : State, t.txrx ≠ 0 → t.split ≠ 0 → main_rx 0 t
        = set_vfo_frequency { t with txrx := 0, cur_vfo := if t.cur_vfo = 0 then 1 else 0 }
            (wrap32 (t.f_vfo (if t.cur_vfo = 0 then 1 else 0) + INTERFREQUENCY)) := by
      intro t ht hsp
      unfold main_rx
      rw [if_pos rfl, if_pos ht]
      simp only []
      rw [if_pos hsp]
    have hrxe := hrx_sw (main_tx ptt s) (by rw [h1]; decide) hsp
    refine ⟨⟨hcv, h1, hfv, ?_⟩, ⟨?_, ?_, ?_⟩, ?_, ?_, ?_, ?_⟩
    · intro h0 h2
      rw [htx]
      show s.si5351 ++ si5351_set_freq SYNTH_MS_1 (u32 _) = _
      rw [hu _ h0 h2]
    · exact htx_idle _ (by rw [h1]; decide)
    · exact hrx_idle _
    · exact main_tuning_idle _ (Or.inr (by rw [h1]; decide))
    · rw [hrxe]
      show (if (main_tx ptt s).cur_vfo = 0 then (1 : Int) else 0) = s.cur_vfo
      rw [hcv, hback]
    · rw [hrxe]; rfl
    · rw [hrxe]; exact hfv
    · intro h0 h2
      rw [hrxe]
      show (main_tx ptt s).si5351 ++ si5351_set_freq SYNTH_MS_1
        (u32 (wrap32 ((main_tx ptt s).f_vfo (if (main_tx ptt s).cur_vfo = 0 then 1 else 0)
          + INTERFREQUENCY))) = _
      rw [hcv, hback, hfv, hu _ h0 h2]
  · intro hs
    have htx : main_tx ptt s = { s with txrx := 1 } := by
      unfold main_tx
      rw [if_pos hp, if_pos hrx]
      simp only []
      rw [if_neg (not_not.mpr hs)]
    have hrxe : main_rx 0 (main_tx ptt s) = { s with txrx := 0 } := by
      rw [htx]
      exact hrx_act { s with txrx := 1 } (by show (1 : Int) ≠ 0; decide) hs
    rw [hrxe, htx]
    exact ⟨rfl, rfl, rfl, rfl, rfl, rfl, rfl⟩

theorem split_operation_witness :
    (main_tx 1 { vfo_pair 14250000 14300000 with split := 1 }).cur_vfo = 1 ∧
    (main_tx 1 { vfo_pair 14250000 14300000 with split := 1 }).si5351
      = (vfo_pair 14250000 14300000).si5351 ++ si5351_set_freq SYNTH_MS_1 23300000 ∧
    (main_rx 0 (main_tx 1 { vfo_pair 14250000 14300000 with split := 1 })).cur_vfo = 0 ∧
    (main_rx 0 (main_tx 1 { vfo_pair 14250000 14300000 with split := 1 })).f_vfo 0 = 14250000 ∧
    (main_rx 0 (main_tx 1 { vfo_pair 14250000 14300000 with split := 1 })).f_vfo 1
      = 14300000 := by
  have h := (split_operation { vfo_pair 14250000 14300000 with split := 1 } 1
    (by decide) (by decide) (by decide)).1 (by decide)
  have h1 := h.1.2.2.2 (by decide) (by decide)
  refine ⟨h.1.1, h1, h.2.2.1, ?_, ?_⟩
  · rw [h.2.2.2.2.1]; decide
  · rw [h.2.2.2.2.1]; decide

/-! ## Slots that do not hold a frequency -/

theorem load_frequency_sentinel (e : EEPROM) (v m : Int)
    (h : eeprom_read_byte e (start_adr v m) ≠ 0) :
    load_frequency e v m < 0 ∨ 16777216 ≤ load_frequency e v m := by
  unfold load_frequency
  unfold eeprom_read_byte u8 at h ⊢
  simp only []
  generalize e.cell (start_adr v m) = c0 at h ⊢
  generalize e.cell (start_adr v m + 1) = c1
  generalize e.cell (start_adr v m + 2) = c2
  generalize e.cell (start_adr v m + 3) = c3
  unfold wrap32
  omega

/-- C25. Uninitialized-slot sentinel: when the most significant byte of a 4-byte slot
is non-zero, the value that `load_frequency` returns is negative or at least
16777216, and `is_mem_freq_ok` rejects it; in particular an erased slot (four bytes
`0xFF`) loads as -1.  The memory scan passes such a slot without tuning or dwelling,
the memory preview leaves the synthesizer alone, and the memory recall leaves both
VFO frequencies as they were. -/
theorem sentinel_rejected (s : State) (v m : Int)
    (h : eeprom_read_byte s.eeprom (start_adr v m) ≠ 0) :
    (load_frequency s.eeprom v m < 0 ∨ 16777216 ≤ load_frequency s.eeprom v m) ∧
    is_mem_freq_ok (load_frequency s.eeprom v m) = 0 ∧
    (∀ (e : EEPROM) (v1 m1 : Int), e.cell (start_adr v1 m1) = 255 →
      e.cell (start_adr v1 m1 + 1) = 255 → e.cell (start_adr v1 m1 + 2) = 255 →
      e.cell (start_adr v1 m1 + 3) = 255 →
      load_frequency e v1 m1 = -1 ∧ is_mem_freq_ok (load_frequency e v1 m1) = 0) ∧
    (v = 0 →
      (∀ (thresh : Int) (ps : List Poll),
        scan_memories_visit thresh m s ps = { done := true, key := 0, state := s, rest := ps }) ∧
      (∀ inv : Int, show_mem_menu_item m inv s = s) ∧
      (∀ (t : State) (ps : List Poll) (s1 : State) (ps1 : List Poll), t.eeprom = s.eeprom →
        mem_select t.cur_mem t ps = some (m, s1, ps1) →
        ∃ u, main_mem_to_vfo t ps = some (u, ps1) ∧ u.f_vfo = t.f_vfo ∧
          u.eeprom = t.eeprom ∧ u.si5351 = s1.si5351)) := by
  have hs := load_frequency_sentinel s.eeprom v m h
  have hrej : is_mem_freq_ok (load_frequency s.eeprom v m) = 0 := by
    unfold is_mem_freq_ok
    rw [if_neg (by omega)]
  refine ⟨hs, hrej, ?_, ?_⟩
  · intro e v1 m1 h0 h1 h2 h3
    have hl : load_frequency e v1 m1 = -1 := by
      unfold load_frequency eeprom_read_byte
      simp only []
      rw [h0, h1, h2, h3]
      decide
    rw [hl]
    exact ⟨rfl, by decide⟩
  · intro hv
    subst hv
    refine ⟨fun thresh ps => scan_memories_visit_invalid thresh m s ps hrej, ?_, ?_⟩
    · intro inv
      unfold show_mem_menu_item
      simp only []
      rw [if_neg (by rw [hrej]; exact fun hc => hc.1 rfl)]
    · intro t ps s1 ps1 he hsel
      obtain ⟨_, k2, _, _, _, _, k7⟩ := mem_select_kept t.cur_mem t ps m s1 ps1 hsel
      unfold main_mem_to_vfo
      rw [hsel]
      simp only []
      rw [k7, he, hrej]
      by_cases hm : m > -1
      · rw [if_pos hm, if_neg (by decide)]
        exact ⟨_, rfl, k2, rfl, rfl⟩
      · rw [if_neg hm]
        exact ⟨_, rfl, k2, rfl, rfl⟩

theorem sentinel_rejected_witness :
    load_frequency (main_init erased).eeprom 0 3 = -1 ∧
    is_mem_freq_ok (load_frequency (main_init erased).eeprom 0 3) = 0 ∧
    show_mem_menu_item 3 1 (main_init erased) = main_init erased := by
  have h := sentinel_rejected (main_init erased) 0 3 (by decide)
  exact ⟨by decide, h.2.1, (h.2.2.2 rfl).2.1 1⟩

/-! ## Register fields -/

theorem navigate_pass_kept (m maxitems : Int) (c : Menu) :
    main_vars_kept c.state (navigate_pass m maxitems c).state := by
  unfold navigate_pass
  simp only []
  split_ifs <;> exact ⟨rfl, rfl, rfl, rfl, rfl, rfl, rfl⟩

theorem navigate_loop_kept (m maxitems : Int) : ∀ (ps : List Poll) (key pos old : Int)
    (s : State), main_vars_kept s (navigate_loop m maxitems key pos old s ps).state := by
  intro ps
  induction ps with
  | nil => intro key pos old s; exact main_vars_kept_refl s
  | cons p ps ih =>
    intro key pos old s
    simp only [navigate_loop]
    by_cases hk : key = 0
    · rw [if_pos hk]
      exact main_vars_kept_trans _ _ _
        (main_vars_kept_trans _ _ _ (interrupts_kept p s) (navigate_pass_kept m maxitems _))
        (ih _ _ _ _)
    · rw [if_neg hk]
      exact main_vars_kept_refl s

theorem navigate_thru_item_list_kept (m maxitems : Int) (s : State) (ps : List Poll)
    (r : Int) (s1 : State) (ps1 : List Poll)
    (h : navigate_thru_item_list m maxitems s ps = some (r, s1, ps1)) :
    main_vars_kept s s1 := by
  cases ps with
  | nil => simp [navigate_thru_item_list] at h
  | cons p ps =>
    simp only [navigate_thru_item_list] at h
    have hl := main_vars_kept_trans _ _ _ (interrupts_kept p s)
      (navigate_loop_kept m maxitems ps p.key 0 (-1) (interrupts p s))
    by_cases hk : (navigate_loop m maxitems p.key 0 (-1) (interrupts p s) ps).key = 0
    · rw [if_pos hk] at h
      cases h
    · rw [if_neg hk] at h
      have hw := wait_no_key_kept (navigate_loop m maxitems p.key 0 (-1) (interrupts p s) ps).rest
        (navigate_loop m maxitems p.key 0 (-1) (interrupts p s) ps).state
      rcases hwe : wait_no_key (navigate_loop m maxitems p.key 0 (-1) (interrupts p s) ps).state
        (navigate_loop m maxitems p.key 0 (-1) (interrupts p s) ps).rest with ⟨b, t, qs⟩
      rw [hwe] at h hw
      cases b with
      | false => simp at h
      | true =>
        simp only [] at h
        have hs1 := (Prod.mk.inj (Prod.mk.inj (Option.some.inj h)).2).1
        rw [← hs1]
        exact main_vars_kept_trans _ _ _ hl hw

theorem menux_walk_kept : ∀ (menus : List Int) (s : State) (ps : List Poll) (r : Int)
    (s1 : State) (ps1 : List Poll), menux_walk menus s ps = some (r, s1, ps1) →
    main_vars_kept s s1 := by
  intro menus
  induction menus with
  | nil =>
    intro s ps r s1 ps1 h
    simp only [menux_walk] at h
    have hs1 := (Prod.mk.inj (Prod.mk.inj (Option.some.inj h)).2).1
    rw [← hs1]
    exact main_vars_kept_refl s
  | cons menu later ih =>
    intro s ps r s1 ps1 h
    simp only [menux_walk] at h
    have hw := wait_no_key_kept ps s
    rcases hwe : wait_no_key s ps with ⟨b, t, qs⟩
    rw [hwe] at h hw
    cases b with
    | false => simp at h
    | true =>
      simp only [] at h
      rcases hn : navigate_thru_item_list menu (menu_items menu) t qs with _ | ⟨res, t2, qs2⟩
      · rw [hn] at h
        simp at h
      · rw [hn] at h
        simp only [] at h
        have hk := navigate_thru_item_list_kept menu (menu_items menu) t qs res t2 qs2 hn
        have h02 : main_vars_kept s t2 := main_vars_kept_trans _ _ _ hw hk
        by_cases c1 : res > -1
        · rw [if_pos c1] at h
          have hs1 := (Prod.mk.inj (Prod.mk.inj (Option.some.inj h)).2).1
          rw [← hs1]
          exact h02
        · rw [if_neg c1] at h
          by_cases c2 : res = -11
          · rw [if_pos c2] at h
            have hs1 := (Prod.mk.inj (Prod.mk.inj (Option.some.inj h)).2).1
            rw [← hs1]
            exact h02
          · rw [if_neg c2] at h
            exact main_vars_kept_trans _ _ _ h02 (ih t2 qs2 r s1 ps1 h)

theorem scan_dwell_kept (thresh scan : Int) : ∀ (ps : List Poll) (holding : Bool)
    (sval key : Int) (s : State),
    main_vars_kept s (scan_dwell thresh scan holding sval key s ps).state := by
  intro ps
  induction ps with
  | nil =>
    intro holding sval key s
    simp only [scan_dwell]
    split_ifs <;> exact main_vars_kept_refl s
  | cons p ps ih =>
    intro holding sval key s
    simp only [scan_dwell]
    split_ifs
    · exact main_vars_kept_trans _ _ _ (interrupts_kept p s) (ih _ _ _ _)
    · exact main_vars_kept_trans _ _ _ (interrupts_kept p s) (ih _ _ _ _)
    · exact main_vars_kept_refl s

theorem scan_memories_visit_kept (thresh m : Int) (s : State) (ps : List Poll) :
    main_vars_kept s (scan_memories_visit thresh m s ps).state := by
  unfold scan_memories_visit
  simp only []
  split_ifs
  · exact main_vars_kept_trans _ _ _ (set_vfo_frequency_kept s _) (scan_dwell_kept _ _ _ _ _ _ _)
  · exact main_vars_kept_refl s

theorem scan_memories_loop_kept (thresh : Int) : ∀ (fuel : Nat) (m : Int) (vis : List Int)
    (s : State) (ps : List Poll),
    main_vars_kept s (scan_memories_loop thresh fuel m vis s ps).state := by
  intro fuel
  induction fuel with
  | zero => intro m vis s ps; exact main_vars_kept_refl s
  | succ fuel ih =>
    intro m vis s ps
    have hv := scan_memories_visit_kept thresh m s ps
    simp only [scan_memories_loop]
    by_cases c1 : (scan_memories_visit thresh m s ps).done = false
    · rw [if_pos c1]; exact hv
    rw [if_neg c1]
    by_cases c2 : (scan_memories_visit thresh m s ps).key = 2
    · rw [if_pos c2]; exact hv
    rw [if_neg c2]
    by_cases c3 : (scan_memories_visit thresh m s ps).key ≠ 0
    · rw [if_pos c3]; exact hv
    rw [if_neg c3]
    exact main_vars_kept_trans _ _ _ hv (ih _ _ _ _)

theorem scan_memories_kept (thresh : Int) (fuel : Nat) (s : State) (ps : List Poll) :
    main_vars_kept s (scan_memories thresh fuel s ps).state := by
  unfold scan_memories
  have hw := wait_no_key_kept ps s
  rcases hwe : wait_no_key s ps with ⟨b, t, qs⟩
  rw [hwe] at hw
  cases b with
  | false => exact hw
  | true => exact main_vars_kept_trans _ _ _ hw (scan_memories_loop_kept thresh fuel 0 [] t qs)

theorem scan_vfo_for_kept (thresh f1 : Int) : ∀ (ps : List Poll) (ph : Phase)
    (f_tmp sval key : Int) (vis : List Int) (s : State),
    main_vars_kept s (scan_vfo_for thresh f1 ph f_tmp sval key vis s ps).state := by
  intro ps
  induction ps with
  | nil =>
    intro ph f_tmp sval key vis s
    cases ph with
    | tune =>
      simp only [scan_vfo_for]
      split_ifs
      · exact set_vfo_frequency_kept s _
      · exact main_vars_kept_refl s
    | hold => exact main_vars_kept_refl s
    | key => exact main_vars_kept_refl s
  | cons p ps ih =>
    intro ph f_tmp sval key vis s
    cases ph with
    | tune =>
      simp only [scan_vfo_for]
      by_cases c : f_tmp < f1
      · rw [if_pos c]
        exact main_vars_kept_trans _ _ _
          (main_vars_kept_trans _ _ _ (set_vfo_frequency_kept s _) (interrupts_kept p _))
          (ih _ _ _ _ _ _)
      · rw [if_neg c]
        exact main_vars_kept_refl s
    | hold =>
      simp only [scan_vfo_for]
      by_cases c : sval > thresh ∧ key = 0
      · rw [if_pos c]
        exact main_vars_kept_trans _ _ _ (interrupts_kept p s) (ih _ _ _ _ _ _)
      · rw [if_neg c]
        by_cases c2 : p.key = 2
        · rw [if_pos c2]; exact interrupts_kept p s
        · rw [if_neg c2]
          exact main_vars_kept_trans _ _ _ (interrupts_kept p s) (ih _ _ _ _ _ _)
    | key =>
      simp only [scan_vfo_for]
      by_cases c2 : p.key = 2
      · rw [if_pos c2]; exact interrupts_kept p s
      · rw [if_neg c2]
        exact main_vars_kept_trans _ _ _ (interrupts_kept p s) (ih _ _ _ _ _ _)

theorem scan_vfo_loop_kept (thresh f0 f1 : Int) : ∀ (fuel : Nat) (key : Int) (vis : List Int)
    (s : State) (ps : List Poll),
    main_vars_kept s (scan_vfo_loop thresh f0 f1 fuel key vis s ps).state := by
  intro fuel
  induction fuel with
  | zero => intro key vis s ps; exact main_vars_kept_refl s
  | succ fuel ih =>
    intro key vis s ps
    simp only [scan_vfo_loop]
    by_cases hk : key ≠ 0
    · rw [if_pos hk]; exact main_vars_kept_refl s
    · rw [if_neg hk]
      have hw := scan_vfo_for_kept thresh f1 ps Phase.tune f0 0 key vis s
      rcases hr : (scan_vfo_for thresh f1 Phase.tune f0 0 key vis s ps).ret with _ | x
      · simp only []
        by_cases hd : (scan_vfo_for thresh f1 Phase.tune f0 0 key vis s ps).done = true
        · rw [if_pos hd]
          exact main_vars_kept_trans _ _ _ hw (ih _ _ _ _)
        · rw [if_neg hd]; exact hw
      · exact hw

theorem scan_vfo_kept (thresh : Int) (fuel : Nat) (s : State) (ps : List Poll) :
    main_vars_kept s (scan_vfo thresh fuel s ps).state := by
  unfold scan_vfo
  simp only []
  have hw := wait_no_key_kept ps s
  rcases hwe : wait_no_key s ps with ⟨b, t, qs⟩
  rw [hwe] at hw
  cases b with
  | false => exact hw
  | true => exact main_vars_kept_trans _ _ _ hw (scan_vfo_loop_kept _ _ _ fuel 0 [] t qs)

theorem adj_lo_pass_kept (sb : Int) (s : State) : main_vars_kept s (adj_lo_pass sb s) := by
  unfold adj_lo_pass
  simp only []
  split_ifs <;> exact ⟨rfl, rfl, rfl, rfl, rfl, rfl, rfl⟩

theorem adj_lo_loop_kept (sb : Int) : ∀ (ps : List Poll) (s s1 : State) (ps1 : List Poll),
    adj_lo_loop sb s ps = some (s1, ps1) → main_vars_kept s s1 := by
  intro ps
  induction ps with
  | nil => intro s s1 ps1 h; simp [adj_lo_loop] at h
  | cons p ps ih =>
    intro s s1 ps1 h
    simp only [adj_lo_loop] at h
    have hp := main_vars_kept_trans _ _ _ (interrupts_kept p s) (adj_lo_pass_kept sb _)
    by_cases hk : p.key ≠ 0
    · rw [if_pos hk] at h
      have hs1 := (Prod.mk.inj (Option.some.inj h)).1
      rw [← hs1]
      exact hp
    · rw [if_neg hk] at h
      exact main_vars_kept_trans _ _ _ hp (ih _ _ _ h)

theorem adj_lo_frequency_kept (sb : Int) (s : State) (ps : List Poll) (s1 : State)
    (ps1 : List Poll) (h : adj_lo_frequency sb s ps = some (s1, ps1)) :
    main_vars_kept s s1 := by
  unfold adj_lo_frequency at h
  rcases hl : adj_lo_loop sb (set_lo_frequency s (s.f_lo sb)) ps with _ | ⟨t, qs⟩
  · rw [hl] at h; simp at h
  · rw [hl] at h
    simp only [] at h
    have h1 := main_vars_kept_trans _ _ _ (set_lo_frequency_kept s _) (adj_lo_loop_kept sb _ _ _ _ hl)
    have hw := wait_no_key_kept qs t
    rcases hwe : wait_no_key t qs with ⟨b, t2, qs2⟩
    rw [hwe] at h hw
    cases b with
    | false => simp at h
    | true =>
      simp only [] at h
      have hs1 := (Prod.mk.inj (Option.some.inj h)).1
      rw [← hs1]
      exact main_vars_kept_trans _ _ _ h1 hw

/-! ## Scan threshold: what `set_scan_threshold` returns -/

theorem set_scan_threshold_pass_kept (l : Int) (s : State) :
    main_vars_kept s (set_scan_threshold_pass l s).2 ∧
    (0 ≤ l → l ≤ 100 →
      0 ≤ (set_scan_threshold_pass l s).1 ∧ (set_scan_threshold_pass l s).1 ≤ 100) := by
  unfold set_scan_threshold_pass
  simp only []
  constructor
  · split_ifs <;> exact ⟨rfl, rfl, rfl, rfl, rfl, rfl, rfl⟩
  · intro h0 h1
    unfold wrap16
    split_ifs <;> constructor <;> simp only [] <;> omega

/-- The state that `set_scan_threshold` leaves differs from the one it found, in the
variables followed here, at most in the EEPROM; the value returned is -1 with the
EEPROM untouched, or, for a start value in 0..100, a value in 0..100 that has been
stored. -/
theorem set_scan_threshold_loop_result : ∀ (n : Nat) (ps : List Poll), ps.length ≤ n →
    ∀ (l : Int) (s : State) (r : Int) (s1 : State) (ps1 : List Poll),
    set_scan_threshold_loop l s ps = some (r, s1, ps1) →
    main_vars_kept s { s1 with eeprom := s.eeprom } ∧
    (0 ≤ l → l ≤ 100 →
      (r = -1 ∧ s1.eeprom = s.eeprom) ∨
      (0 ≤ r ∧ r ≤ 100 ∧ s1.eeprom = store_scan_thresh s.eeprom r)) := by
  intro n
  induction n with
  | zero =>
    intro ps hlen l s r s1 ps1 h
    have : ps = [] := List.length_eq_zero.mp (Nat.le_zero.mp hlen)
    subst this
    simp [set_scan_threshold_loop] at h
  | succ n ih =>
    intro ps hlen l s r s1 ps1 h
    have hexit : ∀ (p : Poll) (rest : List Poll),
        some ((-1 : Int), interrupts p s, rest) = some (r, s1, ps1) →
        main_vars_kept s { s1 with eeprom := s.eeprom } ∧
        (0 ≤ l → l ≤ 100 →
          (r = -1 ∧ s1.eeprom = s.eeprom) ∨
          (0 ≤ r ∧ r ≤ 100 ∧ s1.eeprom = store_scan_thresh s.eeprom r)) := by
      intro p rest he
      have h1 := (Prod.mk.inj (Option.some.inj he)).1
      have h2 := (Prod.mk.inj (Prod.mk.inj (Option.some.inj he)).2).1
      have hk := interrupts_kept p s
      rw [← h2]
      exact ⟨⟨hk.1, hk.2.1, hk.2.2.1, hk.2.2.2.1, hk.2.2.2.2.1, hk.2.2.2.2.2.1, rfl⟩,
        fun _ _ => Or.inl ⟨h1.symm, hk.2.2.2.2.2.2⟩⟩
    match ps, hlen, h with
    | [], _, h => simp [set_scan_threshold_loop] at h
    | [p], _, h =>
      simp only [set_scan_threshold_loop] at h
      by_cases hp : p.key ≠ 0
      · rw [if_pos hp] at h
        exact hexit p [] h
      · rw [if_neg hp] at h
        cases h
    | p :: q :: qs, hlen, h =>
      simp only [set_scan_threshold_loop] at h
      by_cases hp : p.key ≠ 0
      · rw [if_pos hp] at h
        exact hexit p (q :: qs) h
      · rw [if_neg hp] at h
        obtain ⟨hpk, hpr⟩ := set_scan_threshold_pass_kept l (interrupts p s)
        have hk2 : main_vars_kept s
            (interrupts q (set_scan_threshold_pass l (interrupts p s)).2) :=
          main_vars_kept_trans _ _ _
            (main_vars_kept_trans _ _ _ (interrupts_kept p s) hpk) (interrupts_kept q _)
        by_cases hq : q.key = 2
        · rw [if_pos hq] at h
          have h1 := (Prod.mk.inj (Option.some.inj h)).1
          have h2 := (Prod.mk.inj (Prod.mk.inj (Option.some.inj h)).2).1
          rw [← h2, ← h1]
          refine ⟨⟨hk2.1, hk2.2.1, hk2.2.2.1, hk2.2.2.2.1, hk2.2.2.2.2.1, hk2.2.2.2.2.2.1, rfl⟩,
            fun h0 h100 => Or.inr ⟨(hpr h0 h100).1, (hpr h0 h100).2, ?_⟩⟩
          show store_scan_thresh _ _ = _
          rw [hk2.2.2.2.2.2.2]
        · rw [if_neg hq] at h
          have hlen2 : qs.length ≤ n := by
            simp only [List.length_cons] at hlen
            omega
          obtain ⟨g1, g2⟩ := ih qs hlen2 _ _ r s1 ps1 h
          have he : (interrupts q (set_scan_threshold_pass l (interrupts p s)).2).eeprom
              = s.eeprom := hk2.2.2.2.2.2.2
          rw [he] at g1 g2
          refine ⟨⟨g1.1.trans hk2.1, g1.2.1.trans hk2.2.1, g1.2.2.1.trans hk2.2.2.1,
            g1.2.2.2.1.trans hk2.2.2.2.1, g1.2.2.2.2.1.trans hk2.2.2.2.2.1,
            g1.2.2.2.2.2.1.trans hk2.2.2.2.2.2.1, rfl⟩, fun h0 h100 => ?_⟩
          exact g2 (hpr h0 h100).1 (hpr h0 h100).2

theorem set_scan_threshold_result (cur : Int) (s : State) (ps : List Poll) (r : Int)
    (s1 : State) (ps1 : List Poll) (h : set_scan_threshold cur s ps = some (r, s1, ps1)) :
    main_vars_kept s { s1 with eeprom := s.eeprom } ∧
    (0 ≤ cur → cur ≤ 100 →
      (r = -1 ∧ s1.eeprom = s.eeprom) ∨
      (0 ≤ r ∧ r ≤ 100 ∧ s1.eeprom = store_scan_thresh s.eeprom r)) := by
  unfold set_scan_threshold at h
  have hw := wait_no_key_kept ps s
  rcases hwe : wait_no_key s ps with ⟨b, t, qs⟩
  rw [hwe] at h hw
  cases b with
  | false => simp at h
  | true =>
    simp only [] at h
    obtain ⟨g1, g2⟩ := set_scan_threshold_loop_result qs.length qs (le_refl _) cur t r s1 ps1 h
    have he : t.eeprom = s.eeprom := hw.2.2.2.2.2.2
    rw [he] at g1 g2
    exact ⟨⟨g1.1.trans hw.1, g1.2.1.trans hw.2.1, g1.2.2.1.trans hw.2.2.1,
      g1.2.2.2.1.trans hw.2.2.2.1, g1.2.2.2.2.1.trans hw.2.2.2.2.1,
      g1.2.2.2.2.2.1.trans hw.2.2.2.2.2.1, rfl⟩, g2⟩

/-! ## Active VFO -/

theorem run_irqs_cur_vfo : ∀ (is : List Irq) (s : State), (run_irqs is s).cur_vfo = s.cur_vfo := by
  intro is
  induction is with
  | nil => intro s; rfl
  | cons i is ih =>
    intro s
    cases i with
    | timer => exact ih _
    | pin pind =>
      show (run_irqs is (ISR_PCINT2 pind s)).cur_vfo = s.cur_vfo
      rw [ih]
      unfold ISR_PCINT2
      simp only []
      split_ifs <;> rfl

theorem main_tuning_cur_vfo (s : State) : (main_tuning s).cur_vfo = s.cur_vfo := by
  have h1 : ∀ t : State, (main_tuning_ccw t).cur_vfo = t.cur_vfo := by
    intro t
    unfold main_tuning_ccw
    split_ifs <;> rfl
  have h2 : ∀ t : State, (main_tuning_cw t).cur_vfo = t.cur_vfo := by
    intro t
    unfold main_tuning_cw
    split_ifs <;> rfl
  unfold main_tuning
  rw [h2, h1]

theorem main_key_cur_vfo (k : Int) (s : State) : (main_key k s).cur_vfo = s.cur_vfo := by
  unfold main_key
  split_ifs <;> rfl

theorem main_store_cur_vfo (s : State) : (main_store s).cur_vfo = s.cur_vfo := by
  unfold main_store
  split_ifs <;> rfl

/-- The split swaps produce 0 or 1 whatever `cur_vfo` was. -/
theorem main_tx_cur_vfo (ptt : Int) (s : State) (h : s.cur_vfo = 0 ∨ s.cur_vfo = 1) :
    (main_tx ptt s).cur_vfo = 0 ∨ (main_tx ptt s).cur_vfo = 1 := by
  unfold main_tx
  simp only []
  split_ifs
  · right; rfl
  · left; rfl
  · exact h
  · exact h
  · exact h

theorem main_rx_cur_vfo (ptt : Int) (s : State) (h : s.cur_vfo = 0 ∨ s.cur_vfo = 1) :
    (main_rx ptt s).cur_vfo = 0 ∨ (main_rx ptt s).cur_vfo = 1 := by
  unfold main_rx
  simp only []
  split_ifs
  · right; rfl
  · left; rfl
  · exact h
  · exact h
  · exact h

theorem main_vfo_to_mem_cur_vfo (s : State) (ps : List Poll) (t : State) (ps1 : List Poll)
    (h : main_vfo_to_mem s ps = some (t, ps1)) : t.cur_vfo = s.cur_vfo := by
  unfold main_vfo_to_mem at h
  rcases hm : mem_select s.cur_mem s ps with _ | ⟨r, s1, qs⟩
  · rw [hm] at h; simp at h
  · rw [hm] at h
    simp only [] at h
    have hk := (mem_select_kept _ _ _ _ _ _ hm).1
    split_ifs at h <;>
    · have ht := (Prod.mk.inj (Option.some.inj h)).1
      rw [← ht]
      exact hk

theorem main_mem_to_vfo_cur_vfo (s : State) (ps : List Poll) (t : State) (ps1 : List Poll)
    (h : main_mem_to_vfo s ps = some (t, ps1)) : t.cur_vfo = s.cur_vfo := by
  unfold main_mem_to_vfo at h
  rcases hm : mem_select s.cur_mem s ps with _ | ⟨r, s1, qs⟩
  · rw [hm] at h; simp at h
  · rw [hm] at h
    simp only [] at h
    have hk := (mem_select_kept _ _ _ _ _ _ hm).1
    split_ifs at h <;>
    · have ht := (Prod.mk.inj (Option.some.inj h)).1
      rw [← ht]
      exact hk

theorem main_scan_memories_cur_vfo (fuel : Nat) (s : State) (ps : List Poll) (t : State)
    (ps1 : List Poll) (h : main_scan_memories fuel s ps = some (t, ps1)) :
    t.cur_vfo = s.cur_vfo := by
  unfold main_scan_memories at h
  simp only [] at h
  have hk := (scan_memories_kept s.scan_thresh fuel s ps).1
  rcases hr : (scan_memories s.scan_thresh fuel s ps).result with _ | t1
  · rw [hr] at h; simp at h
  · rw [hr] at h
    simp only [] at h
    split_ifs at h <;>
    · have ht := (Prod.mk.inj (Option.some.inj h)).1
      rw [← ht]
      exact hk

theorem main_scan_vfo_cur_vfo (fuel : Nat) (s : State) (ps : List Poll) (t : State)
    (ps1 : List Poll) (h : main_scan_vfo fuel s ps = some (t, ps1)) :
    t.cur_vfo = s.cur_vfo := by
  unfold main_scan_vfo at h
  simp only [] at h
  have hk := (scan_vfo_kept s.scan_thresh fuel s ps).1
  rcases hr : (scan_vfo s.scan_thresh fuel s ps).result with _ | t1
  · rw [hr] at h; simp at h
  · rw [hr] at h
    simp only [] at h
    split_ifs at h <;>
    · have ht := (Prod.mk.inj (Option.some.inj h)).1
      rw [← ht]
      exact hk

theorem main_set_thresh_cur_vfo (s : State) (ps : List Poll) (t : State) (ps1 : List Poll)
    (h : main_set_thresh s ps = some (t, ps1)) : t.cur_vfo = s.cur_vfo := by
  unfold main_set_thresh at h
  rcases hm : set_scan_threshold s.scan_thresh s ps with _ | ⟨r, s1, qs⟩
  · rw [hm] at h; simp at h
  · rw [hm] at h
    simp only [] at h
    have hk := (set_scan_threshold_result _ _ _ _ _ _ hm).1.1
    have ht := (Prod.mk.inj (Option.some.inj h)).1
    rw [← ht]
    exact hk

/-- Of the menu actions only the VFO swap assigns `cur_vfo`, and it assigns 0 or 1. -/
theorem main_menu_action_cur_vfo (fuel : Nat) (rval : Int) (s : State) (ps : List Poll)
    (t : State) (ps1 : List Poll) (h : main_menu_action fuel rval s ps = some (t, ps1)) :
    t.cur_vfo = s.cur_vfo ∨ (rval = 0 ∧ t.cur_vfo = if s.cur_vfo ≠ 0 then 0 else 1) := by
  unfold main_menu_action at h
  have hst : ∀ (u : State) (qs : List Poll), some (u, qs) = some (t, ps1) →
      u.cur_vfo = s.cur_vfo → t.cur_vfo = s.cur_vfo := by
    intro u qs he hu
    rw [← (Prod.mk.inj (Option.some.inj he)).1]
    exact hu
  by_cases c0 : rval = 0
  · rw [if_pos c0] at h
    right
    refine ⟨c0, ?_⟩
    rw [← (Prod.mk.inj (Option.some.inj h)).1]
    rfl
  rw [if_neg c0] at h
  left
  by_cases c1 : rval = 1
  · rw [if_pos c1] at h; exact hst _ _ h rfl
  rw [if_neg c1] at h
  by_cases c2 : rval = 2
  · rw [if_pos c2] at h; exact hst _ _ h rfl
  rw [if_neg c2] at h
  by_cases c3 : rval = 3
  · rw [if_pos c3] at h; exact main_vfo_to_mem_cur_vfo s ps t ps1 h
  rw [if_neg c3] at h
  by_cases c4 : rval = 4
  · rw [if_pos c4] at h; exact main_mem_to_vfo_cur_vfo s ps t ps1 h
  rw [if_neg c4] at h
  by_cases c10 : rval = 10 ∨ rval = 11
  · rw [if_pos c10] at h; exact hst _ _ h rfl
  rw [if_neg c10] at h
  by_cases c20 : rval = 20 ∨ rval = 21
  · rw [if_pos c20] at h; exact hst _ _ h rfl
  rw [if_neg c20] at h
  by_cases c22 : rval = 22 ∨ rval = 23
  · rw [if_pos c22] at h; exact hst _ _ h rfl
  rw [if_neg c22] at h
  by_cases c30 : rval = 30
  · rw [if_pos c30] at h; exact main_scan_memories_cur_vfo fuel s ps t ps1 h
  rw [if_neg c30] at h
  by_cases c31 : rval = 31
  · rw [if_pos c31] at h; exact main_scan_vfo_cur_vfo fuel s ps t ps1 h
  rw [if_neg c31] at h
  by_cases c32 : rval = 32
  · rw [if_pos c32] at h; exact main_set_thresh_cur_vfo s ps t ps1 h
  rw [if_neg c32] at h
  by_cases c40 : rval ≥ 40 ∧ rval ≤ 42
  · rw [if_pos c40] at h; exact hst _ _ h rfl
  rw [if_neg c40] at h
  by_cases c50 : rval = 50 ∨ rval = 51
  · rw [if_pos c50] at h; exact (adj_lo_frequency_kept _ s ps t ps1 h).1
  rw [if_neg c50] at h
  exact hst _ _ h rfl

theorem main_menu_cur_vfo (fuel : Nat) (s : State) (ps : List Poll) (t : State)
    (ps1 : List Poll) (hv : s.cur_vfo = 0 ∨ s.cur_vfo = 1)
    (h : main_menu fuel s ps = some (t, ps1)) : t.cur_vfo = 0 ∨ t.cur_vfo = 1 := by
  unfold main_menu at h
  rcases hm : menux s ps with _ | ⟨rval, s1, qs⟩
  · rw [hm] at h; simp at h
  · rw [hm] at h
    simp only [] at h
    have hk1 := (menux_walk_kept _ s ps rval s1 qs hm).1
    have hw := (wait_no_key_kept qs s1).1
    rcases hwe : wait_no_key s1 qs with ⟨b, s2, qs2⟩
    rw [hwe] at h hw
    cases b with
    | false => simp at h
    | true =>
      simp only [] at h
      rcases ha : main_menu_action fuel (wrap16 rval) s2 qs2 with _ | ⟨s3, qs3⟩
      · rw [ha] at h; simp at h
      · rw [ha] at h
        simp only [] at h
        have ht := (Prod.mk.inj (Option.some.inj h)).1
        have h3 : s3.cur_vfo = 0 ∨ s3.cur_vfo = 1 := by
          have h2 : s2.cur_vfo = s.cur_vfo := hw.trans hk1
          rcases main_menu_action_cur_vfo fuel _ s2 qs2 s3 qs3 ha with g | ⟨_, g⟩
          · rw [g, h2]; exact hv
          · rw [g]
            split_ifs
            · left; rfl
            · right; rfl
        rw [← ht]
        exact h3

theorem main_pass_cur_vfo (fuel : Nat) (i : Pass) (s t : State)
    (hv : s.cur_vfo = 0 ∨ s.cur_vfo = 1) (h : main_pass fuel i s = some t) :
    t.cur_vfo = 0 ∨ t.cur_vfo = 1 := by
  unfold main_pass at h
  simp only [] at h
  have h1 : (main_key i.key (main_tuning (run_irqs i.irqs s))).cur_vfo = s.cur_vfo := by
    rw [main_key_cur_vfo, main_tuning_cur_vfo, run_irqs_cur_vfo]
  have hfin : ∀ u : State, (u.cur_vfo = 0 ∨ u.cur_vfo = 1) →
      some (main_rx i.ptt2 (main_tx i.ptt1 (main_store u))) = some t →
      t.cur_vfo = 0 ∨ t.cur_vfo = 1 := by
    intro u hu he
    rw [← Option.some.inj he]
    exact main_rx_cur_vfo _ _ (main_tx_cur_vfo _ _ (by rw [main_store_cur_vfo]; exact hu))
  by_cases hk : (main_key i.key (main_tuning (run_irqs i.irqs s))).key = 1
  · rw [if_pos hk] at h
    rcases hm : main_menu fuel (main_key i.key (main_tuning (run_irqs i.irqs s))) i.polls with
      _ | ⟨u, qs⟩
    · rw [hm] at h; simp at h
    · rw [hm] at h
      simp only [Option.map] at h
      exact hfin u (main_menu_cur_vfo fuel _ _ u qs (by rw [h1]; exact hv) hm) h
  · rw [if_neg hk] at h
    simp only [] at h
    exact hfin _ (by rw [h1]; exact hv) h

theorem main_run_cur_vfo (fuel : Nat) : ∀ (passes : List Pass) (s t : State),
    (s.cur_vfo = 0 ∨ s.cur_vfo = 1) → main_run fuel passes s = some t →
    t.cur_vfo = 0 ∨ t.cur_vfo = 1 := by
  intro passes
  induction passes with
  | nil =>
    intro s t hv h
    simp only [main_run] at h
    rw [← Option.some.inj h]
    exact hv
  | cons i is ih =>
    intro s t hv h
    simp only [main_run] at h
    rcases hp : main_pass fuel i s with _ | u
    · rw [hp] at h; simp at h
    · rw [hp] at h
      simp only [] at h
      exact ih u t (main_pass_cur_vfo fuel i s u hv hp) h

theorem main_init_cur_vfo_range (e : EEPROM) :
    (main_init e).cur_vfo = 0 ∨ (main_init e).cur_vfo = 1 := by
  rw [main_init_cur_vfo]
  unfold load_last_vfo
  simp only []
  split_ifs <;> omega

/-- C24. Active VFO invariant: for every EEPROM content found at power-up and every
sequence of passes of the endless loop of `main` (interrupts, keys, menu actions
with their polls, PTT), `cur_vfo` is 0 or 1 at the end of each pass.  The start-up
establishes it, the VFO swap of the menu turns 0 into 1 and anything else into 0,
and the split swaps turn 0 into 1 and anything else into 0; no other part of the
loop and no function called from it assigns `cur_vfo`. -/
theorem active_vfo_invariant (e : EEPROM) (fuel : Nat) (passes : List Pass) (s : State)
    (h : main_run fuel passes (main_init e) = some s) :
    (s.cur_vfo = 0 ∨ s.cur_vfo = 1) ∧
    ((main_init e).cur_vfo = 0 ∨ (main_init e).cur_vfo = 1) ∧
    (∀ t : State, (main_swap_vfo t).cur_vfo = if t.cur_vfo ≠ 0 then 0 else 1) ∧
    (∀ (t : State) (ptt : Int), (t.cur_vfo = 0 ∨ t.cur_vfo = 1) →
      ((main_tx ptt t).cur_vfo = 0 ∨ (main_tx ptt t).cur_vfo = 1) ∧
      ((main_rx ptt t).cur_vfo = 0 ∨ (main_rx ptt t).cur_vfo = 1)) ∧
    (∀ (rval : Int) (t u : State) (ps ps1 : List Poll), rval ≠ 0 →
      main_menu_action fuel rval t ps = some (u, ps1) → u.cur_vfo = t.cur_vfo) := by
  refine ⟨main_run_cur_vfo fuel passes _ s (main_init_cur_vfo_range e) h,
    main_init_cur_vfo_range e, fun t => rfl,
    fun t ptt ht => ⟨main_tx_cur_vfo ptt t ht, main_rx_cur_vfo ptt t ht⟩, ?_⟩
  intro rval t u ps ps1 hr ha
  rcases main_menu_action_cur_vfo fuel rval t ps u ps1 ha with g | ⟨g, _⟩
  · exact g
  · exact absurd g hr

set_option maxRecDepth 8192 in
theorem active_vfo_invariant_witness :
    ∃ x, main_run 0 [Pass.mk [Irq.timer] 1 [idle, idle, press 2, idle, idle] 0 0,
        Pass.mk [Irq.timer] 0 [] 1 1] (main_init erased) = some x ∧
      x.cur_vfo = 1 ∧ x.txrx = 1 ∧ (x.cur_vfo = 0 ∨ x.cur_vfo = 1) := by
  have hs : (main_run 0 [Pass.mk [Irq.timer] 1 [idle, idle, press 2, idle, idle] 0 0,
        Pass.mk [Irq.timer] 0 [] 1 1]
      (main_init erased)).map (fun s => (s.cur_vfo, s.txrx)) = some (1, 1) := by decide
  rcases hx : main_run 0 [Pass.mk [Irq.timer] 1 [idle, idle, press 2, idle, idle] 0 0,
        Pass.mk [Irq.timer] 0 [] 1 1] (main_init erased) with _ | x
  · rw [hx] at hs; simp at hs
  · rw [hx] at hs
    have h := active_vfo_invariant erased 0 _ x hx
    have h2 : x.cur_vfo = 1 ∧ x.txrx = 1 := by simpa using hs
    exact ⟨x, rfl, h2.1, h2.2, h.1⟩

/-! ## Scan threshold -/

theorem main_init_scan_thresh_range (e : EEPROM) :
    0 ≤ (main_init e).scan_thresh ∧ (main_init e).scan_thresh ≤ 100 := by
  have h : (main_init e).scan_thresh
      = if recall_scan_thresh (main_load e).eeprom = -1 then 0
        else recall_scan_thresh (main_load e).eeprom := rfl
  rw [h]
  unfold recall_scan_thresh
  simp only []
  split_ifs <;> omega

/-- The set-threshold action leaves `scan_thresh` in 0..100, when it was there, only
if `set_scan_threshold` returned from its `key == 2` branch; otherwise it leaves
-1. -/
theorem main_set_thresh_result (s : State) (ps : List Poll) (t : State) (ps1 : List Poll)
    (h0 : 0 ≤ s.scan_thresh) (h1 : s.scan_thresh ≤ 100)
    (h : main_set_thresh s ps = some (t, ps1)) :
    (t.scan_thresh = -1 ∧ t.eeprom = s.eeprom) ∨
    (0 ≤ t.scan_thresh ∧ t.scan_thresh ≤ 100 ∧
      t.eeprom = store_scan_thresh s.eeprom t.scan_thresh) := by
  unfold main_set_thresh at h
  rcases hm : set_scan_threshold s.scan_thresh s ps with _ | ⟨r, s1, qs⟩
  · rw [hm] at h; simp at h
  · rw [hm] at h
    simp only [] at h
    have ht := (Prod.mk.inj (Option.some.inj h)).1
    rw [← ht]
    exact (set_scan_threshold_result _ _ _ _ _ _ hm).2 h0 h1

set_option maxRecDepth 8192 in
/-- C23 (the code departs from it). After start-up on an erased EEPROM `scan_thresh`
is 0.  One pass of the endless loop in which the menu is opened, "set scan
threshold" (menu result 32) is chosen and `set_scan_threshold` is ended with key 1
leaves `scan_thresh = -1`: the function returns -1 and `main` assigns it.  The
function returns -1 as well when key 2 is found by the test of its loop
`while(!get_keys())` instead of by `key = get_keys()`.  With -1 as threshold the
memory scan holds at the first band-valid index even with no signal (every sample
0 exceeds -1): after 60 ticks it is still at index 5, where the scan with
threshold 0 has gone on through index 15. -/
theorem scan_thresh_minus_one :
    (main_init erased).scan_thresh = 0 ∧
    (main_run 0 [Pass.mk [Irq.timer] 1
        [idle, press 1, idle, idle, press 1, idle, idle, press 1, idle,
         idle, idle, turn (-3), turn (-3), press 2, idle, idle, idle, press 1] 0 0]
      (main_init erased)).map (fun s => s.scan_thresh) = some (-1) ∧
    (menux (main_init erased)
        [idle, press 1, idle, idle, press 1, idle, idle, press 1, idle,
         idle, idle, turn (-3), turn (-3), press 2, idle]).map Prod.fst = some 32 ∧
    (set_scan_threshold 0 (main_init erased) [idle, press 1]).map Prod.fst = some (-1) ∧
    (set_scan_threshold 0 (main_init erased) [idle, press 2]).map Prod.fst = some (-1) ∧
    (set_scan_threshold 0 (main_init erased) [idle, idle, press 2]).map Prod.fst = some 0 ∧
    (scan_memories (-1) 16 (main_init only5) (idle :: List.replicate 60 tick)).result = none ∧
    (scan_memories (-1) 16 (main_init only5) (idle :: List.replicate 60 tick)).visited
      = [0, 1, 2, 3, 4, 5] ∧
    (scan_memories 0 16 (main_init only5) (idle :: List.replicate 60 tick)).visited
      = [0, 1, 2, 3, 4, 5, 6, 7, 8, 9, 10, 11, 12, 13, 14, 15] := by
  refine ⟨by decide, by decide, by decide, by decide, by decide, by decide, by decide,
    by decide, by decide⟩

/-! ## Memory index -/

theorem main_init_cur_mem_range (e : EEPROM) :
    0 ≤ (main_init e).cur_mem ∧ (main_init e).cur_mem ≤ 15 := by
  have h : (main_init e).cur_mem
      = if recall_last_mem (main_load e).eeprom = -1 then 0
        else recall_last_mem (main_load e).eeprom := rfl
  rw [h]
  unfold recall_last_mem
  simp only []
  split_ifs <;> omega

theorem scan_memories_result_range (thresh : Int) (fuel : Nat) (s : State) (ps : List Poll)
    (r : Int) (h : (scan_memories thresh fuel s ps).result = some r) :
    r = -1 ∨ (0 ≤ r ∧ r ≤ 15) := by
  unfold scan_memories at h
  rcases hwe : wait_no_key s ps with ⟨b, t, qs⟩
  rw [hwe] at h
  cases b with
  | false => simp at h
  | true =>
    simp only [] at h
    rcases first_key_split qs with hz | ⟨pre, q, post, he, hz, hq⟩
    · rw [(scan_memories_loop_keys_zero thresh fuel 0 [] t qs hz).1] at h
      cases h
    · subst he
      rcases scan_memories_loop_first_key thresh q post hq fuel 0 [] t pre (le_refl 0)
        (by decide) hz with ⟨hn, _⟩ | ⟨_, vis, m, _, hm0, hm1, _, hres⟩
      · rw [hn] at h; cases h
      · rw [hres] at h
        have hr := (Option.some.inj h).symm
        rw [hr]
        split_ifs
        · right; exact ⟨hm0, hm1⟩
        · left; rfl

/-- The memory-scan selection keeps `cur_mem` in 0..15. -/
theorem main_scan_memories_cur_mem (fuel : Nat) (s : State) (ps : List Poll) (t : State)
    (ps1 : List Poll) (h0 : 0 ≤ s.cur_mem) (h1 : s.cur_mem ≤ 15)
    (h : main_scan_memories fuel s ps = some (t, ps1)) :
    0 ≤ t.cur_mem ∧ t.cur_mem ≤ 15 := by
  unfold main_scan_memories at h
  simp only [] at h
  have hk := (scan_memories_kept s.scan_thresh fuel s ps).2.2.1
  rcases hr : (scan_memories s.scan_thresh fuel s ps).result with _ | t1
  · rw [hr] at h; simp at h
  · have hrange := scan_memories_result_range _ _ _ _ t1 hr
    rw [hr] at h
    simp only [] at h
    by_cases c1 : t1 ≠ -1
    · rw [if_pos c1] at h
      by_cases c2 : is_mem_freq_ok
          (load_frequency (scan_memories s.scan_thresh fuel s ps).state.eeprom 0 t1) ≠ 0
      · rw [if_pos c2] at h
        rw [← (Prod.mk.inj (Option.some.inj h)).1]
        show 0 ≤ t1 ∧ t1 ≤ 15
        rcases hrange with g | g
        · exact absurd g c1
        · exact g
      · rw [if_neg c2] at h
        rw [← (Prod.mk.inj (Option.some.inj h)).1, hk]
        exact ⟨h0, h1⟩
    · rw [if_neg c1] at h
      rw [← (Prod.mk.inj (Option.some.inj h)).1, hk]
      exact ⟨h0, h1⟩

set_option maxRecDepth 8192 in
/-- C28 (the code departs from it). After start-up on an erased EEPROM `cur_mem` is 0.
One pass of the endless loop in which the menu is opened, MEM>VFO (menu result 4)
is chosen and `mem_select` is ended with key 1 leaves `cur_mem = -1`.  A following
pass with the store key then calls `store_last_mem(-1)` and
`store_frequency(f, cur_vfo, -1)`: the start address is 0, not one in 16..79, byte
11 reads 255, and the addresses written are 8, 11 and twice 0..3. -/
theorem cur_mem_minus_one :
    (main_init erased).cur_mem = 0 ∧
    (menux (main_init erased)
        [idle, idle, turn (-3), turn (-3), turn (-3), turn (-3), press 2, idle]).map Prod.fst
      = some 4 ∧
    (main_run 0 [Pass.mk [Irq.timer] 1
        [idle, idle, turn (-3), turn (-3), turn (-3), turn (-3), press 2, idle,
         idle, idle, press 1] 0 0]
      (main_init erased)).map (fun s => s.cur_mem) = some (-1) ∧
    (main_run 0 [Pass.mk [Irq.timer] 1
        [idle, idle, turn (-3), turn (-3), turn (-3), turn (-3), press 2, idle,
         idle, idle, press 1] 0 0, Pass.mk [Irq.timer] 2 [] 0 0]
      (main_init erased)).map
        (fun s => (s.cur_mem, s.cur_vfo, start_adr s.cur_vfo s.cur_mem,
          eeprom_read_byte s.eeprom 11)) = some (-1, 0, 0, 255) ∧
    (main_run 0 [Pass.mk [Irq.timer] 1
        [idle, idle, turn (-3), turn (-3), turn (-3), turn (-3), press 2, idle,
         idle, idle, press 1] 0 0, Pass.mk [Irq.timer] 2 [] 0 0]
      (main_init erased)).map (fun s => s.eeprom.written)
      = some ((main_init erased).eeprom.written ++ [8, 11, 0, 1, 2, 3, 0, 1, 2, 3]) := by
  refine ⟨by decide, by decide, by decide, by decide, by decide⟩

/-! ## Interrupt enable bit in the control loop -/

end Micro26
